import Mathlib

/-!
# Configuration partition of the QSPI flash driver

A shallow embedding of `FlashCommon.h` and `FlashConfig.h` (the configuration engine
`FlashConfig`, its cache entries `ConfigItem`, the page checksum) together with the flash
interface of `test/flash.cpp`, followed by theorems about the embedding.

Conventions of the embedding.

* Unsigned machine integers are natural numbers.  A narrowing conversion or a wrapping
  operation of the source is written as an explicit `% 2 ^ w` at the place where it happens;
  arguments are taken to be in the range of their parameter type.
* Memory reached through a pointer is a map from byte offsets to bytes (`Mem`).  The cache
  `sCache`, the dirty map `sDirtyPages` and the read-ahead buffer `sReadAheadBuffer` are maps
  from indices; the allocation sizes (`tMaxItemCount`, `cCopySizeInPages`, the read-ahead
  size) occur exactly where the source uses them as loop or search bounds.
* The static members of `FlashConfig` form the record `FlashConfig`; the state of the
  interface class (the flash array, plus a log of the calls made to it) forms the record
  `FlashInterface`; `State` holds both.
* `while` loops whose trip count is not a syntactic bound carry a fuel argument; the lemmas
  on fuel show that the fuel supplied by the callers is never exhausted.
-/

namespace nowtech.memory

/-! ## FlashCommon.h -/

/-- Number of redundant copies of a partition (`enum class FlashCopies`). -/
inductive FlashCopies where
  | c1
  | c2
deriving DecidableEq, Repr

/-- Status of a device transfer (`enum class SpiResult`). -/
inductive SpiResult where
  | cOk
  | cError
  | cBusy
  | cTimeout
  | cMap
  | cInvalid
  | cMissing
deriving DecidableEq, Repr

/-- Fatal conditions handed to `tInterface::fatalError` (`enum class FlashException`). -/
inductive FlashException where
  | cCommunication
  | cConfigBadCopy1
  | cConfigBadCopy2
  | cConfigBadCopies
  | cConfigCopiesMismatch
  | cConfigInvalidId
  | cConfigFull
  | cConfigItemTooBig
  | cFlashTransferError
deriving DecidableEq, Repr

/-- Memory seen through a `uint8_t` pointer: byte offset from the pointer to the byte there. -/
abbrev Mem := Nat → Nat

/-- Pointer arithmetic `aWhere + aOffset` on a byte pointer. -/
def ptrAdd (aWhere : Mem) (aOffset : Nat) : Mem :=
  fun k => aWhere (aOffset + k)

/-- Assignment `f[i] = v` to one element of an array. -/
def upd {α : Type} (f : Nat → α) (i : Nat) (v : α) : Nat → α :=
  fun k => if k = i then v else f k

/-- The call `std::copy_n(aSource, aCount, aTarget + aStart)` on byte arrays. -/
def copyN (aSource : Mem) (aCount : Nat) (aTarget : Mem) (aStart : Nat) : Mem :=
  fun k => if aStart ≤ k ∧ k < aStart + aCount then aSource (k - aStart) else aTarget k

/-- Magic byte of a configuration page (`Magic::cConfig`). -/
def cMagicConfig : Nat := 0

/-- Magic byte of an erased page (`Magic::cErased`). -/
def cMagicErased : Nat := 0xff

/-- The instance `getValue<uint16_t>`: little-endian read of two bytes at `aWhere`. -/
def getValue (aWhere : Mem) : Nat :=
  (aWhere 0 ||| (aWhere 1 <<< 8)) % 65536

/-- The instance `setValue<uint16_t>`: little-endian write of `aValue` at offset `aWhere`
of the byte array `aMem`. -/
def setValue (aMem : Mem) (aWhere : Nat) (aValue : Nat) : Mem :=
  upd (upd aMem aWhere (aValue % 256)) (aWhere + 1) ((aValue >>> 8) % 256)

def cOffsetPageMagic : Nat := 0

def cOffsetPageCount : Nat := cOffsetPageMagic + 1

def cOffsetPageChecksum : Nat := cOffsetPageCount + 2

def cOffsetPageItems : Nat := cOffsetPageChecksum + 2

def cUnusedValue : Nat := 0xffff

def cChecksumXorValue : Nat := 0x5a

def cChecksumPrimeMask : Nat := 15

def cChecksumPrimeTable : List Nat :=
  [0x049D, 0x0C07, 0x1591, 0x1ACF, 0x1D4B, 0x202D, 0x2507, 0x2B4B,
   0x34A5, 0x38C5, 0x3D3F, 0x4445, 0x4D0F, 0x538F, 0x5FB3, 0x6BBF]

/-- Body of either loop of `calculateChecksum`; the accumulator is `(result, primeIndex)`. -/
def checksumStep (aData : Mem) (acc : Nat × Nat) (arrayIndex : Nat) : Nat × Nat :=
  ((acc.1 + (aData arrayIndex ^^^ cChecksumXorValue) * cChecksumPrimeTable.getD acc.2 0) % 65536,
   (acc.2 + 1) &&& cChecksumPrimeMask)

/-- The function `FlashCommon::calculateChecksum` for a page of `aPageSize` bytes: the first
loop runs over `[0, cOffsetPageChecksum)`, the second over
`[cOffsetPageChecksum + 2, aPageSize)`, and `primeIndex` is carried from one to the other. -/
def calculateChecksum (aPageSize : Nat) (aData : Mem) : Nat :=
  ((List.range' (cOffsetPageChecksum + 2) (aPageSize - (cOffsetPageChecksum + 2))).foldl
    (checksumStep aData)
    ((List.range cOffsetPageChecksum).foldl (checksumStep aData) (0, 0))).1

/-! ## Template parameters and derived constants -/

/-- The compile-time parameters of `FlashConfig`: the three constants of `tInterface` and the
template arguments. -/
structure Params where
  cPageSizeInBytes : Nat
  cSectorSizeInPages : Nat
  cFlashSizeInPages : Nat
  tPagesNeeded : Nat
  tCopies : FlashCopies
  tReadAheadSizeInPages : Nat
  tMaxItemCount : Nat
  tValueBufferSize : Nat

def cOffsetItemId : Nat := 0

def cOffsetItemCount : Nat := cOffsetItemId + 2

def cOffsetItemData : Nat := cOffsetItemCount + 2

/-- The constant `cPageItemSpace`, a `uint16_t`. -/
def Params.cPageItemSpace (cfg : Params) : Nat :=
  (cfg.cPageSizeInBytes - cOffsetPageItems) % 65536

/-- The constant `cMaxItemDataSize`, a `uint16_t`. -/
def Params.cMaxItemDataSize (cfg : Params) : Nat :=
  (cfg.cPageItemSpace - cOffsetItemData) % 65536

/-- The constant `cCopySizeInPages`. -/
def Params.cCopySizeInPages (cfg : Params) : Nat :=
  cfg.tPagesNeeded / (if cfg.tCopies = FlashCopies.c2 then 2 else 1)

/-- Number of set bits, `FlashPartitioner::countSetBits`, by fuel on the 32 bits. -/
def countSetBits : Nat → Nat → Nat
  | 0, _ => 0
  | fuel + 1, aNumber =>
    if aNumber > 0 then countSetBits fuel (aNumber &&& (aNumber - 1)) + 1 else 0

/-- The `static_assert`s of `FlashConfig` and those of `FlashPartitioner` that concern the
interface constants and the partition size. -/
def Params.valid (cfg : Params) : Prop :=
  cfg.tReadAheadSizeInPages > 1 ∧
  cfg.tReadAheadSizeInPages % cfg.cSectorSizeInPages = 0 ∧
  cfg.cCopySizeInPages % cfg.cSectorSizeInPages = 0 ∧
  cfg.cCopySizeInPages * (if cfg.tCopies = FlashCopies.c2 then 2 else 1) = cfg.tPagesNeeded ∧
  cfg.cFlashSizeInPages ≥ cfg.tPagesNeeded ∧
  cfg.cFlashSizeInPages * cfg.cPageSizeInBytes ≤ 4294967296 ∧
  countSetBits 33 cfg.cFlashSizeInPages = 1 ∧
  countSetBits 33 cfg.cPageSizeInBytes = 1 ∧
  cfg.cPageSizeInBytes ≥ 256 ∧
  cfg.cPageSizeInBytes ≤ 32768 ∧
  countSetBits 33 cfg.cSectorSizeInPages = 1 ∧
  cfg.tPagesNeeded % cfg.cSectorSizeInPages = 0 ∧
  cfg.cFlashSizeInPages > cfg.cSectorSizeInPages

instance (cfg : Params) : Decidable cfg.valid := by
  unfold Params.valid
  infer_instance

/-! ## ConfigItem -/

/-- The enumeration `ConfigItem::Status`. -/
inductive Status where
  | cVoid
  | cFew
  | cMany
deriving DecidableEq, Repr

/-- A cache entry.  `mData` stands for the value buffer, whichever arm of the union holds
it (`mDataFew` inline, or the array `mDataMany` points to). -/
structure ConfigItem where
  mData : Mem
  mPageIndex : Nat
  mDataOffsetInFirstPage : Nat
  mCount : Nat
  mStatus : Status

namespace ConfigItem

/-- The default constructor: page 0, count 0, status `cVoid`. -/
def new : ConfigItem :=
  { mData := fun _ => 0, mPageIndex := 0, mDataOffsetInFirstPage := 0, mCount := 0,
    mStatus := Status.cVoid }

/-- The method `ConfigItem::init`; the buffer it allocates has unspecified content, so
`mData` is left as it is. -/
def init (tValueBufferSize : Nat) (item : ConfigItem)
    (aStartPage aDataOffsetInFirstPage aCount : Nat) : ConfigItem :=
  if item.mStatus = Status.cVoid then
    { item with
      mPageIndex := aStartPage
      mDataOffsetInFirstPage := aDataOffsetInFirstPage
      mCount := aCount
      mStatus := if aCount > tValueBufferSize then Status.cMany else Status.cFew }
  else item

def getPageIndex (item : ConfigItem) : Nat := item.mPageIndex

def getDataOffsetInFirstPage (item : ConfigItem) : Nat := item.mDataOffsetInFirstPage

def getCount (item : ConfigItem) : Nat := item.mCount

def getData (item : ConfigItem) : Mem := item.mData

/-- The method `ConfigItem::doesMatch`: the first `mCount` bytes at `aData` equal the
buffer. -/
def doesMatch (item : ConfigItem) (aData : Mem) : Bool :=
  (List.range item.mCount).all fun i => aData i == item.mData i

/-- The method `ConfigItem::setData`: copy `mCount` bytes from `aData` into the buffer. -/
def setData (item : ConfigItem) (aData : Mem) : ConfigItem :=
  { item with mData := copyN aData item.mCount item.mData 0 }

end ConfigItem

/-! ## State -/

/-- The enumeration `FlashConfig::ReadResult`. -/
inductive ReadResult where
  | cOk
  | cErrorChecksum
  | cErrorConsistency
  | cErrorMismatch
  | cErased
  | cTransferError
deriving DecidableEq, Repr

/-- The enumeration `FlashConfig::Task`. -/
inductive Task where
  | cCopy
  | cCheck
  | cCheckFf
deriving DecidableEq, Repr

/-- A call made to the device through the interface. -/
inductive FlashOp where
  | readPages (aStartPage aPageCount : Nat)
  | writePage (aPage : Nat)
  | eraseSector (aSector : Nat)
deriving DecidableEq, Repr

/-- The static members of `FlashConfig`. -/
structure FlashConfig where
  sStartPage : Nat
  sCache : Nat → ConfigItem
  sDirtyPages : Nat → Bool
  sReadAheadBuffer : Mem
  sFirstUsablePage : Nat
  sFirstUsableByteIndex : Nat
  sNextId : Nat

/-- The state of the interface class `FlashInterface` of `test/flash.cpp`: the flash array
`sMemoryFlash` (the interface is never switched to mapped mode, so `sMapped` stays false and
is left out), and, in place of what it prints, the calls received: `sCalls` lists the device
calls with their results in the order they were made, `sFatals` the arguments of
`fatalError`.  `sFaults n` tells whether the device call number `n` (counted from 0) fails
with `cError` and no effect: a transport failure, which the test interface never produces. -/
structure FlashInterface where
  sMemoryFlash : Mem
  sCalls : List (FlashOp × SpiResult)
  sFatals : List FlashException
  sFaults : Nat → Bool

/-- The engine together with the interface it is instantiated with. -/
structure State extends FlashConfig, FlashInterface

/-! ## The interface `FlashInterface` of test/flash.cpp -/

/-- The call `tInterface::fatalError`: the test interface reports the condition and
returns, so the caller carries on. -/
def fatalError (s : State) (aException : FlashException) : State :=
  { s with sFatals := s.sFatals ++ [aException] }

/-- Append a device call and its result to the log. -/
def logCall (s : State) (aOp : FlashOp) (aResult : SpiResult) : State :=
  { s with sCalls := s.sCalls ++ [(aOp, aResult)] }

/-- The call `tInterface::readPages(aStartPage, aPageCount, sReadAheadBuffer)`: the only
target the engine ever passes is the start of the read-ahead buffer. -/
def readPages (cfg : Params) (s : State) (aStartPage aPageCount : Nat) : SpiResult × State :=
  if s.sFaults s.sCalls.length then
    (SpiResult.cError, logCall s (FlashOp.readPages aStartPage aPageCount) SpiResult.cError)
  else if aStartPage < cfg.cFlashSizeInPages ∧
      aStartPage + aPageCount ≤ cfg.cFlashSizeInPages then
    (SpiResult.cOk,
     logCall
       { s with
         sReadAheadBuffer :=
           copyN (ptrAdd s.sMemoryFlash (aStartPage * cfg.cPageSizeInBytes))
             (cfg.cPageSizeInBytes * aPageCount) s.sReadAheadBuffer 0 }
       (FlashOp.readPages aStartPage aPageCount) SpiResult.cOk)
  else
    (SpiResult.cInvalid, logCall s (FlashOp.readPages aStartPage aPageCount) SpiResult.cInvalid)

/-- The call `tInterface::writePage(aPage, aData)`. -/
def writePage (cfg : Params) (s : State) (aPage : Nat) (aData : Mem) : SpiResult × State :=
  if s.sFaults s.sCalls.length then
    (SpiResult.cError, logCall s (FlashOp.writePage aPage) SpiResult.cError)
  else if aPage < cfg.cFlashSizeInPages then
    (SpiResult.cOk,
     logCall
       { s with
         sMemoryFlash :=
           copyN aData cfg.cPageSizeInBytes s.sMemoryFlash (aPage * cfg.cPageSizeInBytes) }
       (FlashOp.writePage aPage) SpiResult.cOk)
  else
    (SpiResult.cInvalid, logCall s (FlashOp.writePage aPage) SpiResult.cInvalid)

/-- The call `tInterface::eraseSector(aSector)`. -/
def eraseSector (cfg : Params) (s : State) (aSector : Nat) : SpiResult × State :=
  if s.sFaults s.sCalls.length then
    (SpiResult.cError, logCall s (FlashOp.eraseSector aSector) SpiResult.cError)
  else if aSector < cfg.cFlashSizeInPages / cfg.cSectorSizeInPages then
    (SpiResult.cOk,
     logCall
       { s with
         sMemoryFlash :=
           copyN (fun _ => cMagicErased) (cfg.cPageSizeInBytes * cfg.cSectorSizeInPages)
             s.sMemoryFlash (aSector * (cfg.cPageSizeInBytes * cfg.cSectorSizeInPages)) }
       (FlashOp.eraseSector aSector) SpiResult.cOk)
  else
    (SpiResult.cInvalid, logCall s (FlashOp.eraseSector aSector) SpiResult.cInvalid)

/-! ## FlashConfig: cache access, clear, add, set, get -/

/-- The private function `makeAllClean`. -/
def makeAllClean (cfg : Params) (s : State) : State :=
  { s with sDirtyPages := fun i => if i < cfg.cCopySizeInPages then false else s.sDirtyPages i }

/-- The public function `makeAllDirty`. -/
def makeAllDirty (cfg : Params) (s : State) : State :=
  { s with sDirtyPages := fun i => if i < cfg.cCopySizeInPages then true else s.sDirtyPages i }

/-- The public function `clear`. -/
def clear (cfg : Params) (s : State) : State :=
  makeAllClean cfg { s with sNextId := 0 }

/-- The public function `getConfig`: the returned pointer (`none` for `nullptr`) and the
state, which differs from `s` only by a reported fatal error. -/
def getConfig (s : State) (aId : Nat) : Option Mem × State :=
  if aId ≥ s.sNextId then
    (none, fatalError s FlashException.cConfigInvalidId)
  else
    (some (s.sCache aId).getData, s)

/-- The public function `addConfig`: the returned id and the state after the call. -/
def addConfig (cfg : Params) (s : State) (aData : Mem) (aCount : Nat) : Nat × State :=
  if aCount > cfg.cMaxItemDataSize then
    (cUnusedValue, fatalError s FlashException.cConfigItemTooBig)
  else if s.sNextId ≥ cUnusedValue then
    (cUnusedValue, fatalError s FlashException.cConfigInvalidId)
  else
    let id := s.sNextId
    let s1 : State := { s with sNextId := (s.sNextId + 1) % 65536 }
    let totalLeftover :=
      (cfg.cPageSizeInBytes + 4294967296 - s1.sFirstUsableByteIndex) % 4294967296 % 65536
    let s2 : State :=
      if totalLeftover < aCount then
        { s1 with
          sFirstUsablePage := (s1.sFirstUsablePage + 1) % 4294967296
          sFirstUsableByteIndex := cOffsetPageItems }
      else s1
    if s2.sFirstUsablePage < cfg.cCopySizeInPages then
      let item := (s2.sCache id).init cfg.tValueBufferSize s2.sFirstUsablePage
        ((s2.sFirstUsableByteIndex + cOffsetItemData) % 65536) aCount
      (id,
       { s2 with
         sFirstUsableByteIndex := (s2.sFirstUsableByteIndex + (cOffsetItemData + aCount)) % 65536
         sDirtyPages := upd s2.sDirtyPages item.getPageIndex true
         sCache := upd s2.sCache id (item.setData aData) })
    else
      (id, fatalError s2 FlashException.cConfigFull)

/-- The public function `setConfig`. -/
def setConfig (s : State) (aId : Nat) (aData : Mem) : State :=
  if aId ≥ s.sNextId then
    fatalError s FlashException.cConfigInvalidId
  else
    let item := s.sCache aId
    if !item.doesMatch aData then
      { s with
        sDirtyPages := upd s.sDirtyPages item.getPageIndex true
        sCache := upd s.sCache aId (item.setData aData) }
    else s

/-! ## FlashConfig: reading -/

/-- The item loop of `processPage` (`while(itemCount > 0u)`), started with `itemCount`
items to go, the read position `newItemStart` and the running `result`. -/
def processItems (cfg : Params) (aPage : Mem) (aPageIndexRelCopy : Nat) (aTask : Task) :
    Nat → Nat → ReadResult → State → ReadResult × State
  | 0, _, result, s => (result, s)
  | itemCount + 1, newItemStart, result, s =>
    let id := getValue (ptrAdd aPage (newItemStart + cOffsetItemId))
    let count := getValue (ptrAdd aPage (newItemStart + cOffsetItemCount))
    let newItemStart1 := (newItemStart + cOffsetItemData) % 65536
    let rawItemPointer := ptrAdd aPage newItemStart1
    if newItemStart1 + count > cfg.cPageSizeInBytes ∨ id > s.sNextId then
      (ReadResult.cErrorConsistency, s)
    else
      let s1 : State :=
        if id = s.sNextId ∧ aTask = Task.cCopy then
          { s with
            sCache := upd s.sCache id
              ((s.sCache id).init cfg.tValueBufferSize aPageIndexRelCopy newItemStart1 count)
            sNextId := (s.sNextId + 1) % 65536 }
        else s
      let result1 : ReadResult :=
        if id = s.sNextId ∧ aTask = Task.cCopy then result
        else if id > s.sNextId ∨ (s.sCache id).getCount ≠ count then
          ReadResult.cErrorConsistency
        else result
      let item := s1.sCache id
      let s2 : State :=
        if aTask = Task.cCopy then { s1 with sCache := upd s1.sCache id (item.setData rawItemPointer) }
        else s1
      let result2 : ReadResult :=
        if aTask = Task.cCopy then result1
        else if item.doesMatch rawItemPointer then ReadResult.cOk
        else ReadResult.cErrorMismatch
      let newItemStart2 := (newItemStart1 + count) % 65536
      let s3 : State :=
        { s2 with
          sFirstUsableByteIndex :=
            if aTask = Task.cCheckFf then s2.sFirstUsableByteIndex else newItemStart2 }
      processItems cfg aPage aPageIndexRelCopy aTask itemCount newItemStart2 result2 s3

/-- The private function `processPage`. -/
def processPage (cfg : Params) (s : State) (aPage : Mem) (aPageIndexRelCopy : Nat)
    (aTask : Task) : ReadResult × State :=
  if aPage cOffsetPageMagic = cMagicErased then
    if aTask = Task.cCheckFf then
      (if (List.range cfg.cPageSizeInBytes).all (fun k => aPage k == cMagicErased)
        then ReadResult.cErased else ReadResult.cErrorConsistency, s)
    else
      (ReadResult.cErased, s)
  else if aPage cOffsetPageMagic = cMagicConfig then
    let itemCount := getValue (ptrAdd aPage cOffsetPageCount)
    if calculateChecksum cfg.cPageSizeInBytes aPage ≠ getValue (ptrAdd aPage cOffsetPageChecksum) then
      (ReadResult.cErrorChecksum, s)
    else if itemCount = 0 ∨ itemCount = cUnusedValue then
      (ReadResult.cErrorConsistency, s)
    else
      processItems cfg aPage aPageIndexRelCopy aTask itemCount cOffsetPageItems ReadResult.cOk
        { s with
          sFirstUsablePage :=
            if aTask = Task.cCheckFf then s.sFirstUsablePage else aPageIndexRelCopy }
  else
    (ReadResult.cErrorConsistency, s)

/-- The page number `aPageInReadAhead` of the read-ahead buffer, as the pointer
`sReadAheadBuffer + aPageInReadAhead * cPageSizeInBytes`. -/
def bufferPage (cfg : Params) (s : State) (aPageInReadAhead : Nat) : Mem :=
  ptrAdd s.sReadAheadBuffer (aPageInReadAhead * cfg.cPageSizeInBytes)

/-- The inner loop of `readAcopy` (`while(result == cOk && pagesLeftInBuffer > 0u)`),
entered with `result == cOk`; `pagesRead` already counts the chunk being processed. -/
def readAcopyPages (cfg : Params) (aTask : Task) (pagesRead : Nat) :
    Nat → Nat → State → ReadResult × State
  | 0, _, s => (ReadResult.cOk, s)
  | pagesLeftInBuffer + 1, pageIndex, s =>
    let tmp := processPage cfg s (bufferPage cfg s pageIndex) (pagesRead + pageIndex) aTask
    if tmp.1 = ReadResult.cOk then
      readAcopyPages cfg aTask pagesRead pagesLeftInBuffer (pageIndex + 1) tmp.2
    else tmp

/-- The outer loop of `readAcopy` (`while(result == cOk)`), at a point where
`pagesLeftInBuffer == 0`; `none` when the fuel runs out. -/
def readAcopyLoop (cfg : Params) (aCopyOffsetInPages : Nat) (aTask : Task) :
    Nat → Nat → State → Option (ReadResult × State)
  | 0, _, _ => none
  | fuel + 1, pagesRead, s =>
    let pagesLeftInBuffer := min cfg.tReadAheadSizeInPages (cfg.cCopySizeInPages - pagesRead)
    let rd := readPages cfg s (s.sStartPage + aCopyOffsetInPages + pagesRead) pagesLeftInBuffer
    if rd.1 ≠ SpiResult.cOk then
      some (ReadResult.cTransferError, rd.2)
    else if pagesLeftInBuffer > 0 then
      let r := readAcopyPages cfg aTask (pagesRead + pagesLeftInBuffer) pagesLeftInBuffer 0 rd.2
      if r.1 = ReadResult.cOk then
        readAcopyLoop cfg aCopyOffsetInPages aTask fuel (pagesRead + pagesLeftInBuffer) r.2
      else some r
    else
      some (ReadResult.cOk, rd.2)

/-- The private function `readAcopy`.  The loop is given `cCopySizeInPages + 1` rounds,
which it never uses up (`readAcopyLoop_isSome`). -/
def readAcopy (cfg : Params) (s : State) (aCopyOffsetInPages : Nat) (aTask : Task) :
    ReadResult × State :=
  let s0 : State := { s with sFirstUsablePage := 0, sFirstUsableByteIndex := cOffsetPageItems }
  match readAcopyLoop cfg aCopyOffsetInPages aTask (cfg.cCopySizeInPages + 1) 0 s0 with
  | some r => (if r.1 = ReadResult.cErased then ReadResult.cOk else r.1, r.2)
  | none => (ReadResult.cTransferError, s0)

/-- The private function `readAll`. -/
def readAll (cfg : Params) (s : State) : State :=
  let r1 := readAcopy cfg (clear cfg s) 0 Task.cCopy
  let result1 := r1.1
  let firstUsablePage1 := r1.2.sFirstUsablePage
  let firstUsableByteIndex1 := r1.2.sFirstUsableByteIndex
  if cfg.tCopies = FlashCopies.c2 then
    let r2 :=
      if result1 ≠ ReadResult.cOk then
        readAcopy cfg (clear cfg r1.2) cfg.cCopySizeInPages Task.cCopy
      else
        readAcopy cfg r1.2 cfg.cCopySizeInPages Task.cCheck
    let result2 := r2.1
    if result1 = ReadResult.cOk ∧ result2 = ReadResult.cErrorMismatch then
      fatalError
        (clear cfg { r2.2 with sFirstUsablePage := 0, sFirstUsableByteIndex := cOffsetPageItems })
        FlashException.cConfigCopiesMismatch
    else if result1 = ReadResult.cOk ∧ result2 ≠ ReadResult.cOk then
      fatalError
        { r2.2 with
          sFirstUsablePage := firstUsablePage1
          sFirstUsableByteIndex := firstUsableByteIndex1 }
        FlashException.cConfigBadCopy2
    else if result1 ≠ ReadResult.cOk ∧ result2 = ReadResult.cOk then
      fatalError r2.2 FlashException.cConfigBadCopy1
    else if result1 ≠ ReadResult.cOk ∧ result2 ≠ ReadResult.cOk then
      fatalError
        (clear cfg { r2.2 with sFirstUsablePage := 0, sFirstUsableByteIndex := cOffsetPageItems })
        FlashException.cConfigBadCopies
    else r2.2
  else
    if result1 ≠ ReadResult.cOk then
      fatalError
        (clear cfg { r1.2 with sFirstUsablePage := 0, sFirstUsableByteIndex := cOffsetPageItems })
        FlashException.cConfigBadCopies
    else r1.2

/-- The private function `init`: the three arrays are newly allocated (the cache entries
default-constructed, the other two with unspecified content, here the content they have in
`s`), then `readAll` runs. -/
def init (cfg : Params) (s : State) (aStartPage : Nat) : State :=
  readAll cfg { s with sStartPage := aStartPage, sCache := fun _ => ConfigItem.new }

/-! ## FlashConfig: committing -/

/-- The call `std::find(sDirtyPages + first, sDirtyPages + first + n, true)`, as the index
found: the first dirty index in `[first, first + n)`, or `first + n`. -/
def findDirty (aDirty : Nat → Bool) : Nat → Nat → Nat
  | 0, first => first
  | n + 1, first => if aDirty first then first else findDirty aDirty n (first + 1)

/-- The call `std::lower_bound(sCache + first, sCache + first + len, aIndex, comp)` with the
comparison `aItem.getPageIndex() < aIndex` of `serialize`, as the index found.  It is the
halving search of the standard library; the fuel is an upper bound of `len`. -/
def lowerBound (aCache : Nat → ConfigItem) (aIndex : Nat) : Nat → Nat → Nat → Nat
  | 0, first, _ => first
  | fuel + 1, first, len =>
    if len = 0 then first
    else if (aCache (first + len / 2)).getPageIndex < aIndex then
      lowerBound aCache aIndex fuel (first + len / 2 + 1) (len - len / 2 - 1)
    else
      lowerBound aCache aIndex fuel first (len / 2)

/-- Conversion of an `int16_t`, held as its 16-bit pattern, to `uint32_t`. -/
def int16ToUint32 (aBits : Nat) : Nat :=
  if aBits < 32768 then aBits else aBits + 4294901760

/-- The address `aBase + aBits` for an `int16_t` offset held as its 16-bit pattern. -/
def int16Offset (aBase aBits : Nat) : Nat :=
  if aBits < 32768 then aBase + aBits else aBase + aBits - 65536

/-- The loop of `serialize`; `page` is the offset of the page in the read-ahead buffer, the
`int16_t` variables `count` and `newItemStart` are held as 16-bit patterns, and the result is
`(count, buffer)`.  The first argument bounds the number of rounds by the ids left below
`sNextId`. -/
def serializeItems (cfg : Params) (s : State) (page : Nat) :
    Nat → Nat → Nat → Nat → Mem → Nat × Mem
  | 0, _, count, _, buffer => (count, buffer)
  | n + 1, id, count, newItemStart, buffer =>
    if id < s.sNextId ∧
        int16ToUint32 newItemStart <
          (cfg.cPageSizeInBytes + 4294967296 - cOffsetItemData
            + 4294967296 - (s.sCache id).getCount) % 4294967296 then
      let item := s.sCache id
      let buffer1 := setValue buffer (int16Offset page newItemStart + cOffsetItemId) id
      let buffer2 := setValue buffer1 (int16Offset page newItemStart + cOffsetItemCount)
        (item.getCount % 65536)
      let newItemStart1 := (newItemStart + cOffsetItemData) % 65536
      let buffer3 := copyN item.getData item.getCount buffer2 (int16Offset page newItemStart1)
      serializeItems cfg s page n ((id + 1) % 65536) ((count + 1) % 65536)
        ((newItemStart1 + item.getCount) % 65536) buffer3
    else (count, buffer)

/-- The private function `serialize`. -/
def serialize (cfg : Params) (s : State) (aReadAheadStartPage aPageInReadAhead : Nat) : State :=
  let page := aPageInReadAhead * cfg.cPageSizeInBytes
  let pageIndex := (aReadAheadStartPage + aPageInReadAhead) % 65536
  let id := lowerBound s.sCache pageIndex cfg.tMaxItemCount 0 cfg.tMaxItemCount % 65536
  let buffer0 := upd s.sReadAheadBuffer (page + cOffsetPageMagic) cMagicConfig
  let r := serializeItems cfg s page (s.sNextId - id) id 0 cOffsetPageItems buffer0
  let buffer1 := setValue r.2 (page + cOffsetPageCount) r.1
  let buffer2 := setValue buffer1 (page + cOffsetPageChecksum)
    (calculateChecksum cfg.cPageSizeInBytes (ptrAdd buffer1 page))
  { s with sReadAheadBuffer := buffer2 }

/-- The loop of `commit(uint32_t)` that classifies the pages of one sector of the read-ahead
buffer: `(allErased, somethingChanged)` and the state after the calls of `processPage`. -/
def commitCheckSector (cfg : Params) (startPage sectorIndex : Nat) :
    Nat → Nat → Bool → Bool → State → (Bool × Bool) × State
  | 0, _, allErased, somethingChanged, s => ((allErased, somethingChanged), s)
  | n + 1, pageIndex, allErased, somethingChanged, s =>
    let pageInReadAhead := pageIndex + sectorIndex * cfg.cSectorSizeInPages
    let r := processPage cfg s (bufferPage cfg s pageInReadAhead) (startPage + pageInReadAhead)
      Task.cCheckFf
    commitCheckSector cfg startPage sectorIndex n (pageIndex + 1)
      (allErased && (r.1 == ReadResult.cErased)) (somethingChanged || (r.1 != ReadResult.cOk)) r.2

/-- The loop of `commit(uint32_t)` over the pages of an erased sector: the dirty ones are
serialized and written.  The result is `ok` and the state. -/
def commitWriteDirty (cfg : Params) (aCopyOffsetInPages startPage sectorIndex : Nat) :
    Nat → Nat → State → Bool × State
  | 0, _, s => (true, s)
  | n + 1, pageIndex, s =>
    let pageInReadAhead := pageIndex + sectorIndex * cfg.cSectorSizeInPages
    if s.sDirtyPages (startPage + pageInReadAhead) then
      let s1 := serialize cfg s startPage pageInReadAhead
      let w := writePage cfg s1 (s1.sStartPage + aCopyOffsetInPages + startPage + pageInReadAhead)
        (bufferPage cfg s1 pageInReadAhead)
      if w.1 ≠ SpiResult.cOk then (false, w.2)
      else commitWriteDirty cfg aCopyOffsetInPages startPage sectorIndex n (pageIndex + 1) w.2
    else commitWriteDirty cfg aCopyOffsetInPages startPage sectorIndex n (pageIndex + 1) s

/-- The loop of `commit(uint32_t)` over the pages of a sector just erased: the pages up to
the cursor are serialized and written.  The result is `ok` and the state. -/
def commitWriteUsed (cfg : Params) (aCopyOffsetInPages startPage sectorIndex : Nat) :
    Nat → Nat → State → Bool × State
  | 0, _, s => (true, s)
  | n + 1, pageIndex, s =>
    let pageInReadAhead := pageIndex + sectorIndex * cfg.cSectorSizeInPages
    if startPage + pageInReadAhead < s.sFirstUsablePage ∨
        (startPage + pageInReadAhead = s.sFirstUsablePage ∧
          s.sFirstUsableByteIndex > cOffsetPageItems) then
      let s1 := serialize cfg s startPage pageInReadAhead
      let w := writePage cfg s1 (s1.sStartPage + aCopyOffsetInPages + startPage + pageInReadAhead)
        (bufferPage cfg s1 pageInReadAhead)
      if w.1 ≠ SpiResult.cOk then (false, w.2)
      else commitWriteUsed cfg aCopyOffsetInPages startPage sectorIndex n (pageIndex + 1) w.2
    else commitWriteUsed cfg aCopyOffsetInPages startPage sectorIndex n (pageIndex + 1) s

/-- Body of the loop of `commit(uint32_t)` over the sectors held in the read-ahead buffer:
classify the sector, then program it in place, or erase and program it, or skip it.  The
result is `ok` and the state. -/
def commitSector (cfg : Params) (aCopyOffsetInPages startSector startPage sectorIndex : Nat)
    (s : State) : Bool × State :=
  let c := commitCheckSector cfg startPage sectorIndex cfg.cSectorSizeInPages 0 true false s
  let allErased := c.1.1
  let somethingChanged := c.1.2
  if somethingChanged then
    if allErased then
      commitWriteDirty cfg aCopyOffsetInPages startPage sectorIndex cfg.cSectorSizeInPages 0 c.2
    else
      let e := eraseSector cfg c.2
        ((c.2.sStartPage + aCopyOffsetInPages) / cfg.cSectorSizeInPages
          + startSector + sectorIndex)
      if e.1 ≠ SpiResult.cOk then (false, e.2)
      else
        commitWriteUsed cfg aCopyOffsetInPages startPage sectorIndex cfg.cSectorSizeInPages 0 e.2
  else (true, c.2)

/-- The loop of `commit(uint32_t)` over the sectors held in the read-ahead buffer
(`for(sectorIndex = 0; ok && sectorIndex < sectorCount; ++sectorIndex)`). -/
def commitSectors (cfg : Params) (aCopyOffsetInPages startSector startPage : Nat) :
    Nat → Nat → State → Bool × State
  | 0, _, s => (true, s)
  | n + 1, sectorIndex, s =>
    let r := commitSector cfg aCopyOffsetInPages startSector startPage sectorIndex s
    if r.1 then commitSectors cfg aCopyOffsetInPages startSector startPage n (sectorIndex + 1) r.2
    else r

/-- The outer loop of `commit(uint32_t)` (`while(ok && dirtyIter != dirtyEnd)`), entered
with `ok == true`; `none` when the fuel runs out. -/
def commitLoop (cfg : Params) (aCopyOffsetInPages globalEndPageIndex : Nat) :
    Nat → Nat → State → Option (Bool × State)
  | fuel, dirtyIter, s =>
    if dirtyIter = globalEndPageIndex then some (true, s)
    else
      match fuel with
      | 0 => none
      | fuel + 1 =>
        let startSector := dirtyIter / cfg.cSectorSizeInPages
        let startPage := startSector * cfg.cSectorSizeInPages
        let endPage := min globalEndPageIndex (startPage + cfg.tReadAheadSizeInPages)
        let pageCount := endPage - startPage
        let sectorCount := (pageCount + cfg.cSectorSizeInPages - 1) / cfg.cSectorSizeInPages
        let dirtyIter1 := findDirty s.sDirtyPages (globalEndPageIndex - endPage) endPage
        let rd := readPages cfg s (s.sStartPage + aCopyOffsetInPages + startPage) pageCount
        if rd.1 ≠ SpiResult.cOk then some (false, rd.2)
        else
          let r := commitSectors cfg aCopyOffsetInPages startSector startPage sectorCount 0 rd.2
          if r.1 then commitLoop cfg aCopyOffsetInPages globalEndPageIndex fuel dirtyIter1 r.2
          else some r

/-- The private overload `commit(uint32_t const aCopyOffsetInPages)`.  The loop is given
`cCopySizeInPages` rounds, which it never uses up when the read-ahead buffer holds at least
a sector (`commitLoop_isSome`). -/
def commitCopy (cfg : Params) (s : State) (aCopyOffsetInPages : Nat) : Bool × State :=
  let globalEndPageIndex := min cfg.cCopySizeInPages ((s.sFirstUsablePage + 1) % 4294967296)
  let dirtyIter := findDirty s.sDirtyPages globalEndPageIndex 0
  match commitLoop cfg aCopyOffsetInPages globalEndPageIndex cfg.cCopySizeInPages dirtyIter s with
  | some r => r
  | none => (false, s)

/-- The public function `commit()`. -/
def commit (cfg : Params) (s : State) : State :=
  let r1 := commitCopy cfg s 0
  let r2 :=
    if r1.1 = true ∧ cfg.tCopies = FlashCopies.c2 then commitCopy cfg r1.2 cfg.cCopySizeInPages
    else r1
  if r2.1 then makeAllClean cfg r2.2
  else fatalError r2.2 FlashException.cFlashTransferError

/-! ## FlashPartitioner.h -/

/-- A plugin class of `FlashPartitioner`, as far as the partitioner uses it: the constant
`getPagesNeeded()`, a `uint32_t`, and the effect of `init(aStartPage)` on the state of the
program. -/
structure Plugin (σ : Type) where
  getPagesNeeded : Nat
  init : Nat → σ → σ

/-- The class `NullPlugin`: no pages, and an `init` that does nothing. -/
def NullPlugin (σ : Type) : Plugin σ :=
  { getPagesNeeded := 0, init := fun _ s => s }

/-- The function `FlashPartitioner::init`; the sum passed to the third plugin is a
`uint32_t`. -/
def FlashPartitioner.init {σ : Type} (tPlugin1 tPlugin2 tPlugin3 : Plugin σ) (s : σ) : σ :=
  let s1 := tPlugin1.init 0 s
  let s2 := tPlugin2.init tPlugin1.getPagesNeeded s1
  tPlugin3.init ((tPlugin1.getPagesNeeded + tPlugin2.getPagesNeeded) % 4294967296) s2

/-- The `static_assert`s of `FlashPartitioner` on the sizes of the partitions, as the
compiler evaluates them: the sum of the three sizes is a `uint32_t`. -/
def FlashPartitioner.valid {σ : Type} (cFlashSizeInPages cSectorSizeInPages : Nat)
    (tPlugin1 tPlugin2 tPlugin3 : Plugin σ) : Prop :=
  cFlashSizeInPages ≥
    ((tPlugin1.getPagesNeeded + tPlugin2.getPagesNeeded) % 4294967296
      + tPlugin3.getPagesNeeded) % 4294967296 ∧
  tPlugin1.getPagesNeeded % cSectorSizeInPages = 0 ∧
  tPlugin2.getPagesNeeded % cSectorSizeInPages = 0 ∧
  tPlugin3.getPagesNeeded % cSectorSizeInPages = 0

instance {σ : Type} (cFlashSizeInPages cSectorSizeInPages : Nat)
    (tPlugin1 tPlugin2 tPlugin3 : Plugin σ) :
    Decidable (FlashPartitioner.valid cFlashSizeInPages cSectorSizeInPages
      tPlugin1 tPlugin2 tPlugin3) := by
  unfold FlashPartitioner.valid
  infer_instance

/-! ## Vocabulary of the statements -/

/-- The first `aCount` bytes at `aData`. -/
def bytesOf (aData : Mem) (aCount : Nat) : List Nat :=
  (List.range aCount).map aData

/-- The bytes `getConfig(aId)` gives access to: the `getCount()` bytes at the pointer it
returns for a valid id. -/
def configView (s : State) (aId : Nat) : List Nat :=
  bytesOf (s.sCache aId).getData (s.sCache aId).getCount

/-- What `processPage` leaves as it is whatever the task: the interface, the dirty map, the
read-ahead buffer and the start page. -/
def SameOutside (s s' : State) : Prop :=
  s'.toFlashInterface = s.toFlashInterface ∧ s'.sDirtyPages = s.sDirtyPages ∧
  s'.sReadAheadBuffer = s.sReadAheadBuffer ∧ s'.sStartPage = s.sStartPage

/-- What a commit pass leaves as it is: the engine apart from the read-ahead buffer, the
log of fatal errors and the fault schedule. -/
def CommitKeeps (s s' : State) : Prop :=
  s'.sStartPage = s.sStartPage ∧ s'.sCache = s.sCache ∧ s'.sDirtyPages = s.sDirtyPages ∧
  s'.sFirstUsablePage = s.sFirstUsablePage ∧
  s'.sFirstUsableByteIndex = s.sFirstUsableByteIndex ∧ s'.sNextId = s.sNextId ∧
  s'.sFatals = s.sFatals ∧ s'.sFaults = s.sFaults

/-- What reading a copy leaves as it is. -/
def ReadKeeps (s s' : State) : Prop :=
  s'.sStartPage = s.sStartPage ∧ s'.sDirtyPages = s.sDirtyPages ∧ s'.sFatals = s.sFatals ∧
  s'.sMemoryFlash = s.sMemoryFlash ∧ s'.sFaults = s.sFaults

/-- What reading a copy leaves as it is when the task is not `cCopy`. -/
def CacheKeeps (s s' : State) : Prop :=
  s'.sNextId = s.sNextId ∧ s'.sCache = s.sCache

/-- A call of one of the public functions of `FlashConfig`. -/
inductive Call where
  | addConfig (aData : Mem) (aCount : Nat)
  | setConfig (aId : Nat) (aData : Mem)
  | getConfig (aId : Nat)
  | makeAllDirty
  | commit
  | clear
  | readAllDebugTodoRemove

/-- The state after a call. -/
def runCall (cfg : Params) (s : State) : Call → State
  | Call.addConfig aData aCount => (addConfig cfg s aData aCount).2
  | Call.setConfig aId aData => setConfig s aId aData
  | Call.getConfig aId => (getConfig s aId).2
  | Call.makeAllDirty => makeAllDirty cfg s
  | Call.commit => commit cfg s
  | Call.clear => clear cfg s
  | Call.readAllDebugTodoRemove => readAll cfg s

/-- The state after a sequence of calls. -/
def runCalls (cfg : Params) : State → List Call → State
  | s, [] => s
  | s, c :: cs => runCalls cfg (runCall cfg s c) cs

/-- A checksum as a weighted sum: the byte at offset `k`, for `k` in `[0, 3)` and in
`[5, aPageSize)`, is XORed with 0x5A and multiplied by the table entry number
`aTableIndex k`; the sum is taken modulo `2 ^ 16`. -/
def checksumWeighted (aTableIndex : Nat → Nat) (aPageSize : Nat) (aData : Mem) : Nat :=
  (((List.range cOffsetPageChecksum).map fun k =>
      (aData k ^^^ cChecksumXorValue) * cChecksumPrimeTable.getD (aTableIndex k) 0).sum +
    ((List.range' (cOffsetPageChecksum + 2) (aPageSize - (cOffsetPageChecksum + 2))).map fun k =>
      (aData k ^^^ cChecksumXorValue) * cChecksumPrimeTable.getD (aTableIndex k) 0).sum) % 65536

/-- The reference definition of the checksum in the words of the specification: the table
index of the byte at offset `k` is `k mod 16`, before and after the checksum slot. -/
def checksumBySpec (aPageSize : Nat) (aData : Mem) : Nat :=
  checksumWeighted (fun k => k % 16) aPageSize aData

/-- A table index that counts the bytes summed: `k mod 16` before the checksum slot,
`(k - 2) mod 16` after it. -/
def runningTableIndex (k : Nat) : Nat :=
  (if k < cOffsetPageChecksum then k else k - 2) % 16

/-- The cache entries initialised in `s` have in `s'` the count, the page index, the data
offset and the status they have in `s`. -/
def GeomKeeps (s s' : State) : Prop :=
  ∀ id, (s.sCache id).mStatus ≠ Status.cVoid →
    (s'.sCache id).getCount = (s.sCache id).getCount ∧
    (s'.sCache id).getPageIndex = (s.sCache id).getPageIndex ∧
    (s'.sCache id).getDataOffsetInFirstPage = (s.sCache id).getDataOffsetInFirstPage ∧
    (s'.sCache id).mStatus = (s.sCache id).mStatus

/-- No cache entry holds more than `cMaxItemDataSize` bytes. -/
def CountsFit (cfg : Params) (s : State) : Prop :=
  ∀ id, (s.sCache id).getCount ≤ cfg.cMaxItemDataSize

/-- The state `s` with the byte at the address `aAddress` of the flash replaced by
`aValue`. -/
def withFlashByte (s : State) (aAddress aValue : Nat) : State :=
  { s with sMemoryFlash := upd s.sMemoryFlash aAddress aValue }

/-- The byte address on the flash of the first page of copy B. -/
def copyBAddress (cfg : Params) (s : State) : Nat :=
  (s.sStartPage + cfg.cCopySizeInPages) * cfg.cPageSizeInBytes

/-- The pages a device call addresses lie in `[lo, hi)`: the pages read, the page written,
or the pages of the sector erased. -/
def opWithin (cfg : Params) (lo hi : Nat) : FlashOp → Prop
  | FlashOp.readPages aStartPage aPageCount => lo ≤ aStartPage ∧ aStartPage + aPageCount ≤ hi
  | FlashOp.writePage aPage => lo ≤ aPage ∧ aPage < hi
  | FlashOp.eraseSector aSector =>
    lo ≤ aSector * cfg.cSectorSizeInPages ∧
    aSector * cfg.cSectorSizeInPages + cfg.cSectorSizeInPages ≤ hi

instance (cfg : Params) (lo hi : Nat) (op : FlashOp) : Decidable (opWithin cfg lo hi op) := by
  cases op <;> (unfold opWithin; infer_instance)

/-- The device calls made from `s` to the state of `r` all address pages in `[lo, hi)`, and
the flag of `r` tells whether all of them returned `cOk`. -/
def PassLog (cfg : Params) (lo hi : Nat) (s : State) (r : Bool × State) : Prop :=
  ∃ l : List (FlashOp × SpiResult), r.2.sCalls = s.sCalls ++ l ∧
    (∀ c ∈ l, opWithin cfg lo hi c.1) ∧ (r.1 = true ↔ ∀ c ∈ l, c.2 = SpiResult.cOk)

/-- The plugin `FlashConfig<...>` of the instantiation `cfg`, acting on the state of the
engine. -/
def configPlugin (cfg : Params) : Plugin State :=
  { getPagesNeeded := cfg.tPagesNeeded, init := fun aStartPage s => init cfg s aStartPage }

/-- A plugin that needs `n` pages and whose `init` records the number `i` of the plugin and
the base page it receives. -/
def recordingPlugin (i n : Nat) : Plugin (List (Nat × Nat)) :=
  { getPagesNeeded := n, init := fun aStartPage l => l ++ [(i, aStartPage)] }

/-- The page `page` lies in the range `[base, base + n)`. -/
def inPartition (base n page : Nat) : Prop :=
  base ≤ page ∧ page < base + n

instance (base n page : Nat) : Decidable (inPartition base n page) := by
  unfold inPartition
  infer_instance

/-- The number of `readPages` calls in a list of device calls. -/
def countReads : List (FlashOp × SpiResult) → Nat
  | [] => 0
  | (FlashOp.readPages _ _, _) :: l => countReads l + 1
  | _ :: l => countReads l

/-- The number of pages the `readPages` calls in a list of device calls ask for. -/
def pagesRequested : List (FlashOp × SpiResult) → Nat
  | [] => 0
  | (FlashOp.readPages _ aPageCount, _) :: l => pagesRequested l + aPageCount
  | _ :: l => pagesRequested l

/-- From `s` to `t` the device received no `readPages` call. -/
def NoReads (s t : State) : Prop :=
  ∃ l : List (FlashOp × SpiResult), t.sCalls = s.sCalls ++ l ∧ countReads l = 0

/-- The two copies hold the same bytes: for every page `k` of a copy, page `base + k` of
copy A and page `base + cCopySizeInPages + k` of copy B are identical, `base` being
`sStartPage`. -/
def Mirrored (cfg : Params) (s : State) : Prop :=
  ∀ k i, k < cfg.cCopySizeInPages → i < cfg.cPageSizeInBytes →
    s.sMemoryFlash ((s.sStartPage + k) * cfg.cPageSizeInBytes + i)
      = s.sMemoryFlash
          ((s.sStartPage + cfg.cCopySizeInPages + k) * cfg.cPageSizeInBytes + i)

/-- The state `a` of the pass over copy A and the state `b` of the pass over copy B at the
same point of the two passes: the engine is the same but for the read-ahead buffer, the
buffers agree from the index `n` on, no device call fails, and the pages of copy A in `a`
hold what the pages of copy B hold in `b`; `base` is the start page. -/
def Lock (cfg : Params) (base n : Nat) (a b : State) : Prop :=
  a.sStartPage = base ∧ CommitKeeps a b ∧
  (∀ j, n ≤ j → b.sReadAheadBuffer j = a.sReadAheadBuffer j) ∧
  (∀ m, a.sFaults m = false) ∧
  ∀ k i, k < cfg.cCopySizeInPages → i < cfg.cPageSizeInBytes →
    a.sMemoryFlash ((base + k) * cfg.cPageSizeInBytes + i)
      = b.sMemoryFlash ((base + cfg.cCopySizeInPages + k) * cfg.cPageSizeInBytes + i)

/-- The flash below the address `aLimit` is in `s'` as in `s`. -/
def FlashBelow (aLimit : Nat) (s s' : State) : Prop :=
  ∀ a, a < aLimit → s'.sMemoryFlash a = s.sMemoryFlash a

/-- The flash from the address `aLimit` on is in `s'` as in `s`. -/
def FlashFrom (aLimit : Nat) (s s' : State) : Prop :=
  ∀ a, aLimit ≤ a → s'.sMemoryFlash a = s.sMemoryFlash a

/-- The read-ahead buffer from the index `n` on is in `s'` as in `s`. -/
def BufferFrom (n : Nat) (s s' : State) : Prop :=
  ∀ j, n ≤ j → s'.sReadAheadBuffer j = s.sReadAheadBuffer j

/-- Two results of a part of a commit pass, `ra` of the pass over copy A and `rb` of the pass
over copy B started in `b`: both report success, the states are in lockstep with equal
buffers, and the pass over copy B has left the flash below copy B as it was in `b`. -/
def LockStep (cfg : Params) (base : Nat) (b : State) (ra rb : Bool × State) : Prop :=
  ra.1 = true ∧ rb.1 = true ∧ Lock cfg base 0 ra.2 rb.2 ∧
  FlashBelow ((base + cfg.cCopySizeInPages) * cfg.cPageSizeInBytes) b rb.2

/-- The calls `addConfig`, `setConfig` and `commit`. -/
def Call.isUpdate : Call → Prop
  | Call.addConfig _ _ => True
  | Call.setConfig _ _ => True
  | Call.commit => True
  | _ => False

/-- What the calls `addConfig`, `setConfig` and `commit` keep true from `init` on an erased
partition on, when no device call fails: the start page, the bound of the counts, the
bounds of the id counter and of the cursor page, the page of every cache entry at or before
the cursor page and inside the copy, the dirty pages of the copy at or before the cursor
page, and the two copies identical. -/
def MirrorInv (cfg : Params) (base : Nat) (s : State) : Prop :=
  s.sStartPage = base ∧ (∀ m, s.sFaults m = false) ∧ CountsFit cfg s ∧
  s.sNextId ≤ 65535 ∧ s.sFirstUsablePage ≤ s.sNextId ∧
  (∀ id, (s.sCache id).getPageIndex ≤ s.sFirstUsablePage ∧
    (s.sCache id).getPageIndex < cfg.cCopySizeInPages) ∧
  (∀ p, p < cfg.cCopySizeInPages → s.sDirtyPages p = true → p ≤ s.sFirstUsablePage) ∧
  Mirrored cfg s

/-! ## Scenarios -/

/-- The instantiation of test/flash.cpp: pages of 256 bytes, sectors of 16 pages, two
copies of 2048 pages, a read-ahead buffer of 48 pages, 20 cache entries. -/
def testParams : Params :=
  { cPageSizeInBytes := 256, cSectorSizeInPages := 16, cFlashSizeInPages := 65536,
    tPagesNeeded := 4096, tCopies := FlashCopies.c2, tReadAheadSizeInPages := 48,
    tMaxItemCount := 20, tValueBufferSize := 8 }

/-- A single-copy partition of one sector on the same device, with 32 cache entries. -/
def smallParams : Params :=
  { cPageSizeInBytes := 256, cSectorSizeInPages := 16, cFlashSizeInPages := 65536,
    tPagesNeeded := 16, tCopies := FlashCopies.c1, tReadAheadSizeInPages := 16,
    tMaxItemCount := 32, tValueBufferSize := 8 }

/-- The state at power on: zero-initialised statics, an erased flash, no faults. -/
def powerOn : State :=
  { sStartPage := 0, sCache := fun _ => ConfigItem.new, sDirtyPages := fun _ => false,
    sReadAheadBuffer := fun _ => 0, sFirstUsablePage := 0, sFirstUsableByteIndex := 0,
    sNextId := 0, sMemoryFlash := fun _ => cMagicErased, sCalls := [], sFatals := [],
    sFaults := fun _ => false }

/-- The array `sPattern` of the test: the bytes 0, 1, 2, ... -/
def sPattern : Mem := fun i => i % 256

/-- Successive calls `addConfig(sPattern, c)` for the counts `c` of a list. -/
def addAll (cfg : Params) : State → List Nat → State
  | s, [] => s
  | s, c :: cs => addAll cfg (addConfig cfg s sPattern c).2 cs

/-- The test instantiation after `init` on the erased flash. -/
def testBooted : State := init testParams powerOn 0

/-- The small instantiation after `init` on the erased flash. -/
def smallBooted : State := init smallParams powerOn 0

/-- The sixteen items of `testConfig1`, of 1, 6, 11, ..., 76 bytes. -/
def testConfig1Items : State :=
  addAll testParams testBooted ((List.range 16).map fun i => 1 + 5 * i)

/-- One item of three bytes. -/
def oneItem : State := (addConfig testParams testBooted sPattern 3).2

/-- One item of three bytes, then `clear`. -/
def afterClear : State := clear testParams oneItem

/-- One item that fills a page exactly (247 bytes of data after the 9 bytes of headers). -/
def fullPageItem : State := (addConfig testParams testBooted sPattern 247).2

/-- Fifteen full pages, then two items in the last page, the second of which passes the room
test of `addConfig` although it does not fit together with its header. -/
def overshoot : State := addAll smallParams smallBooted (List.replicate 15 247 ++ [100, 147])

/-- Sixteen full pages. -/
def sixteenFull : State := addAll smallParams smallBooted (List.replicate 16 247)

/-- The test instantiation at power on with a device whose call number 5 fails. -/
def tornPowerOn : State := { powerOn with sFaults := fun n => n == 5 }

/-- One item of three bytes on the device of `tornPowerOn`, then `commit`: the call number 5
is the `writePage` of copy B. -/
def tornCommit : State :=
  commit testParams (addConfig testParams (init testParams tornPowerOn 0) sPattern 3).2

/-- One item of three bytes, committed to both copies. -/
def oneItemCommitted : State := commit testParams oneItem

/-- The state `oneItemCommitted` with the byte at offset 9 of the first page of copy B, the
first byte of the item, changed from 0 to 1. -/
def oneItemCorrupted : State := withFlashByte oneItemCommitted (2048 * 256 + 9) 1

/-- A dual-copy partition of two pages on a device with sectors of one page: each copy is
one page. -/
def tinyParams : Params :=
  { cPageSizeInBytes := 256, cSectorSizeInPages := 1, cFlashSizeInPages := 65536,
    tPagesNeeded := 2, tCopies := FlashCopies.c2, tReadAheadSizeInPages := 2,
    tMaxItemCount := 4, tValueBufferSize := 8 }

/-- In `tinyParams`, after `init` on the erased flash: one item of 124 bytes, which goes to
page 0, and a second one, which does not fit and is refused with `cConfigFull`. -/
def tinyFull : State := addAll tinyParams (init tinyParams powerOn 0) [124, 124]

/-- Two items of 100 and 147 bytes: the second passes the room test of `addConfig` on
page 0. -/
def twoItems : State := addAll testParams testBooted [100, 147]

/-- A boot on the flash that `oneItemCommitted` left. -/
def rebooted : State := init testParams oneItemCommitted 0

/-- Two items of 200 bytes, one on page 0 and one on page 1. -/
def twoBig : State := addAll testParams testBooted [200, 200]

/-- Five items of one byte in `tinyParams`, whose cache has four entries. -/
def fiveAdds : State := addAll tinyParams (init tinyParams powerOn 0) [1, 1, 1, 1, 1]

/-- Two items of three bytes on page 0. -/
def twoSmall : State := addAll testParams testBooted [3, 3]

/-- The page 0 that `serialize` makes of `twoSmall`. -/
def twoSmallPage : Mem := bufferPage testParams (serialize testParams twoSmall 0 0) 0

/-- The state `twoSmall` after `setConfig(0, ...)` with three bytes 7. -/
def twoSmallChanged : State := setConfig twoSmall 0 (fun _ => 7)

/-- The state `oneItemCommitted` with page 1 of copy A holding a copy of page 0: the item
with id 0 a second time. -/
def repeatedFlash : State :=
  { oneItemCommitted with
    sMemoryFlash := copyN oneItemCommitted.sMemoryFlash 256 oneItemCommitted.sMemoryFlash 256 }

/-- A dual-copy partition of four pages on a device with sectors of two pages: each copy is
one sector. -/
def pairParams : Params :=
  { cPageSizeInBytes := 256, cSectorSizeInPages := 2, cFlashSizeInPages := 65536,
    tPagesNeeded := 4, tCopies := FlashCopies.c2, tReadAheadSizeInPages := 2,
    tMaxItemCount := 4, tValueBufferSize := 8 }

/-- In `pairParams`, after `init` on the erased flash: one item of three bytes, then
`makeAllDirty`. -/
def allDirty : State :=
  makeAllDirty pairParams (addConfig pairParams (init pairParams powerOn 0) sPattern 3).2

/-- The three bytes 0x01, 0x02, 0x03 (and on from there). -/
def oneTwoThree : Mem := fun i => i + 1

/-- The test instantiation after `init` on the erased flash, `addConfig` of the bytes
0x01, 0x02, 0x03 and `commit`. -/
def formatCommitted : State :=
  commit testParams (addConfig testParams testBooted oneTwoThree 3).2

/-! ## Frame lemmas and fuel -/

theorem sameOutside_refl (s : State) : SameOutside s s := ⟨rfl, rfl, rfl, rfl⟩

theorem sameOutside_trans {a b c : State} (h1 : SameOutside a b) (h2 : SameOutside b c) :
    SameOutside a c :=
  ⟨h2.1.trans h1.1, h2.2.1.trans h1.2.1, h2.2.2.1.trans h1.2.2.1, h2.2.2.2.trans h1.2.2.2⟩

theorem processItems_checkFf (cfg : Params) (aPage : Mem) (idx : Nat) :
    ∀ (n nis : Nat) (result : ReadResult) (s : State),
      (processItems cfg aPage idx Task.cCheckFf n nis result s).2 = s := by
  intro n
  induction n with
  | zero => intro nis result s; rfl
  | succ n ih =>
    intro nis result s
    simp only [processItems]
    split
    · rfl
    · simp [ih]

theorem processPage_checkFf (cfg : Params) (s : State) (aPage : Mem) (idx : Nat) :
    (processPage cfg s aPage idx Task.cCheckFf).2 = s := by
  simp only [processPage, if_true]
  split_ifs <;> first | rfl | exact processItems_checkFf _ _ _ _ _ _ _

theorem processItems_sameOutside (cfg : Params) (aPage : Mem) (idx : Nat) (aTask : Task) :
    ∀ (n nis : Nat) (result : ReadResult) (s : State),
      SameOutside s (processItems cfg aPage idx aTask n nis result s).2 := by
  intro n
  induction n with
  | zero => intro nis result s; exact sameOutside_refl s
  | succ n ih =>
    intro nis result s
    simp only [processItems]
    split
    · exact sameOutside_refl s
    · refine sameOutside_trans ?_ (ih _ _ _)
      unfold SameOutside
      refine ⟨?_, ?_, ?_, ?_⟩ <;> (split_ifs <;> rfl)


theorem processPage_sameOutside (cfg : Params) (s : State) (aPage : Mem) (idx : Nat)
    (aTask : Task) : SameOutside s (processPage cfg s aPage idx aTask).2 := by
  simp only [processPage]
  split_ifs <;>
    first
    | exact sameOutside_refl s
    | exact sameOutside_trans ⟨rfl, rfl, rfl, rfl⟩ (processItems_sameOutside _ _ _ _ _ _ _ _)

/-- A pass that does not copy leaves the id counter and the cache alone. -/
theorem processItems_noCopy (cfg : Params) (aPage : Mem) (idx : Nat) (aTask : Task)
    (hTask : aTask ≠ Task.cCopy) :
    ∀ (n nis : Nat) (result : ReadResult) (s : State),
      (processItems cfg aPage idx aTask n nis result s).2.sNextId = s.sNextId ∧
      (processItems cfg aPage idx aTask n nis result s).2.sCache = s.sCache := by
  intro n
  induction n with
  | zero => intro nis result s; exact ⟨rfl, rfl⟩
  | succ n ih =>
    intro nis result s
    simp only [processItems, hTask, and_false, if_false]
    split
    · exact ⟨rfl, rfl⟩
    · exact ih _ _ _

theorem processPage_noCopy (cfg : Params) (s : State) (aPage : Mem) (idx : Nat) (aTask : Task)
    (hTask : aTask ≠ Task.cCopy) :
    (processPage cfg s aPage idx aTask).2.sNextId = s.sNextId ∧
    (processPage cfg s aPage idx aTask).2.sCache = s.sCache := by
  simp only [processPage]
  split_ifs <;>
    first
    | exact ⟨rfl, rfl⟩
    | exact processItems_noCopy cfg aPage idx aTask hTask _ _ _ _


/-- A relation between states that holds across every step of reading a copy holds across
the whole of `readAcopy`. -/
theorem readAcopyPages_rel (cfg : Params) (aTask : Task) (R : State → State → Prop)
    (hRefl : ∀ s, R s s) (hTrans : ∀ a b c, R a b → R b c → R a c)
    (hPage : ∀ s aPage idx, R s (processPage cfg s aPage idx aTask).2) (pagesRead : Nat) :
    ∀ (n pageIndex : Nat) (s : State),
      R s (readAcopyPages cfg aTask pagesRead n pageIndex s).2 := by
  intro n
  induction n with
  | zero => intro pageIndex s; exact hRefl s
  | succ n ih =>
    intro pageIndex s
    simp only [readAcopyPages]
    split
    · exact hTrans _ _ _ (hPage _ _ _) (ih _ _)
    · exact hPage _ _ _

theorem readAcopyLoop_rel (cfg : Params) (aTask : Task) (R : State → State → Prop)
    (hRefl : ∀ s, R s s) (hTrans : ∀ a b c, R a b → R b c → R a c)
    (hPage : ∀ s aPage idx, R s (processPage cfg s aPage idx aTask).2)
    (hRead : ∀ s a n, R s (readPages cfg s a n).2) (aCopyOffsetInPages : Nat) :
    ∀ (fuel pagesRead : Nat) (s : State) (r : ReadResult × State),
      readAcopyLoop cfg aCopyOffsetInPages aTask fuel pagesRead s = some r → R s r.2 := by
  intro fuel
  induction fuel with
  | zero => intro pagesRead s r h; simp [readAcopyLoop] at h
  | succ fuel ih =>
    intro pagesRead s r h
    simp only [readAcopyLoop] at h
    split_ifs at h with h1 h2 h3
    · cases h; exact hRead _ _ _
    · exact hTrans _ _ _ (hRead _ _ _)
        (hTrans _ _ _ (readAcopyPages_rel cfg aTask R hRefl hTrans hPage _ _ _ _) (ih _ _ _ h))
    · cases h
      exact hTrans _ _ _ (hRead _ _ _) (readAcopyPages_rel cfg aTask R hRefl hTrans hPage _ _ _ _)
    · cases h; exact hRead _ _ _

theorem readAcopy_rel (cfg : Params) (aTask : Task) (R : State → State → Prop)
    (hRefl : ∀ s, R s s) (hTrans : ∀ a b c, R a b → R b c → R a c)
    (hPage : ∀ s aPage idx, R s (processPage cfg s aPage idx aTask).2)
    (hRead : ∀ s a n, R s (readPages cfg s a n).2)
    (hCursor : ∀ (s : State) p b,
      R s { s with sFirstUsablePage := p, sFirstUsableByteIndex := b })
    (s : State) (aCopyOffsetInPages : Nat) :
    R s (readAcopy cfg s aCopyOffsetInPages aTask).2 := by
  simp only [readAcopy]
  cases h : readAcopyLoop cfg aCopyOffsetInPages aTask (cfg.cCopySizeInPages + 1) 0
      { s with sFirstUsablePage := 0, sFirstUsableByteIndex := cOffsetPageItems } with
  | none => exact hCursor _ _ _
  | some r =>
    exact hTrans _ _ _ (hCursor _ _ _)
      (readAcopyLoop_rel cfg aTask R hRefl hTrans hPage hRead _ _ _ _ r h)

/-- The loop of `readAcopy` returns within `cCopySizeInPages - pagesRead + 1` rounds. -/
theorem readAcopyLoop_isSome (cfg : Params) (aCopyOffsetInPages : Nat) (aTask : Task) :
    ∀ (fuel pagesRead : Nat) (s : State), cfg.cCopySizeInPages - pagesRead < fuel →
      (readAcopyLoop cfg aCopyOffsetInPages aTask fuel pagesRead s).isSome = true := by
  intro fuel
  induction fuel with
  | zero => intro pagesRead s h; omega
  | succ fuel ih =>
    intro pagesRead s h
    simp only [readAcopyLoop]
    split_ifs with h1 h2 h3
    · rfl
    · apply ih
      have := Nat.min_le_right cfg.tReadAheadSizeInPages (cfg.cCopySizeInPages - pagesRead)
      omega
    · rfl
    · rfl


/-- The loop of `readAcopy` never runs out of the rounds it is given. -/
theorem readAcopy_fuel (cfg : Params) (s : State) (aCopyOffsetInPages : Nat) (aTask : Task) :
    (readAcopyLoop cfg aCopyOffsetInPages aTask (cfg.cCopySizeInPages + 1) 0 s).isSome = true :=
  readAcopyLoop_isSome cfg aCopyOffsetInPages aTask _ _ s (by omega)

theorem commitCheckSector_state (cfg : Params) (startPage sectorIndex : Nat) :
    ∀ (n pageIndex : Nat) (a c : Bool) (s : State),
      (commitCheckSector cfg startPage sectorIndex n pageIndex a c s).2 = s := by
  intro n
  induction n with
  | zero => intro pageIndex a c s; rfl
  | succ n ih =>
    intro pageIndex a c s
    simp only [commitCheckSector]
    rw [ih, processPage_checkFf]

theorem commitWriteDirty_rel (cfg : Params) (R : State → State → Prop)
    (hRefl : ∀ s, R s s) (hTrans : ∀ a b c, R a b → R b c → R a c)
    (hSer : ∀ s a b, R s (serialize cfg s a b))
    (hWrite : ∀ s p d, R s (writePage cfg s p d).2) (off startPage sectorIndex : Nat) :
    ∀ (n pageIndex : Nat) (s : State),
      R s (commitWriteDirty cfg off startPage sectorIndex n pageIndex s).2 := by
  intro n
  induction n with
  | zero => intro pageIndex s; exact hRefl s
  | succ n ih =>
    intro pageIndex s
    simp only [commitWriteDirty]
    split_ifs
    · exact hTrans _ _ _ (hSer _ _ _) (hWrite _ _ _)
    · exact hTrans _ _ _ (hSer _ _ _) (hTrans _ _ _ (hWrite _ _ _) (ih _ _))
    · exact ih _ _

theorem commitWriteUsed_rel (cfg : Params) (R : State → State → Prop)
    (hRefl : ∀ s, R s s) (hTrans : ∀ a b c, R a b → R b c → R a c)
    (hSer : ∀ s a b, R s (serialize cfg s a b))
    (hWrite : ∀ s p d, R s (writePage cfg s p d).2) (off startPage sectorIndex : Nat) :
    ∀ (n pageIndex : Nat) (s : State),
      R s (commitWriteUsed cfg off startPage sectorIndex n pageIndex s).2 := by
  intro n
  induction n with
  | zero => intro pageIndex s; exact hRefl s
  | succ n ih =>
    intro pageIndex s
    simp only [commitWriteUsed]
    split_ifs
    · exact hTrans _ _ _ (hSer _ _ _) (hWrite _ _ _)
    · exact hTrans _ _ _ (hSer _ _ _) (hTrans _ _ _ (hWrite _ _ _) (ih _ _))
    · exact ih _ _

theorem commitSector_rel (cfg : Params) (R : State → State → Prop)
    (hRefl : ∀ s, R s s) (hTrans : ∀ a b c, R a b → R b c → R a c)
    (hSer : ∀ s a b, R s (serialize cfg s a b))
    (hWrite : ∀ s p d, R s (writePage cfg s p d).2)
    (hErase : ∀ s a, R s (eraseSector cfg s a).2) (off startSector startPage sectorIndex : Nat)
    (s : State) : R s (commitSector cfg off startSector startPage sectorIndex s).2 := by
  simp only [commitSector, commitCheckSector_state]
  split_ifs
  · exact commitWriteDirty_rel cfg R hRefl hTrans hSer hWrite _ _ _ _ _ _
  · exact hErase _ _
  · exact hTrans _ _ _ (hErase _ _)
      (commitWriteUsed_rel cfg R hRefl hTrans hSer hWrite _ _ _ _ _ _)
  · exact hRefl s

theorem commitSectors_rel (cfg : Params) (R : State → State → Prop)
    (hRefl : ∀ s, R s s) (hTrans : ∀ a b c, R a b → R b c → R a c)
    (hSer : ∀ s a b, R s (serialize cfg s a b))
    (hWrite : ∀ s p d, R s (writePage cfg s p d).2)
    (hErase : ∀ s a, R s (eraseSector cfg s a).2) (off startSector startPage : Nat) :
    ∀ (n sectorIndex : Nat) (s : State),
      R s (commitSectors cfg off startSector startPage n sectorIndex s).2 := by
  intro n
  induction n with
  | zero => intro sectorIndex s; exact hRefl s
  | succ n ih =>
    intro sectorIndex s
    simp only [commitSectors]
    split_ifs
    · exact hTrans _ _ _ (commitSector_rel cfg R hRefl hTrans hSer hWrite hErase _ _ _ _ _) (ih _ _)
    · exact commitSector_rel cfg R hRefl hTrans hSer hWrite hErase _ _ _ _ _

theorem commitLoop_rel (cfg : Params) (R : State → State → Prop)
    (hRefl : ∀ s, R s s) (hTrans : ∀ a b c, R a b → R b c → R a c)
    (hSer : ∀ s a b, R s (serialize cfg s a b))
    (hWrite : ∀ s p d, R s (writePage cfg s p d).2)
    (hErase : ∀ s a, R s (eraseSector cfg s a).2)
    (hRead : ∀ s a n, R s (readPages cfg s a n).2) (off globalEnd : Nat) :
    ∀ (fuel dirtyIter : Nat) (s : State) (r : Bool × State),
      commitLoop cfg off globalEnd fuel dirtyIter s = some r → R s r.2 := by
  intro fuel
  induction fuel with
  | zero =>
    intro dirtyIter s r h
    unfold commitLoop at h
    split_ifs at h
    cases h
    exact hRefl s
  | succ fuel ih =>
    intro dirtyIter s r h
    unfold commitLoop at h
    simp only at h
    split_ifs at h
    · cases h; exact hRefl s
    · cases h; exact hRead _ _ _
    · exact hTrans _ _ _ (hRead _ _ _)
        (hTrans _ _ _ (commitSectors_rel cfg R hRefl hTrans hSer hWrite hErase _ _ _ _ _ _)
          (ih _ _ _ h))
    · cases h
      exact hTrans _ _ _ (hRead _ _ _)
        (commitSectors_rel cfg R hRefl hTrans hSer hWrite hErase _ _ _ _ _ _)

theorem commitCopy_rel (cfg : Params) (R : State → State → Prop)
    (hRefl : ∀ s, R s s) (hTrans : ∀ a b c, R a b → R b c → R a c)
    (hSer : ∀ s a b, R s (serialize cfg s a b))
    (hWrite : ∀ s p d, R s (writePage cfg s p d).2)
    (hErase : ∀ s a, R s (eraseSector cfg s a).2)
    (hRead : ∀ s a n, R s (readPages cfg s a n).2) (s : State) (off : Nat) :
    R s (commitCopy cfg s off).2 := by
  simp only [commitCopy]
  cases h : commitLoop cfg off (min cfg.cCopySizeInPages ((s.sFirstUsablePage + 1) % 4294967296))
      cfg.cCopySizeInPages
      (findDirty s.sDirtyPages (min cfg.cCopySizeInPages ((s.sFirstUsablePage + 1) % 4294967296)) 0)
      s with
  | none => exact hRefl s
  | some r => exact commitLoop_rel cfg R hRefl hTrans hSer hWrite hErase hRead _ _ _ _ _ r h

theorem findDirty_bounds (d : Nat → Bool) :
    ∀ (n first : Nat), first ≤ findDirty d n first ∧ findDirty d n first ≤ first + n := by
  intro n
  induction n with
  | zero => intro first; exact ⟨Nat.le_refl _, Nat.le_refl _⟩
  | succ n ih =>
    intro first
    simp only [findDirty]
    split_ifs
    · omega
    · have := ih (first + 1)
      omega

/-- The loop of `commit(uint32_t)` returns within `globalEndPageIndex - dirtyIter` rounds
when the read-ahead buffer holds at least one sector. -/
theorem commitLoop_isSome (cfg : Params) (hS : 0 < cfg.cSectorSizeInPages)
    (hRA : cfg.cSectorSizeInPages ≤ cfg.tReadAheadSizeInPages) (off globalEnd : Nat) :
    ∀ (fuel dirtyIter : Nat) (s : State), dirtyIter ≤ globalEnd →
      globalEnd - dirtyIter ≤ fuel →
      (commitLoop cfg off globalEnd fuel dirtyIter s).isSome = true := by
  intro fuel
  induction fuel with
  | zero =>
    intro dirtyIter s h1 h2
    have : dirtyIter = globalEnd := by omega
    unfold commitLoop
    simp [this]
  | succ fuel ih =>
    intro dirtyIter s h1 h2
    unfold commitLoop
    simp only
    split_ifs with h3 h4 h5
    · rfl
    · rfl
    · have hLt : dirtyIter < dirtyIter / cfg.cSectorSizeInPages * cfg.cSectorSizeInPages
          + cfg.cSectorSizeInPages := Nat.lt_div_mul_add hS
      have hB := findDirty_bounds s.sDirtyPages
        (globalEnd - min globalEnd
          (dirtyIter / cfg.cSectorSizeInPages * cfg.cSectorSizeInPages
            + cfg.tReadAheadSizeInPages))
        (min globalEnd
          (dirtyIter / cfg.cSectorSizeInPages * cfg.cSectorSizeInPages
            + cfg.tReadAheadSizeInPages))
      have hMin := Nat.min_le_left globalEnd
        (dirtyIter / cfg.cSectorSizeInPages * cfg.cSectorSizeInPages
          + cfg.tReadAheadSizeInPages)
      have hMin2 : dirtyIter < min globalEnd
          (dirtyIter / cfg.cSectorSizeInPages * cfg.cSectorSizeInPages
            + cfg.tReadAheadSizeInPages) := by
        rw [Nat.lt_min]
        omega
      apply ih
      · omega
      · omega
    · rfl

/-- The loop of `commitCopy` never runs out of the rounds it is given. -/
theorem commitCopy_fuel (cfg : Params) (hS : 0 < cfg.cSectorSizeInPages)
    (hRA : cfg.cSectorSizeInPages ≤ cfg.tReadAheadSizeInPages) (s : State) (off : Nat) :
    (commitLoop cfg off (min cfg.cCopySizeInPages ((s.sFirstUsablePage + 1) % 4294967296))
      cfg.cCopySizeInPages
      (findDirty s.sDirtyPages
        (min cfg.cCopySizeInPages ((s.sFirstUsablePage + 1) % 4294967296)) 0) s).isSome
      = true := by
  have hB := findDirty_bounds s.sDirtyPages
    (min cfg.cCopySizeInPages ((s.sFirstUsablePage + 1) % 4294967296)) 0
  have hMin := Nat.min_le_left cfg.cCopySizeInPages ((s.sFirstUsablePage + 1) % 4294967296)
  apply commitLoop_isSome cfg hS hRA
  · omega
  · omega

/-- The static assertions give a sector of at least one page and a read-ahead buffer of at
least one sector. -/
theorem valid_sector (cfg : Params) (h : cfg.valid) :
    0 < cfg.cSectorSizeInPages ∧ cfg.cSectorSizeInPages ≤ cfg.tReadAheadSizeInPages := by
  obtain ⟨h1, h2, _, _, _, _, _, _, _, _, h11, _, _⟩ := h
  have hS : 0 < cfg.cSectorSizeInPages := by
    rcases Nat.eq_zero_or_pos cfg.cSectorSizeInPages with h0 | h0
    · rw [h0] at h11
      simp [countSetBits] at h11
    · exact h0
  exact ⟨hS, Nat.le_of_dvd (by omega) (Nat.dvd_of_mod_eq_zero h2)⟩

theorem bytesOf_eq_iff (a b : Mem) (n : Nat) :
    bytesOf a n = bytesOf b n ↔ ∀ i, i < n → a i = b i := by
  simp [bytesOf, List.map_inj_left]

theorem doesMatch_iff (item : ConfigItem) (aData : Mem) :
    item.doesMatch aData = true ↔ bytesOf aData item.mCount = bytesOf item.mData item.mCount := by
  simp [ConfigItem.doesMatch, bytesOf_eq_iff]

theorem bytesOf_copyN (aData old : Mem) (n : Nat) :
    bytesOf (copyN aData n old 0) n = bytesOf aData n := by
  rw [bytesOf_eq_iff]
  intro i hi
  simp [copyN, hi]

theorem upd_same {α : Type} (f : Nat → α) (i : Nat) (v : α) : upd f i v i = v := by
  simp [upd]

theorem upd_other {α : Type} (f : Nat → α) (i j : Nat) (v : α) (h : j ≠ i) : upd f i v j = f j := by
  simp [upd, h]

/-- A `setConfig` of the bytes already cached changes nothing. -/
theorem setConfig_of_same (s : State) (aId : Nat) (aData : Mem) (hId : aId < s.sNextId)
    (hSame : bytesOf aData (s.sCache aId).getCount = configView s aId) :
    setConfig s aId aData = s := by
  have hNot : ¬ aId ≥ s.sNextId := by omega
  have hM : (s.sCache aId).doesMatch aData = true := (doesMatch_iff _ _).2 hSame
  simp [setConfig, hNot, hM]

/-- A `setConfig` of other bytes copies them and marks the page of the entry dirty. -/
theorem setConfig_of_differ (s : State) (aId : Nat) (aData : Mem) (hId : aId < s.sNextId)
    (hDiffer : bytesOf aData (s.sCache aId).getCount ≠ configView s aId) :
    setConfig s aId aData =
      { s with
        sDirtyPages := upd s.sDirtyPages (s.sCache aId).getPageIndex true
        sCache := upd s.sCache aId
          { s.sCache aId with
            mData := copyN aData (s.sCache aId).getCount (s.sCache aId).getData 0 } } := by
  have hNot : ¬ aId ≥ s.sNextId := by omega
  have hM : ¬ (s.sCache aId).doesMatch aData = true :=
    fun h => hDiffer ((doesMatch_iff _ _).1 h)
  simp [setConfig, hNot, hM, ConfigItem.setData, ConfigItem.getCount, ConfigItem.getData]

/-- C3.  Effect of `setConfig(aId, aData)` for `aId < sNextId`: if the first `count` bytes
of `aData` equal the cached bytes, the state does not change at all; otherwise the only
changes are that the cached bytes of `aId` become those of `aData` and that the dirty flag
of the entry's page becomes true.  In both cases `getConfig(aId)` then reports no error and
gives `aData[0..count)`, the count of the entry, every other cache entry, `sNextId` and the
cursor are as before. -/
theorem setConfig_frame (s : State) (aId : Nat) (aData : Mem) (hId : aId < s.sNextId) :
    (bytesOf aData (s.sCache aId).getCount = configView s aId → setConfig s aId aData = s) ∧
    (bytesOf aData (s.sCache aId).getCount ≠ configView s aId →
      setConfig s aId aData =
        { s with
          sDirtyPages := upd s.sDirtyPages (s.sCache aId).getPageIndex true
          sCache := upd s.sCache aId
            { s.sCache aId with
              mData := copyN aData (s.sCache aId).getCount (s.sCache aId).getData 0 } }) ∧
    (getConfig (setConfig s aId aData) aId).1 = some ((setConfig s aId aData).sCache aId).getData ∧
    (getConfig (setConfig s aId aData) aId).2 = setConfig s aId aData ∧
    ((setConfig s aId aData).sCache aId).getCount = (s.sCache aId).getCount ∧
    configView (setConfig s aId aData) aId = bytesOf aData (s.sCache aId).getCount ∧
    (∀ j, j ≠ aId → (setConfig s aId aData).sCache j = s.sCache j) ∧
    (setConfig s aId aData).sNextId = s.sNextId ∧
    (setConfig s aId aData).sFirstUsablePage = s.sFirstUsablePage ∧
    (setConfig s aId aData).sFirstUsableByteIndex = s.sFirstUsableByteIndex := by
  have hNot : ¬ aId ≥ s.sNextId := by omega
  refine ⟨setConfig_of_same s aId aData hId, setConfig_of_differ s aId aData hId, ?_⟩
  by_cases hSame : bytesOf aData (s.sCache aId).getCount = configView s aId
  · rw [setConfig_of_same s aId aData hId hSame]
    refine ⟨?_, ?_, rfl, hSame.symm, fun _ _ => rfl, rfl, rfl, rfl⟩
    · simp [getConfig, hNot]
    · simp [getConfig, hNot]
  · rw [setConfig_of_differ s aId aData hId hSame]
    refine ⟨?_, ?_, ?_, ?_, ?_, rfl, rfl, rfl⟩
    · simp [getConfig, hNot]
    · simp [getConfig, hNot]
    · simp [upd_same, ConfigItem.getCount]
    · simp [configView, upd_same, ConfigItem.getCount, ConfigItem.getData, bytesOf_copyN]
    · intro j hj; simp [upd_other _ _ _ _ hj]

theorem commitKeeps_refl (s : State) : CommitKeeps s s :=
  ⟨rfl, rfl, rfl, rfl, rfl, rfl, rfl, rfl⟩

theorem commitKeeps_trans (a b c : State) (h1 : CommitKeeps a b) (h2 : CommitKeeps b c) :
    CommitKeeps a c := by
  obtain ⟨a1, a2, a3, a4, a5, a6, a7, a8⟩ := h1
  obtain ⟨b1, b2, b3, b4, b5, b6, b7, b8⟩ := h2
  exact ⟨b1.trans a1, b2.trans a2, b3.trans a3, b4.trans a4, b5.trans a5, b6.trans a6,
    b7.trans a7, b8.trans a8⟩

theorem readKeeps_refl (s : State) : ReadKeeps s s := ⟨rfl, rfl, rfl, rfl, rfl⟩

theorem readKeeps_trans (a b c : State) (h1 : ReadKeeps a b) (h2 : ReadKeeps b c) :
    ReadKeeps a c := by
  obtain ⟨a1, a2, a3, a4, a5⟩ := h1
  obtain ⟨b1, b2, b3, b4, b5⟩ := h2
  exact ⟨b1.trans a1, b2.trans a2, b3.trans a3, b4.trans a4, b5.trans a5⟩

theorem cacheKeeps_refl (s : State) : CacheKeeps s s := ⟨rfl, rfl⟩

theorem cacheKeeps_trans (a b c : State) (h1 : CacheKeeps a b) (h2 : CacheKeeps b c) :
    CacheKeeps a c :=
  ⟨h2.1.trans h1.1, h2.2.trans h1.2⟩

theorem readPages_commitKeeps (cfg : Params) (s : State) (a n : Nat) :
    CommitKeeps s (readPages cfg s a n).2 := by
  unfold readPages
  split_ifs <;> exact ⟨rfl, rfl, rfl, rfl, rfl, rfl, rfl, rfl⟩

theorem writePage_commitKeeps (cfg : Params) (s : State) (p : Nat) (d : Mem) :
    CommitKeeps s (writePage cfg s p d).2 := by
  unfold writePage
  split_ifs <;> exact ⟨rfl, rfl, rfl, rfl, rfl, rfl, rfl, rfl⟩

theorem eraseSector_commitKeeps (cfg : Params) (s : State) (a : Nat) :
    CommitKeeps s (eraseSector cfg s a).2 := by
  unfold eraseSector
  split_ifs <;> exact ⟨rfl, rfl, rfl, rfl, rfl, rfl, rfl, rfl⟩

theorem serialize_commitKeeps (cfg : Params) (s : State) (a b : Nat) :
    CommitKeeps s (serialize cfg s a b) :=
  ⟨rfl, rfl, rfl, rfl, rfl, rfl, rfl, rfl⟩

/-- One commit pass changes nothing of the engine but the read-ahead buffer, and reports no
fatal error. -/
theorem commitCopy_keeps (cfg : Params) (s : State) (off : Nat) :
    CommitKeeps s (commitCopy cfg s off).2 :=
  commitCopy_rel cfg CommitKeeps commitKeeps_refl commitKeeps_trans (serialize_commitKeeps cfg)
    (writePage_commitKeeps cfg) (eraseSector_commitKeeps cfg) (readPages_commitKeeps cfg) s off

theorem readPages_readKeeps (cfg : Params) (s : State) (a n : Nat) :
    ReadKeeps s (readPages cfg s a n).2 := by
  unfold readPages
  split_ifs <;> exact ⟨rfl, rfl, rfl, rfl, rfl⟩

theorem readPages_cacheKeeps (cfg : Params) (s : State) (a n : Nat) :
    CacheKeeps s (readPages cfg s a n).2 := by
  unfold readPages
  split_ifs <;> exact ⟨rfl, rfl⟩

theorem processPage_readKeeps (cfg : Params) (aTask : Task) (s : State) (aPage : Mem)
    (idx : Nat) : ReadKeeps s (processPage cfg s aPage idx aTask).2 := by
  obtain ⟨h1, h2, _, h4⟩ := processPage_sameOutside cfg s aPage idx aTask
  exact ⟨h4, h2, congrArg FlashInterface.sFatals h1, congrArg FlashInterface.sMemoryFlash h1,
    congrArg FlashInterface.sFaults h1⟩

/-- Reading a copy touches neither the dirty map nor the flash and reports no fatal
error. -/
theorem readAcopy_readKeeps (cfg : Params) (s : State) (off : Nat) (aTask : Task) :
    ReadKeeps s (readAcopy cfg s off aTask).2 :=
  readAcopy_rel cfg aTask ReadKeeps readKeeps_refl readKeeps_trans
    (processPage_readKeeps cfg aTask) (readPages_readKeeps cfg)
    (fun _ _ _ => ⟨rfl, rfl, rfl, rfl, rfl⟩) s off

/-- Reading a copy with a task other than `cCopy` changes neither `sNextId` nor the
cache. -/
theorem readAcopy_cacheKeeps (cfg : Params) (s : State) (off : Nat) (aTask : Task)
    (hTask : aTask ≠ Task.cCopy) : CacheKeeps s (readAcopy cfg s off aTask).2 :=
  readAcopy_rel cfg aTask CacheKeeps cacheKeeps_refl cacheKeeps_trans
    (fun s aPage idx => processPage_noCopy cfg s aPage idx aTask hTask)
    (readPages_cacheKeeps cfg) (fun _ _ _ => ⟨rfl, rfl⟩) s off

theorem findDirty_clean (d : Nat → Bool) :
    ∀ (n first : Nat), (∀ i, first ≤ i → i < first + n → d i = false) →
      findDirty d n first = first + n := by
  intro n
  induction n with
  | zero => intro first _; rfl
  | succ n ih =>
    intro first h
    have h0 : d first = false := h first (Nat.le_refl _) (by omega)
    simp only [findDirty, h0]
    rw [ih (first + 1) (fun i hi1 hi2 => h i (by omega) (by omega))]
    simp
    omega

theorem commitLoop_done (cfg : Params) (off globalEnd fuel : Nat) (s : State) :
    commitLoop cfg off globalEnd fuel globalEnd s = some (true, s) := by
  unfold commitLoop
  simp

theorem commitCopy_clean (cfg : Params) (s : State) (off : Nat)
    (hClean : ∀ i, i < min cfg.cCopySizeInPages (s.sFirstUsablePage + 1) →
      s.sDirtyPages i = false) :
    commitCopy cfg s off = (true, s) := by
  have hLe : (s.sFirstUsablePage + 1) % 4294967296 ≤ s.sFirstUsablePage + 1 := Nat.mod_le _ _
  have hFind : findDirty s.sDirtyPages
      (min cfg.cCopySizeInPages ((s.sFirstUsablePage + 1) % 4294967296)) 0
      = min cfg.cCopySizeInPages ((s.sFirstUsablePage + 1) % 4294967296) := by
    rw [findDirty_clean]
    · simp
    · intro i _ hi
      apply hClean
      have := Nat.min_le_left cfg.cCopySizeInPages ((s.sFirstUsablePage + 1) % 4294967296)
      have := Nat.min_le_right cfg.cCopySizeInPages ((s.sFirstUsablePage + 1) % 4294967296)
      simp only [Nat.lt_min]
      omega
  simp only [commitCopy, hFind, commitLoop_done]

theorem commit_clean (cfg : Params) (s : State)
    (hClean : ∀ i, i < min cfg.cCopySizeInPages (s.sFirstUsablePage + 1) →
      s.sDirtyPages i = false) :
    commit cfg s = makeAllClean cfg s := by
  simp [commit, commitCopy_clean cfg s _ hClean]

theorem list_append_singleton_ne {α : Type} (l : List α) (a : α) : l ++ [a] ≠ l := by
  intro h
  have := congrArg List.length h
  simp at this

/-- After `readAll` no page of the copy is marked dirty. -/
theorem readAll_dirty (cfg : Params) (s : State) (i : Nat) (hi : i < cfg.cCopySizeInPages) :
    (readAll cfg s).sDirtyPages i = false := by
  have hClear : ∀ t : State, (clear cfg t).sDirtyPages i = false := by
    intro t; simp [clear, makeAllClean, hi]
  have h1 : (readAcopy cfg (clear cfg s) 0 Task.cCopy).2.sDirtyPages i = false := by
    rw [(readAcopy_readKeeps cfg (clear cfg s) 0 Task.cCopy).2.1]; exact hClear s
  have h2a : (readAcopy cfg (clear cfg (readAcopy cfg (clear cfg s) 0 Task.cCopy).2)
      cfg.cCopySizeInPages Task.cCopy).2.sDirtyPages i = false := by
    rw [(readAcopy_readKeeps cfg _ _ Task.cCopy).2.1]; exact hClear _
  have h2b : (readAcopy cfg (readAcopy cfg (clear cfg s) 0 Task.cCopy).2
      cfg.cCopySizeInPages Task.cCheck).2.sDirtyPages i = false := by
    rw [(readAcopy_readKeeps cfg _ _ Task.cCheck).2.1]; exact h1
  unfold readAll
  lift_lets
  intro r1 result1 fup1 fubi1 r2 result2
  have k1 : r1.2.sDirtyPages i = false := h1
  have k2 : r2.2.sDirtyPages i = false := by
    show (if result1 ≠ ReadResult.cOk then _ else _ : ReadResult × State).2.sDirtyPages i = false
    split_ifs
    · exact h2a
    · exact h2b
  split_ifs <;>
    first
    | exact k1
    | exact k2
    | simp [fatalError, clear, makeAllClean, hi]


/-- The fatal errors `commit` can add, and what a commit without fatal error leaves in the
dirty map. -/
theorem commit_outcome (cfg : Params) (s : State) :
    ((commit cfg s).sFatals = s.sFatals ∧
      ∀ i, i < cfg.cCopySizeInPages → (commit cfg s).sDirtyPages i = false) ∨
    ((commit cfg s).sFatals = s.sFatals ++ [FlashException.cFlashTransferError] ∧
      (commit cfg s).sDirtyPages = s.sDirtyPages) := by
  have k1 := commitCopy_keeps cfg s 0
  have k2 := commitCopy_keeps cfg (commitCopy cfg s 0).2 cfg.cCopySizeInPages
  have k12 := commitKeeps_trans _ _ _ k1 k2
  unfold commit
  lift_lets
  intro r1 r2
  have k : CommitKeeps s r2.2 := by
    show CommitKeeps s (if r1.1 = true ∧ cfg.tCopies = FlashCopies.c2 then _ else _ :
      Bool × State).2
    split_ifs
    · exact k12
    · exact k1
  split_ifs
  · left
    refine ⟨k.2.2.2.2.2.2.1, ?_⟩
    intro i hi
    simp [makeAllClean, hi]
  · right
    exact ⟨by simp [fatalError, k.2.2.2.2.2.2.1], k.2.2.1⟩

/-- `commit` changes nothing of the engine but the read-ahead buffer and the dirty map. -/
theorem commit_keeps (cfg : Params) (s : State) :
    (commit cfg s).sNextId = s.sNextId ∧ (commit cfg s).sCache = s.sCache ∧
    (commit cfg s).sFirstUsablePage = s.sFirstUsablePage ∧
    (commit cfg s).sFirstUsableByteIndex = s.sFirstUsableByteIndex ∧
    (commit cfg s).sStartPage = s.sStartPage := by
  have k1 := commitCopy_keeps cfg s 0
  have k2 := commitCopy_keeps cfg (commitCopy cfg s 0).2 cfg.cCopySizeInPages
  have k12 := commitKeeps_trans _ _ _ k1 k2
  unfold commit
  lift_lets
  intro r1 r2
  have k : CommitKeeps s r2.2 := by
    show CommitKeeps s (if r1.1 = true ∧ cfg.tCopies = FlashCopies.c2 then _ else _ :
      Bool × State).2
    split_ifs
    · exact k12
    · exact k1
  obtain ⟨a1, a2, _, a4, a5, a6, _, _⟩ := k
  split_ifs <;> exact ⟨a6, a2, a4, a5, a1⟩

/-- C8.  Invalid ids: for an id at or above `sNextId`, `getConfig` reports
`cConfigInvalidId` and returns the null pointer, `setConfig` reports `cConfigInvalidId`, and
neither changes anything else; for an id below `sNextId` neither reports a fatal error. -/
theorem invalid_id_reported (s : State) (aId : Nat) (aData : Mem) :
    (aId ≥ s.sNextId →
      (getConfig s aId).1 = none ∧
      (getConfig s aId).2 = fatalError s FlashException.cConfigInvalidId ∧
      setConfig s aId aData = fatalError s FlashException.cConfigInvalidId ∧
      (fatalError s FlashException.cConfigInvalidId).sFatals
        = s.sFatals ++ [FlashException.cConfigInvalidId] ∧
      (fatalError s FlashException.cConfigInvalidId).toFlashConfig = s.toFlashConfig ∧
      (fatalError s FlashException.cConfigInvalidId).sMemoryFlash = s.sMemoryFlash) ∧
    (aId < s.sNextId →
      (getConfig s aId).1 = some (s.sCache aId).getData ∧
      (getConfig s aId).2 = s ∧
      (setConfig s aId aData).sFatals = s.sFatals) := by
  constructor
  · intro h
    refine ⟨?_, ?_, ?_, rfl, rfl, rfl⟩ <;> simp [getConfig, setConfig, h]
  · intro h
    have hNot : ¬ aId ≥ s.sNextId := by omega
    refine ⟨?_, ?_, ?_⟩
    · simp [getConfig, hNot]
    · simp [getConfig, hNot]
    · simp only [setConfig, hNot, if_false]
      split_ifs <;> rfl

/-- C9.  A clean commit touches nothing: when no page below
`min(cCopySizeInPages, sFirstUsablePage + 1)` is dirty, `commit` makes no device call,
reports no fatal error and leaves the flash as it is; this is the case right after `init`,
and after a commit without fatal error followed by a `setConfig` of the stored value. -/
theorem clean_commit_touches_nothing (cfg : Params) :
    (∀ s : State,
      (∀ i, i < min cfg.cCopySizeInPages (s.sFirstUsablePage + 1) → s.sDirtyPages i = false) →
      (commit cfg s).sCalls = s.sCalls ∧ (commit cfg s).sFatals = s.sFatals ∧
      (commit cfg s).sMemoryFlash = s.sMemoryFlash) ∧
    (∀ (s : State) (aStartPage : Nat),
      (commit cfg (init cfg s aStartPage)).sCalls = (init cfg s aStartPage).sCalls ∧
      (commit cfg (init cfg s aStartPage)).sFatals = (init cfg s aStartPage).sFatals) ∧
    (∀ (s : State) (aId : Nat) (aData : Mem),
      (commit cfg s).sFatals = s.sFatals → aId < (commit cfg s).sNextId →
      bytesOf aData ((commit cfg s).sCache aId).getCount = configView (commit cfg s) aId →
      (commit cfg (setConfig (commit cfg s) aId aData)).sCalls = (commit cfg s).sCalls ∧
      (commit cfg (setConfig (commit cfg s) aId aData)).sFatals = (commit cfg s).sFatals) := by
  have hMain : ∀ s : State,
      (∀ i, i < min cfg.cCopySizeInPages (s.sFirstUsablePage + 1) → s.sDirtyPages i = false) →
      (commit cfg s).sCalls = s.sCalls ∧ (commit cfg s).sFatals = s.sFatals ∧
      (commit cfg s).sMemoryFlash = s.sMemoryFlash := by
    intro s h
    rw [commit_clean cfg s h]
    exact ⟨rfl, rfl, rfl⟩
  refine ⟨hMain, ?_, ?_⟩
  · intro s aStartPage
    have h := hMain (init cfg s aStartPage) (fun i hi =>
      readAll_dirty cfg _ i (lt_of_lt_of_le hi (Nat.min_le_left _ _)))
    exact ⟨h.1, h.2.1⟩
  · intro s aId aData hOk hId hSame
    have hSet : setConfig (commit cfg s) aId aData = commit cfg s :=
      setConfig_of_same (commit cfg s) aId aData hId hSame
    rw [hSet]
    have hDirty : ∀ i, i < cfg.cCopySizeInPages → (commit cfg s).sDirtyPages i = false := by
      rcases commit_outcome cfg s with h | h
      · exact h.2
      · exact absurd (h.1.symm.trans hOk) (list_append_singleton_ne _ _)
    have h := hMain (commit cfg s) (fun i hi =>
      hDirty i (lt_of_lt_of_le hi (Nat.min_le_left _ _)))
    exact ⟨h.1, h.2.1⟩

/-- C10.  Outcome matrix of `readAll` with two copies.  With `r1` the result of reading copy
A with task `cCopy` and `r2` that of reading copy B (task `cCheck` when `r1` is `cOk`,
otherwise task `cCopy` after `clear`): `readAll` reports `cConfigCopiesMismatch` if `r1` is
`cOk` and `r2` is `cErrorMismatch`, `cConfigBadCopy2` if `r1` is `cOk` and `r2` is another
result than `cOk`, `cConfigBadCopy1` if `r1` is not `cOk` and `r2` is, `cConfigBadCopies` if
neither is, and nothing if both are; it never reports more than one fatal error.  After
`cConfigCopiesMismatch` and `cConfigBadCopies`, `sNextId` is 0 and the cursor is (0, 5);
after `cConfigBadCopy2` the cursor, `sNextId` and the cache are those left by reading copy A;
after `cConfigBadCopy1` they are those left by reading copy B. -/
theorem readAll_outcome_matrix (cfg : Params) (hCopies : cfg.tCopies = FlashCopies.c2)
    (s : State) :
    let r1 := readAcopy cfg (clear cfg s) 0 Task.cCopy
    let r2 :=
      if r1.1 = ReadResult.cOk then readAcopy cfg r1.2 cfg.cCopySizeInPages Task.cCheck
      else readAcopy cfg (clear cfg r1.2) cfg.cCopySizeInPages Task.cCopy
    (r1.1 = ReadResult.cOk → r2.1 = ReadResult.cErrorMismatch →
      (readAll cfg s).sFatals = s.sFatals ++ [FlashException.cConfigCopiesMismatch] ∧
      (readAll cfg s).sNextId = 0 ∧ (readAll cfg s).sFirstUsablePage = 0 ∧
      (readAll cfg s).sFirstUsableByteIndex = 5) ∧
    (r1.1 = ReadResult.cOk → r2.1 ≠ ReadResult.cOk → r2.1 ≠ ReadResult.cErrorMismatch →
      (readAll cfg s).sFatals = s.sFatals ++ [FlashException.cConfigBadCopy2] ∧
      (readAll cfg s).sFirstUsablePage = r1.2.sFirstUsablePage ∧
      (readAll cfg s).sFirstUsableByteIndex = r1.2.sFirstUsableByteIndex ∧
      (readAll cfg s).sNextId = r1.2.sNextId ∧ (readAll cfg s).sCache = r1.2.sCache) ∧
    (r1.1 ≠ ReadResult.cOk → r2.1 = ReadResult.cOk →
      (readAll cfg s).sFatals = s.sFatals ++ [FlashException.cConfigBadCopy1] ∧
      (readAll cfg s).sFirstUsablePage = r2.2.sFirstUsablePage ∧
      (readAll cfg s).sFirstUsableByteIndex = r2.2.sFirstUsableByteIndex ∧
      (readAll cfg s).sNextId = r2.2.sNextId ∧ (readAll cfg s).sCache = r2.2.sCache) ∧
    (r1.1 ≠ ReadResult.cOk → r2.1 ≠ ReadResult.cOk →
      (readAll cfg s).sFatals = s.sFatals ++ [FlashException.cConfigBadCopies] ∧
      (readAll cfg s).sNextId = 0 ∧ (readAll cfg s).sFirstUsablePage = 0 ∧
      (readAll cfg s).sFirstUsableByteIndex = 5) ∧
    (r1.1 = ReadResult.cOk → r2.1 = ReadResult.cOk →
      (readAll cfg s).sFatals = s.sFatals ∧ (readAll cfg s) = r2.2) ∧
    (∃ l : List FlashException, (readAll cfg s).sFatals = s.sFatals ++ l ∧ l.length ≤ 1) := by
  intro r1 r2
  have f1 : r1.2.sFatals = s.sFatals :=
    (readAcopy_readKeeps cfg (clear cfg s) 0 Task.cCopy).2.2.1
  have f2 : r2.2.sFatals = s.sFatals := by
    show (if r1.1 = ReadResult.cOk then _ else _ : ReadResult × State).2.sFatals = s.sFatals
    split_ifs
    · exact ((readAcopy_readKeeps cfg r1.2 cfg.cCopySizeInPages Task.cCheck).2.2.1).trans f1
    · exact ((readAcopy_readKeeps cfg (clear cfg r1.2) cfg.cCopySizeInPages
        Task.cCopy).2.2.1).trans f1
  have hAll : readAll cfg s =
      if r1.1 = ReadResult.cOk ∧ r2.1 = ReadResult.cErrorMismatch then
        fatalError
          (clear cfg { r2.2 with sFirstUsablePage := 0, sFirstUsableByteIndex := cOffsetPageItems })
          FlashException.cConfigCopiesMismatch
      else if r1.1 = ReadResult.cOk ∧ r2.1 ≠ ReadResult.cOk then
        fatalError
          { r2.2 with
            sFirstUsablePage := r1.2.sFirstUsablePage
            sFirstUsableByteIndex := r1.2.sFirstUsableByteIndex }
          FlashException.cConfigBadCopy2
      else if r1.1 ≠ ReadResult.cOk ∧ r2.1 = ReadResult.cOk then
        fatalError r2.2 FlashException.cConfigBadCopy1
      else if r1.1 ≠ ReadResult.cOk ∧ r2.1 ≠ ReadResult.cOk then
        fatalError
          (clear cfg { r2.2 with sFirstUsablePage := 0, sFirstUsableByteIndex := cOffsetPageItems })
          FlashException.cConfigBadCopies
      else r2.2 := by
    unfold readAll
    simp only [hCopies, if_true]
    by_cases h : r1.1 = ReadResult.cOk
    · have h' : (readAcopy cfg (clear cfg s) 0 Task.cCopy).1 = ReadResult.cOk := h
      simp only [r2, h, h', ne_eq, not_true_eq_false, if_false, if_true, true_and, false_and]
    · have h' : ¬ (readAcopy cfg (clear cfg s) 0 Task.cCopy).1 = ReadResult.cOk := h
      simp only [r2, h, h', ne_eq, not_false_eq_true, if_false, if_true, true_and, false_and]
  refine ⟨?_, ?_, ?_, ?_, ?_, ?_⟩
  · intro h1 h2
    rw [hAll]
    simp [h1, h2, fatalError, clear, makeAllClean, f2, cOffsetPageItems, cOffsetPageChecksum,
      cOffsetPageCount, cOffsetPageMagic]
  · intro h1 h2 h3
    have c : CacheKeeps r1.2 r2.2 := by
      show CacheKeeps r1.2 (if r1.1 = ReadResult.cOk then _ else _ : ReadResult × State).2
      rw [if_pos h1]
      exact readAcopy_cacheKeeps cfg r1.2 cfg.cCopySizeInPages Task.cCheck (by decide)
    rw [hAll]
    simp [h1, h2, h3, fatalError, f2, c.1, c.2]
  · intro h1 h2
    rw [hAll]
    simp [h1, h2, fatalError, f2]
  · intro h1 h2
    rw [hAll]
    simp [h1, h2, fatalError, clear, makeAllClean, f2, cOffsetPageItems, cOffsetPageChecksum,
      cOffsetPageCount, cOffsetPageMagic]
  · intro h1 h2
    rw [hAll]
    simp [h1, h2, f2]
  · rw [hAll]
    split_ifs
    · exact ⟨[FlashException.cConfigCopiesMismatch],
        by simp [fatalError, clear, makeAllClean, f2], by simp⟩
    · exact ⟨[FlashException.cConfigBadCopy2], by simp [fatalError, f2], by simp⟩
    · exact ⟨[FlashException.cConfigBadCopy1], by simp [fatalError, f2], by simp⟩
    · exact ⟨[FlashException.cConfigBadCopies],
        by simp [fatalError, clear, makeAllClean, f2], by simp⟩
    · exact ⟨[], by simp [f2], by simp⟩

theorem addConfig_tooBig (cfg : Params) (s : State) (aData : Mem) (aCount : Nat)
    (h : aCount > cfg.cMaxItemDataSize) :
    addConfig cfg s aData aCount = (cUnusedValue, fatalError s FlashException.cConfigItemTooBig) := by
  simp [addConfig, h]

theorem addConfig_invalidId (cfg : Params) (s : State) (aData : Mem) (aCount : Nat)
    (h1 : aCount ≤ cfg.cMaxItemDataSize) (h2 : s.sNextId ≥ cUnusedValue) :
    addConfig cfg s aData aCount = (cUnusedValue, fatalError s FlashException.cConfigInvalidId) := by
  have : ¬ aCount > cfg.cMaxItemDataSize := by omega
  simp [addConfig, this, h2]

/-- Past its two guards `addConfig` hands out `sNextId` and increments it, whether or not
the item finds room. -/
theorem addConfig_takesId (cfg : Params) (s : State) (aData : Mem) (aCount : Nat)
    (h1 : aCount ≤ cfg.cMaxItemDataSize) (h2 : s.sNextId < cUnusedValue) :
    (addConfig cfg s aData aCount).1 = s.sNextId ∧
    (addConfig cfg s aData aCount).2.sNextId = s.sNextId + 1 := by
  have g1 : ¬ aCount > cfg.cMaxItemDataSize := by omega
  have g2 : ¬ s.sNextId ≥ cUnusedValue := by omega
  have g3 : (s.sNextId + 1) % 65536 = s.sNextId + 1 := by
    unfold cUnusedValue at h2
    omega
  simp only [addConfig, g1, g2, if_false]
  split_ifs <;> simp [fatalError, g3]

theorem addConfig_nextId_le (cfg : Params) (s : State) (aData : Mem) (aCount : Nat) :
    s.sNextId ≤ (addConfig cfg s aData aCount).2.sNextId := by
  by_cases h1 : aCount ≤ cfg.cMaxItemDataSize
  · by_cases h2 : s.sNextId < cUnusedValue
    · rw [(addConfig_takesId cfg s aData aCount h1 h2).2]; omega
    · rw [addConfig_invalidId cfg s aData aCount h1 (by omega)]; exact Nat.le_refl _
  · rw [addConfig_tooBig cfg s aData aCount (by omega)]; exact Nat.le_refl _

theorem setConfig_nextId (s : State) (aId : Nat) (aData : Mem) :
    (setConfig s aId aData).sNextId = s.sNextId := by
  simp only [setConfig]
  split_ifs <;> rfl

theorem getConfig_nextId (s : State) (aId : Nat) :
    (getConfig s aId).2.sNextId = s.sNextId := by
  unfold getConfig
  split_ifs <;> rfl

/-- C4 (amended).  Ids are dense: an `addConfig` that reports neither `cConfigItemTooBig`
nor `cConfigInvalidId` returns the value `sNextId` had and leaves it one larger; over any
sequence of `addConfig`, `setConfig`, `getConfig`, `commit` and `makeAllDirty` calls
`sNextId` never decreases; `clear` sets it back to 0. -/
theorem ids_dense_until_clear (cfg : Params) (s : State) :
    (∀ (aData : Mem) (aCount : Nat),
      (addConfig cfg s aData aCount).2.sFatals
        ≠ s.sFatals ++ [FlashException.cConfigItemTooBig] →
      (addConfig cfg s aData aCount).2.sFatals
        ≠ s.sFatals ++ [FlashException.cConfigInvalidId] →
      (addConfig cfg s aData aCount).1 = s.sNextId ∧
      (addConfig cfg s aData aCount).2.sNextId = s.sNextId + 1) ∧
    (∀ calls : List Call,
      (∀ c ∈ calls, c ≠ Call.clear ∧ c ≠ Call.readAllDebugTodoRemove) →
      s.sNextId ≤ (runCalls cfg s calls).sNextId) ∧
    (clear cfg s).sNextId = 0 := by
  refine ⟨?_, ?_, rfl⟩
  · intro aData aCount hBig hInv
    by_cases h1 : aCount ≤ cfg.cMaxItemDataSize
    · by_cases h2 : s.sNextId < cUnusedValue
      · exact addConfig_takesId cfg s aData aCount h1 h2
      · exact absurd (by rw [addConfig_invalidId cfg s aData aCount h1 (by omega)]; rfl) hInv
    · exact absurd (by rw [addConfig_tooBig cfg s aData aCount (by omega)]; rfl) hBig
  · intro calls
    induction calls generalizing s with
    | nil => intro _; exact Nat.le_refl _
    | cons c cs ih =>
      intro h
      have hc := h c (List.mem_cons_self _ _)
      have hStep : s.sNextId ≤ (runCall cfg s c).sNextId := by
        cases c with
        | addConfig aData aCount => exact addConfig_nextId_le cfg s aData aCount
        | setConfig aId aData => exact Nat.le_of_eq (setConfig_nextId s aId aData).symm
        | getConfig aId => exact Nat.le_of_eq (getConfig_nextId s aId).symm
        | makeAllDirty => exact Nat.le_refl _
        | commit => exact Nat.le_of_eq (commit_keeps cfg s).1.symm
        | clear => exact absurd rfl hc.1
        | readAllDebugTodoRemove => exact absurd rfl hc.2
      exact Nat.le_trans hStep
        (ih (runCall cfg s c) (fun c' hc' => h c' (List.mem_cons_of_mem _ hc')))

/-- An entry that is still `cVoid`, or has the count asked for, has that count after
`init`. -/
theorem init_count (tValueBufferSize : Nat) (item : ConfigItem) (aStartPage aOffset aCount : Nat)
    (hEntry : item.mStatus = Status.cVoid ∨ item.mCount = aCount) :
    (item.init tValueBufferSize aStartPage aOffset aCount).mCount = aCount := by
  by_cases h : item.mStatus = Status.cVoid
  · simp [ConfigItem.init, h]
  · rcases hEntry with h' | h'
    · exact absurd h' h
    · simp [ConfigItem.init, h, h']

theorem setData_view (item : ConfigItem) (aData : Mem) :
    bytesOf (item.setData aData).mData (item.setData aData).mCount = bytesOf aData item.mCount := by
  simp [ConfigItem.setData, bytesOf_copyN]

/-- The value `totalLeftover` of `addConfig`. -/
theorem addConfig_eq (cfg : Params) (s : State) (aData : Mem) (aCount : Nat)
    (h1 : aCount ≤ cfg.cMaxItemDataSize) (h2 : s.sNextId < cUnusedValue) (page idx : Nat)
    (hPage : page =
      if (cfg.cPageSizeInBytes + 4294967296 - s.sFirstUsableByteIndex) % 4294967296 % 65536
          < aCount then (s.sFirstUsablePage + 1) % 4294967296 else s.sFirstUsablePage)
    (hIdx : idx =
      if (cfg.cPageSizeInBytes + 4294967296 - s.sFirstUsableByteIndex) % 4294967296 % 65536
          < aCount then cOffsetPageItems else s.sFirstUsableByteIndex) :
    addConfig cfg s aData aCount =
      if page < cfg.cCopySizeInPages then
        (s.sNextId,
         { s with
           sNextId := s.sNextId + 1
           sFirstUsablePage := page
           sFirstUsableByteIndex := (idx + (cOffsetItemData + aCount)) % 65536
           sDirtyPages := upd s.sDirtyPages
             ((s.sCache s.sNextId).init cfg.tValueBufferSize page
               ((idx + cOffsetItemData) % 65536) aCount).getPageIndex true
           sCache := upd s.sCache s.sNextId
             (((s.sCache s.sNextId).init cfg.tValueBufferSize page
               ((idx + cOffsetItemData) % 65536) aCount).setData aData) })
      else
        (s.sNextId,
         fatalError
           { s with sNextId := s.sNextId + 1, sFirstUsablePage := page, sFirstUsableByteIndex := idx }
           FlashException.cConfigFull) := by
  have g1 : ¬ aCount > cfg.cMaxItemDataSize := by omega
  have g2 : ¬ s.sNextId ≥ cUnusedValue := by omega
  have g3 : (s.sNextId + 1) % 65536 = s.sNextId + 1 := by
    unfold cUnusedValue at h2
    omega
  subst hPage hIdx
  simp only [addConfig, g1, g2, if_false, g3]
  by_cases h3 : (cfg.cPageSizeInBytes + 4294967296 - s.sFirstUsableByteIndex) % 4294967296 % 65536
      < aCount
  · simp only [h3, if_true]
  · simp only [h3, if_false]

/-- What a call of `addConfig` that reports no fatal error has done. -/
theorem addConfig_stored (cfg : Params) (s : State) (aData : Mem) (aCount : Nat)
    (hOk : (addConfig cfg s aData aCount).2.sFatals = s.sFatals) :
    aCount ≤ cfg.cMaxItemDataSize ∧ s.sNextId < cUnusedValue ∧
    (addConfig cfg s aData aCount).1 = s.sNextId ∧
    (addConfig cfg s aData aCount).2.sNextId = s.sNextId + 1 ∧
    (addConfig cfg s aData aCount).2.sFirstUsablePage < cfg.cCopySizeInPages ∧
    ∃ aOffset,
      (addConfig cfg s aData aCount).2.sCache s.sNextId =
        ((s.sCache s.sNextId).init cfg.tValueBufferSize
          (addConfig cfg s aData aCount).2.sFirstUsablePage aOffset aCount).setData aData := by
  by_cases h1 : aCount ≤ cfg.cMaxItemDataSize
  · by_cases h2 : s.sNextId < cUnusedValue
    · have t := addConfig_takesId cfg s aData aCount h1 h2
      refine ⟨h1, h2, t.1, t.2, ?_⟩
      obtain ⟨page, hPage⟩ : ∃ page, page =
          if (cfg.cPageSizeInBytes + 4294967296 - s.sFirstUsableByteIndex) % 4294967296 % 65536
            < aCount then (s.sFirstUsablePage + 1) % 4294967296 else s.sFirstUsablePage :=
        ⟨_, rfl⟩
      obtain ⟨idx, hIdx⟩ : ∃ idx, idx =
          if (cfg.cPageSizeInBytes + 4294967296 - s.sFirstUsableByteIndex) % 4294967296 % 65536
            < aCount then cOffsetPageItems else s.sFirstUsableByteIndex :=
        ⟨_, rfl⟩
      have e := addConfig_eq cfg s aData aCount h1 h2 page idx hPage hIdx
      by_cases h4 : page < cfg.cCopySizeInPages
      · rw [if_pos h4] at e
        rw [e]
        exact ⟨h4, _, upd_same _ _ _⟩
      · rw [if_neg h4] at e
        rw [e] at hOk
        exact absurd hOk (list_append_singleton_ne s.sFatals _)
    · rw [addConfig_invalidId cfg s aData aCount h1 (by omega)] at hOk
      exact absurd hOk (list_append_singleton_ne _ _)
  · rw [addConfig_tooBig cfg s aData aCount (by omega)] at hOk
    exact absurd hOk (list_append_singleton_ne _ _)

/-- C2 (amended).  When the cache entry at `sNextId` is still `cVoid` or already has the
count `aCount`, an `addConfig(aData, aCount)` that reports no fatal error returns an id for
which `getConfig`, called next, reports no error and gives the `aCount` bytes of `aData`. -/
theorem addConfig_then_getConfig (cfg : Params) (s : State) (aData : Mem) (aCount : Nat)
    (hEntry : (s.sCache s.sNextId).mStatus = Status.cVoid ∨
      (s.sCache s.sNextId).mCount = aCount)
    (hOk : (addConfig cfg s aData aCount).2.sFatals = s.sFatals) :
    (getConfig (addConfig cfg s aData aCount).2 (addConfig cfg s aData aCount).1).1 =
      some ((addConfig cfg s aData aCount).2.sCache (addConfig cfg s aData aCount).1).getData ∧
    (getConfig (addConfig cfg s aData aCount).2 (addConfig cfg s aData aCount).1).2 =
      (addConfig cfg s aData aCount).2 ∧
    configView (addConfig cfg s aData aCount).2 (addConfig cfg s aData aCount).1 =
      bytesOf aData aCount := by
  obtain ⟨_, _, hId, hNext, _, aOffset, hCache⟩ := addConfig_stored cfg s aData aCount hOk
  have hLt : ¬ (addConfig cfg s aData aCount).1 ≥ (addConfig cfg s aData aCount).2.sNextId := by
    rw [hId, hNext]; omega
  refine ⟨by simp [getConfig, hLt], by simp [getConfig, hLt], ?_⟩
  rw [hId]
  unfold configView ConfigItem.getData ConfigItem.getCount
  rw [hCache, setData_view, init_count _ _ _ _ _ hEntry]

theorem cOffsetPageItems_eq : cOffsetPageItems = 5 := rfl

theorem cOffsetItemData_eq : cOffsetItemData = 4 := rfl

theorem cUnusedValue_eq : cUnusedValue = 65535 := rfl

theorem cMaxItemDataSize_eq (cfg : Params) (hP1 : 256 ≤ cfg.cPageSizeInBytes)
    (hP2 : cfg.cPageSizeInBytes ≤ 32768) : cfg.cMaxItemDataSize = cfg.cPageSizeInBytes - 9 := by
  unfold Params.cMaxItemDataSize Params.cPageItemSpace
  rw [cOffsetPageItems_eq, cOffsetItemData_eq]
  omega

/-- C5 (amended).  Item size limit: `cMaxItemDataSize` is `P - 9`; on a fresh page
(byte index 5, page below `cCopySizeInPages`) with `sNextId < 0xFFFF` and the entry at
`sNextId` still `cVoid` (or of that count), `addConfig(aData, P - 9)` reports no fatal error
and stores the item, which then fills the page; `addConfig` with `P - 8` bytes or more
reports `cConfigItemTooBig`. -/
theorem item_size_limit (cfg : Params) (hP1 : 256 ≤ cfg.cPageSizeInBytes)
    (hP2 : cfg.cPageSizeInBytes ≤ 32768) (s : State) (aData : Mem)
    (hFresh : s.sFirstUsableByteIndex = cOffsetPageItems)
    (hPage : s.sFirstUsablePage < cfg.cCopySizeInPages)
    (hId : s.sNextId < cUnusedValue)
    (hEntry : (s.sCache s.sNextId).mStatus = Status.cVoid ∨
      (s.sCache s.sNextId).mCount = cfg.cPageSizeInBytes - 9) :
    cfg.cMaxItemDataSize = cfg.cPageSizeInBytes - 9 ∧
    ((addConfig cfg s aData (cfg.cPageSizeInBytes - 9)).2.sFatals = s.sFatals ∧
      (addConfig cfg s aData (cfg.cPageSizeInBytes - 9)).1 = s.sNextId ∧
      (addConfig cfg s aData (cfg.cPageSizeInBytes - 9)).2.sNextId = s.sNextId + 1 ∧
      configView (addConfig cfg s aData (cfg.cPageSizeInBytes - 9)).2 s.sNextId
        = bytesOf aData (cfg.cPageSizeInBytes - 9) ∧
      (addConfig cfg s aData (cfg.cPageSizeInBytes - 9)).2.sFirstUsablePage
        = s.sFirstUsablePage ∧
      (addConfig cfg s aData (cfg.cPageSizeInBytes - 9)).2.sFirstUsableByteIndex
        = cfg.cPageSizeInBytes) ∧
    (∀ aCount, cfg.cPageSizeInBytes - 8 ≤ aCount →
      addConfig cfg s aData aCount
        = (cUnusedValue, fatalError s FlashException.cConfigItemTooBig)) := by
  have hMax := cMaxItemDataSize_eq cfg hP1 hP2
  refine ⟨hMax, ?_, ?_⟩
  · have hLeft : ¬ (cfg.cPageSizeInBytes + 4294967296 - s.sFirstUsableByteIndex) % 4294967296
        % 65536 < cfg.cPageSizeInBytes - 9 := by
      rw [hFresh, cOffsetPageItems_eq]; omega
    have e := addConfig_eq cfg s aData (cfg.cPageSizeInBytes - 9) (by omega) hId
      s.sFirstUsablePage cOffsetPageItems (by rw [if_neg hLeft]) (by rw [if_neg hLeft, hFresh])
    rw [if_pos hPage] at e
    rw [e]
    refine ⟨rfl, rfl, rfl, ?_, rfl, ?_⟩
    · show bytesOf (upd s.sCache s.sNextId _ s.sNextId).getData
        (upd s.sCache s.sNextId _ s.sNextId).getCount = _
      rw [upd_same]
      unfold ConfigItem.getData ConfigItem.getCount
      rw [setData_view, init_count _ _ _ _ _ hEntry]
    · show (cOffsetPageItems + (cOffsetItemData + (cfg.cPageSizeInBytes - 9))) % 65536
        = cfg.cPageSizeInBytes
      rw [cOffsetPageItems_eq, cOffsetItemData_eq]; omega
  · intro aCount h
    exact addConfig_tooBig cfg s aData aCount (by omega)

/-- While the cursor has not passed the end of the page, `addConfig` with a count up to
`P - 9` reports `cConfigInvalidId` exactly when `sNextId` is 0xFFFF, otherwise `cConfigFull`
exactly when the page the item goes to (the current one if `P - sFirstUsableByteIndex` is at
least the count, else the next one) is not below `cCopySizeInPages`, otherwise nothing. -/
theorem addConfig_reports (cfg : Params) (hP1 : 256 ≤ cfg.cPageSizeInBytes)
    (hP2 : cfg.cPageSizeInBytes ≤ 32768) (s : State) (aData : Mem) (aCount : Nat)
    (hCount : aCount ≤ cfg.cPageSizeInBytes - 9)
    (hIdx : s.sFirstUsableByteIndex ≤ cfg.cPageSizeInBytes)
    (hPage : s.sFirstUsablePage + 1 < 4294967296) (hNext : s.sNextId ≤ cUnusedValue) :
    (addConfig cfg s aData aCount).2.sFatals =
      s.sFatals ++
        (if s.sNextId = cUnusedValue then [FlashException.cConfigInvalidId]
         else if (if cfg.cPageSizeInBytes - s.sFirstUsableByteIndex ≥ aCount
              then s.sFirstUsablePage else s.sFirstUsablePage + 1) ≥ cfg.cCopySizeInPages
           then [FlashException.cConfigFull]
         else []) := by
  have hMax := cMaxItemDataSize_eq cfg hP1 hP2
  have h1 : aCount ≤ cfg.cMaxItemDataSize := by omega
  by_cases hId : s.sNextId = cUnusedValue
  · rw [addConfig_invalidId cfg s aData aCount h1 (by omega), if_pos hId]
    rfl
  · have h2 : s.sNextId < cUnusedValue := by omega
    have hLeft : (cfg.cPageSizeInBytes + 4294967296 - s.sFirstUsableByteIndex) % 4294967296
        % 65536 = cfg.cPageSizeInBytes - s.sFirstUsableByteIndex := by omega
    rw [if_neg hId]
    by_cases hRoom : cfg.cPageSizeInBytes - s.sFirstUsableByteIndex ≥ aCount
    · have hNot : ¬ (cfg.cPageSizeInBytes + 4294967296 - s.sFirstUsableByteIndex) % 4294967296
          % 65536 < aCount := by omega
      rw [addConfig_eq cfg s aData aCount h1 h2 s.sFirstUsablePage s.sFirstUsableByteIndex
        (by rw [if_neg hNot]) (by rw [if_neg hNot]), if_pos hRoom]
      by_cases hFull : s.sFirstUsablePage ≥ cfg.cCopySizeInPages
      · rw [if_neg (by omega), if_pos hFull]; rfl
      · rw [if_pos (by omega), if_neg hFull]; simp
    · have hYes : (cfg.cPageSizeInBytes + 4294967296 - s.sFirstUsableByteIndex) % 4294967296
          % 65536 < aCount := by omega
      have hWrap : (s.sFirstUsablePage + 1) % 4294967296 = s.sFirstUsablePage + 1 := by omega
      rw [addConfig_eq cfg s aData aCount h1 h2 (s.sFirstUsablePage + 1) cOffsetPageItems
        (by rw [if_pos hYes, hWrap]) (by rw [if_pos hYes]), if_neg hRoom]
      by_cases hFull : s.sFirstUsablePage + 1 ≥ cfg.cCopySizeInPages
      · rw [if_neg (by omega), if_pos hFull]; rfl
      · rw [if_pos (by omega), if_neg hFull]; simp

/-! ## The checksum -/

theorem primeMask_eq_mod (p : Nat) : p &&& cChecksumPrimeMask = p % 16 := by
  have h := Nat.and_pow_two_sub_one_eq_mod p 4
  norm_num at h
  exact h

/-- A loop of `calculateChecksum` over the offsets `s, s + 1, ..., s + n - 1`, entered with
the sum `a` and the table index `p`, as a sum. -/
theorem checksum_foldl_range' (d : Mem) :
    ∀ (n s a p : Nat), a < 65536 → p < 16 →
      (List.range' s n).foldl (checksumStep d) (a, p) =
        ((a + ((List.range' s n).map fun k =>
            (d k ^^^ cChecksumXorValue) * cChecksumPrimeTable.getD ((p + (k - s)) % 16) 0).sum)
          % 65536, (p + n) % 16) := by
  intro n
  induction n with
  | zero =>
    intro s a p ha hp
    simp [Nat.mod_eq_of_lt ha, Nat.mod_eq_of_lt hp]
  | succ n ih =>
    intro s a p ha hp
    have hStep : checksumStep d (a, p) s =
        ((a + (d s ^^^ cChecksumXorValue) * cChecksumPrimeTable.getD p 0) % 65536,
          (p + 1) % 16) := by
      simp [checksumStep, primeMask_eq_mod]
    rw [List.range'_succ, List.foldl_cons, hStep,
      ih (s + 1) _ _ (Nat.mod_lt _ (by norm_num)) (Nat.mod_lt _ (by norm_num))]
    have hMap : ((List.range' (s + 1) n).map fun k =>
          (d k ^^^ cChecksumXorValue) * cChecksumPrimeTable.getD (((p + 1) % 16 + (k - (s + 1))) % 16) 0)
        = ((List.range' (s + 1) n).map fun k =>
          (d k ^^^ cChecksumXorValue) * cChecksumPrimeTable.getD ((p + (k - s)) % 16) 0) := by
      apply List.map_congr_left
      intro k hk
      have hk' : s + 1 ≤ k := (List.mem_range'_1.1 hk).1
      have : ((p + 1) % 16 + (k - (s + 1))) % 16 = (p + (k - s)) % 16 := by omega
      rw [this]
    rw [hMap, List.map_cons, List.sum_cons]
    simp only [Nat.sub_self, Nat.add_zero, Nat.mod_eq_of_lt hp]
    refine Prod.ext ?_ ?_
    · show (_ % 65536 + _) % 65536 = _
      omega
    · show ((p + 1) % 16 + n) % 16 = (p + (n + 1)) % 16
      omega

/-- The two loops of `calculateChecksum` as one weighted sum. -/
theorem calculateChecksum_sum (aPageSize : Nat) (aData : Mem) :
    calculateChecksum aPageSize aData = checksumWeighted runningTableIndex aPageSize aData := by
  unfold calculateChecksum checksumWeighted
  rw [List.range_eq_range', checksum_foldl_range' aData _ 0 0 0 (by norm_num) (by norm_num)]
  rw [checksum_foldl_range' aData _ _ _ _ (Nat.mod_lt _ (by norm_num)) (Nat.mod_lt _ (by norm_num))]
  have h1 : ((List.range' 0 cOffsetPageChecksum).map fun k =>
        (aData k ^^^ cChecksumXorValue) * cChecksumPrimeTable.getD ((0 + (k - 0)) % 16) 0)
      = ((List.range' 0 cOffsetPageChecksum).map fun k =>
        (aData k ^^^ cChecksumXorValue) * cChecksumPrimeTable.getD (runningTableIndex k) 0) := by
    apply List.map_congr_left
    intro k hk
    have hk' : k < cOffsetPageChecksum := by
      have := (List.mem_range'_1.1 hk).2
      omega
    simp [runningTableIndex, hk']
  have h2 : ((List.range' (cOffsetPageChecksum + 2) (aPageSize - (cOffsetPageChecksum + 2))).map
        fun k => (aData k ^^^ cChecksumXorValue) *
          cChecksumPrimeTable.getD (((0 + cOffsetPageChecksum) % 16
            + (k - (cOffsetPageChecksum + 2))) % 16) 0)
      = ((List.range' (cOffsetPageChecksum + 2) (aPageSize - (cOffsetPageChecksum + 2))).map
        fun k => (aData k ^^^ cChecksumXorValue) *
          cChecksumPrimeTable.getD (runningTableIndex k) 0) := by
    apply List.map_congr_left
    intro k hk
    have hk' : cOffsetPageChecksum + 2 ≤ k := (List.mem_range'_1.1 hk).1
    have h3 : cOffsetPageChecksum = 3 := rfl
    have hNot : ¬ k < cOffsetPageChecksum := by omega
    have : ((0 + cOffsetPageChecksum) % 16 + (k - (cOffsetPageChecksum + 2))) % 16
        = (k - 2) % 16 := by
      rw [h3] at hk' ⊢
      omega
    simp only [runningTableIndex, hNot, if_false, this]
  rw [h1, h2]
  show (_ % 65536 + _) % 65536 = _
  omega

/-- C17 (amended): for every page size and every page buffer, `calculateChecksum` is the sum,
modulo `2 ^ 16`, over the offsets `k` in `[0, 3)` and `[5, P)` of
`(buf[k] XOR 0x5A) * T[i]`, where the table index `i` is `k mod 16` before the checksum slot
and `(k - 2) mod 16` after it: the index counts the bytes summed and is not advanced over
the slot. -/
theorem checksum_uses_running_index (aPageSize : Nat) (aData : Mem) :
    calculateChecksum aPageSize aData = checksumWeighted runningTableIndex aPageSize aData :=
  calculateChecksum_sum aPageSize aData

theorem primeTable_odd : ∀ i, i < 16 → cChecksumPrimeTable.getD i 0 % 2 = 1 := by
  decide

theorem runningTableIndex_lt (k : Nat) : runningTableIndex k < 16 :=
  Nat.mod_lt _ (by norm_num)

/-- Multiplication by an entry of the table is injective on bytes modulo `2 ^ 16`. -/
theorem primeTable_cancel (i x y : Nat) (hi : i < 16) (hx : x < 256) (hy : y < 256)
    (h : (x ^^^ cChecksumXorValue) * cChecksumPrimeTable.getD i 0 % 65536
      = (y ^^^ cChecksumXorValue) * cChecksumPrimeTable.getD i 0 % 65536) : x = y := by
  have hOdd : Odd (cChecksumPrimeTable.getD i 0) := Nat.odd_iff.2 (primeTable_odd i hi)
  have hCop : Nat.gcd 65536 (cChecksumPrimeTable.getD i 0) = 1 :=
    (Nat.coprime_two_left.2 hOdd).pow_left 16
  have hMod : (x ^^^ cChecksumXorValue) ≡ (y ^^^ cChecksumXorValue) [MOD 65536] :=
    Nat.ModEq.cancel_right_of_coprime hCop h
  have hx' : x ^^^ cChecksumXorValue < 2 ^ 8 :=
    Nat.xor_lt_two_pow (by simpa using hx) (by norm_num [cChecksumXorValue])
  have hy' : y ^^^ cChecksumXorValue < 2 ^ 8 :=
    Nat.xor_lt_two_pow (by simpa using hy) (by norm_num [cChecksumXorValue])
  have hEq : x ^^^ cChecksumXorValue = y ^^^ cChecksumXorValue := by
    unfold Nat.ModEq at hMod
    rw [Nat.mod_eq_of_lt (by omega), Nat.mod_eq_of_lt (by omega)] at hMod
    exact hMod
  exact Nat.xor_left_injective hEq

/-- A sum over a list that does not contain `k` does not see a change of the term `k`. -/
theorem sum_map_of_not_mem (g g' : Nat → Nat) (k : Nat) (hg : ∀ j, j ≠ k → g' j = g j) :
    ∀ l : List Nat, k ∉ l → (l.map g').sum = (l.map g).sum := by
  intro l hl
  congr 1
  apply List.map_congr_left
  intro j hj
  exact hg j (fun h => hl (h ▸ hj))

/-- A sum over a list without repetition that contains `k` sees a change of the term `k`
as the exchange of that term. -/
theorem sum_map_of_mem (g g' : Nat → Nat) (k : Nat) (hg : ∀ j, j ≠ k → g' j = g j) :
    ∀ l : List Nat, l.Nodup → k ∈ l → (l.map g').sum + g k = (l.map g).sum + g' k := by
  intro l
  induction l with
  | nil => intro _ h; simp at h
  | cons a l ih =>
    intro hNodup hMem
    rw [List.nodup_cons] at hNodup
    simp only [List.map_cons, List.sum_cons]
    by_cases ha : a = k
    · subst ha
      rw [sum_map_of_not_mem g g' a hg l hNodup.1]
      omega
    · have hIn : k ∈ l := by
        rcases List.mem_cons.1 hMem with h | h
        · exact absurd h.symm ha
        · exact h
      have := ih hNodup.2 hIn
      rw [hg a ha]
      omega

/-- A change of one byte outside the checksum slot changes the checksum. -/
theorem calculateChecksum_upd_ne (aPageSize : Nat) (p : Mem) (k v : Nat)
    (hk : k < aPageSize) (h3 : k ≠ cOffsetPageChecksum) (h4 : k ≠ cOffsetPageChecksum + 1)
    (hv : v ≠ p k) (hvByte : v < 256) (hpByte : p k < 256) :
    calculateChecksum aPageSize (upd p k v) ≠ calculateChecksum aPageSize p := by
  rw [calculateChecksum_sum, calculateChecksum_sum]
  unfold checksumWeighted
  have hOff : cOffsetPageChecksum = 3 := rfl
  have hg : ∀ j, j ≠ k →
      (upd p k v j ^^^ cChecksumXorValue) * cChecksumPrimeTable.getD (runningTableIndex j) 0
        = (p j ^^^ cChecksumXorValue) * cChecksumPrimeTable.getD (runningTableIndex j) 0 := by
    intro j hj
    simp [upd, hj]
  have hTerm : (upd p k v k ^^^ cChecksumXorValue)
        * cChecksumPrimeTable.getD (runningTableIndex k) 0 % 65536
      ≠ (p k ^^^ cChecksumXorValue)
        * cChecksumPrimeTable.getD (runningTableIndex k) 0 % 65536 := by
    intro h
    have hSame : upd p k v k = v := by simp [upd]
    rw [hSame] at h
    exact hv (primeTable_cancel _ v (p k) (runningTableIndex_lt k) hvByte hpByte h)
  intro hEq
  apply hTerm
  by_cases hLow : k < cOffsetPageChecksum
  · have h1 := sum_map_of_mem
      (fun j => (p j ^^^ cChecksumXorValue) * cChecksumPrimeTable.getD (runningTableIndex j) 0)
      (fun j => (upd p k v j ^^^ cChecksumXorValue)
        * cChecksumPrimeTable.getD (runningTableIndex j) 0) k hg
      (List.range cOffsetPageChecksum) (List.nodup_range _) (List.mem_range.2 hLow)
    have h2 := sum_map_of_not_mem
      (fun j => (p j ^^^ cChecksumXorValue) * cChecksumPrimeTable.getD (runningTableIndex j) 0)
      (fun j => (upd p k v j ^^^ cChecksumXorValue)
        * cChecksumPrimeTable.getD (runningTableIndex j) 0) k hg
      (List.range' (cOffsetPageChecksum + 2) (aPageSize - (cOffsetPageChecksum + 2)))
      (by
        intro h
        have := (List.mem_range'_1.1 h).1
        omega)
    simp only [] at h1 h2
    rw [h2] at hEq
    omega
  · have h1 := sum_map_of_not_mem
      (fun j => (p j ^^^ cChecksumXorValue) * cChecksumPrimeTable.getD (runningTableIndex j) 0)
      (fun j => (upd p k v j ^^^ cChecksumXorValue)
        * cChecksumPrimeTable.getD (runningTableIndex j) 0) k hg
      (List.range cOffsetPageChecksum) (by
        intro h
        exact hLow (List.mem_range.1 h))
    have h2 := sum_map_of_mem
      (fun j => (p j ^^^ cChecksumXorValue) * cChecksumPrimeTable.getD (runningTableIndex j) 0)
      (fun j => (upd p k v j ^^^ cChecksumXorValue)
        * cChecksumPrimeTable.getD (runningTableIndex j) 0) k hg
      (List.range' (cOffsetPageChecksum + 2) (aPageSize - (cOffsetPageChecksum + 2)))
      (List.nodup_range' _ _) (by
        rw [List.mem_range'_1]
        omega)
    simp only [] at h1 h2
    rw [h1] at hEq
    omega

/-- C18: single-byte corruption is always detected by the checksum.  For every page size,
every page buffer `p`, every offset `k` of the page other than the two of the checksum slot
and every byte value `v` different from the byte `p k`, the checksum of `p` with byte `k`
replaced by `v` differs from the checksum of `p`. -/
theorem checksum_detects_single_byte (aPageSize : Nat) (p : Mem) (k v : Nat)
    (hk : k < aPageSize) (h3 : k ≠ cOffsetPageChecksum) (h4 : k ≠ cOffsetPageChecksum + 1)
    (hv : v ≠ p k) (hvByte : v < 256) (hpByte : p k < 256) :
    calculateChecksum aPageSize (upd p k v) ≠ calculateChecksum aPageSize p :=
  calculateChecksum_upd_ne aPageSize p k v hk h3 h4 hv hvByte hpByte

/-! ## Relations kept by `readAll` -/

/-- A relation between states that holds across every step of `readAll` holds across
`readAll`. -/
theorem readAll_rel (cfg : Params) (R : State → State → Prop)
    (hRefl : ∀ s, R s s) (hTrans : ∀ a b c, R a b → R b c → R a c)
    (hPage : ∀ aTask s aPage idx, R s (processPage cfg s aPage idx aTask).2)
    (hRead : ∀ s a n, R s (readPages cfg s a n).2)
    (hCursor : ∀ (s : State) p b,
      R s { s with sFirstUsablePage := p, sFirstUsableByteIndex := b })
    (hClear : ∀ s, R s (clear cfg s))
    (hFatal : ∀ s e, R s (fatalError s e)) (s : State) :
    R s (readAll cfg s) := by
  have hCopy : ∀ aTask s off, R s (readAcopy cfg s off aTask).2 := fun aTask s off =>
    readAcopy_rel cfg aTask R hRefl hTrans (hPage aTask) hRead hCursor s off
  have h1 : R s (readAcopy cfg (clear cfg s) 0 Task.cCopy).2 :=
    hTrans _ _ _ (hClear s) (hCopy _ _ _)
  have h2a : R s (readAcopy cfg (clear cfg (readAcopy cfg (clear cfg s) 0 Task.cCopy).2)
      cfg.cCopySizeInPages Task.cCopy).2 :=
    hTrans _ _ _ h1 (hTrans _ _ _ (hClear _) (hCopy _ _ _))
  have h2b : R s (readAcopy cfg (readAcopy cfg (clear cfg s) 0 Task.cCopy).2
      cfg.cCopySizeInPages Task.cCheck).2 :=
    hTrans _ _ _ h1 (hCopy _ _ _)
  unfold readAll
  lift_lets
  intro r1 result1 fup1 fubi1 r2 result2
  have k1 : R s r1.2 := h1
  have k2 : R s r2.2 := by
    show R s (if result1 ≠ ReadResult.cOk then _ else _ : ReadResult × State).2
    split_ifs
    · exact h2a
    · exact h2b
  split_ifs
  · exact hTrans _ _ _ k2 (hTrans _ _ _ (hCursor _ _ _) (hTrans _ _ _ (hClear _) (hFatal _ _)))
  · exact hTrans _ _ _ k2 (hTrans _ _ _ (hCursor _ _ _) (hFatal _ _))
  · exact hTrans _ _ _ k2 (hFatal _ _)
  · exact hTrans _ _ _ k2 (hTrans _ _ _ (hCursor _ _ _) (hTrans _ _ _ (hClear _) (hFatal _ _)))
  · exact k2
  · exact hTrans _ _ _ k1 (hTrans _ _ _ (hCursor _ _ _) (hTrans _ _ _ (hClear _) (hFatal _ _)))
  · exact k1

/-! ## The geometry of the cache entries -/

theorem upd_upd {α : Type} (f : Nat → α) (i : Nat) (v w : α) :
    upd (upd f i v) i w = upd f i w := by
  funext k
  by_cases h : k = i <;> simp [upd, h]

theorem geomKeeps_refl (s : State) : GeomKeeps s s := fun _ _ => ⟨rfl, rfl, rfl, rfl⟩

theorem geomKeeps_trans (a b c : State) (h1 : GeomKeeps a b) (h2 : GeomKeeps b c) :
    GeomKeeps a c := by
  intro id hId
  obtain ⟨x1, x2, x3, x4⟩ := h1 id hId
  obtain ⟨y1, y2, y3, y4⟩ := h2 id (by rw [x4]; exact hId)
  exact ⟨y1.trans x1, y2.trans x2, y3.trans x3, y4.trans x4⟩

theorem geomKeeps_of_cache (s s' : State) (h : s'.sCache = s.sCache) : GeomKeeps s s' := by
  intro id _
  rw [h]
  exact ⟨rfl, rfl, rfl, rfl⟩

/-- The method `init` does nothing to an entry that is initialised. -/
theorem init_of_initialised (tValueBufferSize : Nat) (item : ConfigItem)
    (aStartPage aOffset aCount : Nat) (h : item.mStatus ≠ Status.cVoid) :
    item.init tValueBufferSize aStartPage aOffset aCount = item := by
  simp [ConfigItem.init, h]

/-- The step of the cache that `addConfig` and `processPage` make: `init`, then `setData`,
of one entry. -/
theorem geomKeeps_init_setData (s s' : State) (id vbs a b c : Nat) (d : Mem)
    (h : s'.sCache = upd s.sCache id (((s.sCache id).init vbs a b c).setData d)) :
    GeomKeeps s s' := by
  intro j hj
  rw [h]
  by_cases hji : j = id
  · subst hji
    rw [upd_same, init_of_initialised _ _ _ _ _ hj]
    exact ⟨rfl, rfl, rfl, rfl⟩
  · rw [upd_other _ _ _ _ hji]
    exact ⟨rfl, rfl, rfl, rfl⟩

theorem geomKeeps_setData (s s' : State) (id : Nat) (d : Mem)
    (h : s'.sCache = upd s.sCache id ((s.sCache id).setData d)) :
    GeomKeeps s s' := by
  intro j hj
  rw [h]
  by_cases hji : j = id
  · subst hji
    rw [upd_same]
    exact ⟨rfl, rfl, rfl, rfl⟩
  · rw [upd_other _ _ _ _ hji]
    exact ⟨rfl, rfl, rfl, rfl⟩

theorem processItems_geomKeeps (cfg : Params) (aPage : Mem) (idx : Nat) (aTask : Task) :
    ∀ (n nis : Nat) (result : ReadResult) (s : State),
      GeomKeeps s (processItems cfg aPage idx aTask n nis result s).2 := by
  intro n
  induction n with
  | zero => intro nis result s; exact geomKeeps_refl s
  | succ n ih =>
    intro nis result s
    simp only [processItems]
    split
    · exact geomKeeps_refl s
    · refine geomKeeps_trans _ _ _ ?_ (ih _ _ _)
      by_cases hTask : aTask = Task.cCopy
      · by_cases hId : getValue (ptrAdd aPage (nis + cOffsetItemId)) = s.sNextId
        · apply geomKeeps_init_setData s _ (getValue (ptrAdd aPage (nis + cOffsetItemId)))
            cfg.tValueBufferSize idx ((nis + cOffsetItemData) % 65536)
            (getValue (ptrAdd aPage (nis + cOffsetItemCount)))
            (ptrAdd aPage ((nis + cOffsetItemData) % 65536))
          simp [hTask, hId, upd_upd, upd_same]
        · apply geomKeeps_setData s _ (getValue (ptrAdd aPage (nis + cOffsetItemId)))
            (ptrAdd aPage ((nis + cOffsetItemData) % 65536))
          simp [hTask, hId]
      · apply geomKeeps_of_cache
        simp [hTask]

theorem processPage_geomKeeps (cfg : Params) (aTask : Task) (s : State) (aPage : Mem)
    (idx : Nat) : GeomKeeps s (processPage cfg s aPage idx aTask).2 := by
  simp only [processPage]
  split_ifs <;>
    first
    | exact geomKeeps_refl s
    | (refine geomKeeps_trans s _ _ ?_ (processItems_geomKeeps cfg aPage idx aTask _ _ _ _)
       exact geomKeeps_of_cache _ _ rfl)

theorem readPages_cache (cfg : Params) (s : State) (a n : Nat) :
    (readPages cfg s a n).2.sCache = s.sCache := by
  simp only [readPages]
  split_ifs <;> rfl

theorem readAll_geomKeeps (cfg : Params) (s : State) : GeomKeeps s (readAll cfg s) :=
  readAll_rel cfg GeomKeeps geomKeeps_refl geomKeeps_trans
    (fun aTask s aPage idx => processPage_geomKeeps cfg aTask s aPage idx)
    (fun s a n => geomKeeps_of_cache _ _ (readPages_cache cfg s a n))
    (fun _ _ _ => geomKeeps_of_cache _ _ rfl)
    (fun _ => geomKeeps_of_cache _ _ rfl)
    (fun _ _ => geomKeeps_of_cache _ _ rfl) s

theorem addConfig_geomKeeps (cfg : Params) (s : State) (aData : Mem) (aCount : Nat) :
    GeomKeeps s (addConfig cfg s aData aCount).2 := by
  simp only [addConfig]
  split_ifs
  · exact geomKeeps_of_cache _ _ rfl
  · exact geomKeeps_of_cache _ _ rfl
  · exact geomKeeps_init_setData s _ s.sNextId cfg.tValueBufferSize _ _ aCount aData rfl
  · exact geomKeeps_of_cache _ _ rfl
  · exact geomKeeps_init_setData s _ s.sNextId cfg.tValueBufferSize _ _ aCount aData rfl
  · exact geomKeeps_of_cache _ _ rfl

theorem setConfig_geomKeeps (s : State) (aId : Nat) (aData : Mem) :
    GeomKeeps s (setConfig s aId aData) := by
  simp only [setConfig]
  split_ifs
  · exact geomKeeps_of_cache _ _ rfl
  · exact geomKeeps_setData s _ aId aData rfl
  · exact geomKeeps_refl s

theorem runCall_geomKeeps (cfg : Params) (s : State) (c : Call) :
    GeomKeeps s (runCall cfg s c) := by
  cases c with
  | addConfig aData aCount => exact addConfig_geomKeeps cfg s aData aCount
  | setConfig aId aData => exact setConfig_geomKeeps s aId aData
  | getConfig aId =>
    apply geomKeeps_of_cache
    simp only [runCall, getConfig]
    split_ifs <;> rfl
  | makeAllDirty => exact geomKeeps_of_cache _ _ rfl
  | commit => exact geomKeeps_of_cache _ _ (commit_keeps cfg s).2.1
  | clear => exact geomKeeps_of_cache _ _ rfl
  | readAllDebugTodoRemove => exact readAll_geomKeeps cfg s

theorem runCalls_geomKeeps (cfg : Params) :
    ∀ (calls : List Call) (s : State), GeomKeeps s (runCalls cfg s calls) := by
  intro calls
  induction calls with
  | nil => intro s; exact geomKeeps_refl s
  | cons c cs ih =>
    intro s
    exact geomKeeps_trans _ _ _ (runCall_geomKeeps cfg s c) (ih _)

/-- C20: item geometry is immutable.  Once a cache entry is initialised (its status is not
`cVoid`), no sequence of calls of `addConfig`, `setConfig`, `getConfig`, `makeAllDirty`,
`commit`, `clear` and `readAll` changes its count, its page index, its data offset or its
status; `ConfigItem::init` returns an initialised entry as it is; and `setConfig` leaves
every field other than the bytes of every entry, and the bytes of every other entry, as
they are. -/
theorem item_geometry_immutable (cfg : Params) (s : State) :
    (∀ (calls : List Call) (id : Nat), (s.sCache id).mStatus ≠ Status.cVoid →
      ((runCalls cfg s calls).sCache id).getCount = (s.sCache id).getCount ∧
      ((runCalls cfg s calls).sCache id).getPageIndex = (s.sCache id).getPageIndex ∧
      ((runCalls cfg s calls).sCache id).getDataOffsetInFirstPage
        = (s.sCache id).getDataOffsetInFirstPage ∧
      ((runCalls cfg s calls).sCache id).mStatus = (s.sCache id).mStatus) ∧
    (∀ (item : ConfigItem) (aStartPage aOffset aCount : Nat),
      item.mStatus ≠ Status.cVoid →
      item.init cfg.tValueBufferSize aStartPage aOffset aCount = item) ∧
    (∀ (aId : Nat) (aData : Mem) (id : Nat),
      (setConfig s aId aData).sCache id
          = { s.sCache id with mData := ((setConfig s aId aData).sCache id).mData } ∧
      (id ≠ aId → (setConfig s aId aData).sCache id = s.sCache id)) := by
  refine ⟨fun calls id hId => runCalls_geomKeeps cfg calls s id hId,
    fun item a b c h => init_of_initialised _ item a b c h, ?_⟩
  intro aId aData id
  simp only [setConfig]
  split_ifs
  · exact ⟨rfl, fun _ => rfl⟩
  · by_cases h : id = aId
    · subst h
      refine ⟨?_, fun h => absurd rfl h⟩
      simp [upd_same, ConfigItem.setData]
    · simp [upd_other _ _ _ _ h]
  · exact ⟨rfl, fun _ => rfl⟩

/-! ## Serialized pages -/

/-- Reading back what `setValue` wrote gives the value as a `uint16_t`. -/
theorem getValue_setValue (aMem : Mem) (aWhere aValue : Nat) :
    getValue (ptrAdd (setValue aMem aWhere aValue) aWhere) = aValue % 65536 := by
  have h0 : ptrAdd (setValue aMem aWhere aValue) aWhere 0 = aValue % 256 := by
    simp [ptrAdd, setValue, upd]
  have h1 : ptrAdd (setValue aMem aWhere aValue) aWhere 1 = (aValue >>> 8) % 256 := by
    simp [ptrAdd, setValue, upd]
  unfold getValue
  rw [h0, h1, Nat.shiftRight_eq_div_pow, Nat.shiftLeft_eq, Nat.lor_comm, Nat.mul_comm,
    ← Nat.mul_add_lt_is_or (by
      have : aValue % 256 < 256 := Nat.mod_lt _ (by norm_num)
      simpa using this)]
  norm_num
  omega

theorem setValue_other (aMem : Mem) (aWhere aValue k : Nat) (h0 : k ≠ aWhere)
    (h1 : k ≠ aWhere + 1) : setValue aMem aWhere aValue k = aMem k := by
  simp [setValue, upd, h0, h1]

theorem calculateChecksum_lt (aPageSize : Nat) (aData : Mem) :
    calculateChecksum aPageSize aData < 65536 := by
  rw [calculateChecksum_sum]
  exact Nat.mod_lt _ (by norm_num)

/-- The checksum does not depend on the two bytes of the checksum slot. -/
theorem calculateChecksum_congr (aPageSize : Nat) (d d' : Mem)
    (h : ∀ k, k ≠ cOffsetPageChecksum → k ≠ cOffsetPageChecksum + 1 → d' k = d k) :
    calculateChecksum aPageSize d' = calculateChecksum aPageSize d := by
  rw [calculateChecksum_sum, calculateChecksum_sum]
  unfold checksumWeighted
  have hOff : cOffsetPageChecksum = 3 := rfl
  have h1 : ((List.range cOffsetPageChecksum).map fun k =>
        (d' k ^^^ cChecksumXorValue) * cChecksumPrimeTable.getD (runningTableIndex k) 0)
      = ((List.range cOffsetPageChecksum).map fun k =>
        (d k ^^^ cChecksumXorValue) * cChecksumPrimeTable.getD (runningTableIndex k) 0) := by
    apply List.map_congr_left
    intro k hk
    have := List.mem_range.1 hk
    rw [h k (by omega) (by omega)]
  have h2 : ((List.range' (cOffsetPageChecksum + 2) (aPageSize - (cOffsetPageChecksum + 2))).map
        fun k => (d' k ^^^ cChecksumXorValue)
          * cChecksumPrimeTable.getD (runningTableIndex k) 0)
      = ((List.range' (cOffsetPageChecksum + 2) (aPageSize - (cOffsetPageChecksum + 2))).map
        fun k => (d k ^^^ cChecksumXorValue)
          * cChecksumPrimeTable.getD (runningTableIndex k) 0) := by
    apply List.map_congr_left
    intro k hk
    have := (List.mem_range'_1.1 hk).1
    rw [h k (by omega) (by omega)]
  rw [h1, h2]

theorem processItems_not_checksum (cfg : Params) (aPage : Mem) (idx : Nat) (aTask : Task) :
    ∀ (n nis : Nat) (result : ReadResult) (s : State), result ≠ ReadResult.cErrorChecksum →
      (processItems cfg aPage idx aTask n nis result s).1 ≠ ReadResult.cErrorChecksum := by
  intro n
  induction n with
  | zero => intro nis result s h; exact h
  | succ n ih =>
    intro nis result s h
    simp only [processItems]
    split
    · simp
    · apply ih
      split_ifs <;> simp [h]

/-- The result `cErrorChecksum` of `processPage` is that of a configuration page whose
checksum slot does not hold its checksum. -/
theorem processPage_checksum (cfg : Params) (s : State) (aPage : Mem) (idx : Nat)
    (aTask : Task)
    (h : calculateChecksum cfg.cPageSizeInBytes aPage = getValue (ptrAdd aPage cOffsetPageChecksum)) :
    (processPage cfg s aPage idx aTask).1 ≠ ReadResult.cErrorChecksum := by
  simp only [processPage]
  by_cases hE : aPage cOffsetPageMagic = cMagicErased
  · rw [if_pos hE]
    split_ifs <;> simp
  · rw [if_neg hE]
    by_cases hC : aPage cOffsetPageMagic = cMagicConfig
    · rw [if_pos hC, if_neg (not_not.2 h)]
      by_cases hI : getValue (ptrAdd aPage cOffsetPageCount) = 0 ∨
          getValue (ptrAdd aPage cOffsetPageCount) = cUnusedValue
      · rw [if_pos hI]
        simp
      · rw [if_neg hI]
        exact processItems_not_checksum _ _ _ _ _ _ _ _ (by simp)
    · rw [if_neg hC]
      simp

/-- The loop of `serialize` writes at or after the read position `newItemStart`, so below
the items of the page it writes nothing. -/
theorem serializeItems_below (cfg : Params) (hValid : cfg.valid) (s : State) (page : Nat)
    (hFit : ∀ id, id < s.sNextId → (s.sCache id).getCount ≤ cfg.cMaxItemDataSize) :
    ∀ (n id count nis : Nat) (buffer : Mem) (a : Nat), cOffsetPageItems ≤ nis →
      a < page + cOffsetPageItems →
      (serializeItems cfg s page n id count nis buffer).2 a = buffer a := by
  have hP1 : 256 ≤ cfg.cPageSizeInBytes := hValid.2.2.2.2.2.2.2.2.1
  have hP2 : cfg.cPageSizeInBytes ≤ 32768 := hValid.2.2.2.2.2.2.2.2.2.1
  have hMax := cMaxItemDataSize_eq cfg hP1 (by omega)
  intro n
  induction n with
  | zero => intro id count nis buffer a _ _; rfl
  | succ n ih =>
    intro id count nis buffer a hNis ha
    simp only [serializeItems]
    split_ifs with hc
    · have hCount := hFit id hc.1
      have hLt := hc.2
      rw [hMax] at hCount
      simp only [cOffsetItemData_eq, cOffsetPageItems_eq, int16ToUint32] at hLt hNis ha
      have hSmall : nis < 32768 := by
        by_contra hBig
        rw [if_neg hBig] at hLt
        omega
      rw [if_pos hSmall] at hLt
      have hOff : int16Offset page nis = page + nis := by simp [int16Offset, hSmall]
      have hOff1 : int16Offset page ((nis + cOffsetItemData) % 65536) = page + nis + 4 := by
        simp only [int16Offset, cOffsetItemData_eq]
        rw [if_pos (by omega)]
        omega
      rw [ih _ _ _ _ _ (by simp only [cOffsetItemData_eq, cOffsetPageItems_eq]; omega)
        (by simp only [cOffsetPageItems_eq]; omega), hOff, hOff1]
      simp only [copyN, cOffsetItemId, cOffsetItemCount]
      rw [if_neg (by omega), setValue_other _ _ _ _ (by omega) (by omega),
        setValue_other _ _ _ _ (by omega) (by omega)]
    · rfl

/-- The page `serialize` leaves in the read-ahead buffer holds its own checksum. -/
theorem serialize_checksum (cfg : Params) (s : State) (a b : Nat) :
    getValue (ptrAdd (bufferPage cfg (serialize cfg s a b) b) cOffsetPageChecksum)
      = calculateChecksum cfg.cPageSizeInBytes (bufferPage cfg (serialize cfg s a b) b) := by
  simp only [serialize, bufferPage]
  generalize hB : setValue _ (b * cfg.cPageSizeInBytes + cOffsetPageCount) _ = buffer1
  have hPtr : ∀ m : Mem, ptrAdd (ptrAdd m (b * cfg.cPageSizeInBytes)) cOffsetPageChecksum
      = ptrAdd m (b * cfg.cPageSizeInBytes + cOffsetPageChecksum) := by
    intro m
    funext k
    simp [ptrAdd, Nat.add_assoc]
  rw [hPtr, getValue_setValue, Nat.mod_eq_of_lt (calculateChecksum_lt _ _)]
  symm
  apply calculateChecksum_congr
  intro k h3 h4
  simp only [ptrAdd]
  rw [setValue_other _ _ _ _ (by omega) (by omega)]

/-- The page `serialize` leaves in the read-ahead buffer starts with the magic of a
configuration page, when the items to write are no longer than `cMaxItemDataSize`. -/
theorem serialize_magic (cfg : Params) (hValid : cfg.valid) (s : State) (a b : Nat)
    (hFit : ∀ id, id < s.sNextId → (s.sCache id).getCount ≤ cfg.cMaxItemDataSize) :
    bufferPage cfg (serialize cfg s a b) b cOffsetPageMagic = cMagicConfig := by
  simp only [serialize, bufferPage, ptrAdd]
  have h3 : cOffsetPageChecksum = 3 := rfl
  have h1 : cOffsetPageCount = 1 := rfl
  have h0 : cOffsetPageMagic = 0 := rfl
  rw [setValue_other _ _ _ _ (by omega) (by omega),
    setValue_other _ _ _ _ (by omega) (by omega),
    serializeItems_below cfg hValid s _ hFit _ _ _ _ _ _ (le_refl _)
      (by rw [cOffsetPageItems_eq]; omega)]
  simp [upd]

/-! ## The counts of the cache entries -/

theorem countsFit_of_cache (cfg : Params) (s s' : State) (h : s'.sCache = s.sCache)
    (hs : CountsFit cfg s) : CountsFit cfg s' := by
  intro id
  rw [h]
  exact hs id

theorem countsFit_init_setData (cfg : Params) (s s' : State) (id vbs a b c : Nat) (d : Mem)
    (hc : c ≤ cfg.cMaxItemDataSize)
    (h : s'.sCache = upd s.sCache id (((s.sCache id).init vbs a b c).setData d))
    (hs : CountsFit cfg s) : CountsFit cfg s' := by
  intro j
  rw [h]
  by_cases hji : j = id
  · subst hji
    rw [upd_same]
    by_cases hv : (s.sCache j).mStatus = Status.cVoid
    · simp [ConfigItem.setData, ConfigItem.init, ConfigItem.getCount, hv, hc]
    · rw [init_of_initialised _ _ _ _ _ hv]
      exact hs j
  · rw [upd_other _ _ _ _ hji]
    exact hs j

theorem countsFit_setData (cfg : Params) (s s' : State) (id : Nat) (d : Mem)
    (h : s'.sCache = upd s.sCache id ((s.sCache id).setData d))
    (hs : CountsFit cfg s) : CountsFit cfg s' := by
  intro j
  rw [h]
  by_cases hji : j = id
  · subst hji
    rw [upd_same]
    exact hs j
  · rw [upd_other _ _ _ _ hji]
    exact hs j

theorem processItems_countsFit (cfg : Params) (hValid : cfg.valid) (aPage : Mem) (idx : Nat)
    (aTask : Task) :
    ∀ (n nis : Nat) (result : ReadResult) (s : State), cOffsetPageItems ≤ nis →
      nis ≤ cfg.cPageSizeInBytes → CountsFit cfg s →
      CountsFit cfg (processItems cfg aPage idx aTask n nis result s).2 := by
  have hP1 : 256 ≤ cfg.cPageSizeInBytes := hValid.2.2.2.2.2.2.2.2.1
  have hP2 : cfg.cPageSizeInBytes ≤ 32768 := hValid.2.2.2.2.2.2.2.2.2.1
  have hMax := cMaxItemDataSize_eq cfg hP1 hP2
  intro n
  induction n with
  | zero => intro nis result s _ _ hs; exact hs
  | succ n ih =>
    intro nis result s hLo hHi hs
    simp only [processItems]
    split
    · exact hs
    · rename_i hc
      simp only [cOffsetItemData_eq, cOffsetPageItems_eq] at hc hLo
      have hCount : getValue (ptrAdd aPage (nis + cOffsetItemCount)) ≤ cfg.cMaxItemDataSize := by
        omega
      apply ih _ _ _ (by simp only [cOffsetItemData_eq, cOffsetPageItems_eq]; omega)
        (by simp only [cOffsetItemData_eq]; omega)
      by_cases hTask : aTask = Task.cCopy
      · by_cases hId : getValue (ptrAdd aPage (nis + cOffsetItemId)) = s.sNextId
        · apply countsFit_init_setData cfg s _ (getValue (ptrAdd aPage (nis + cOffsetItemId)))
            cfg.tValueBufferSize idx ((nis + cOffsetItemData) % 65536)
            (getValue (ptrAdd aPage (nis + cOffsetItemCount)))
            (ptrAdd aPage ((nis + cOffsetItemData) % 65536)) hCount _ hs
          simp [hTask, hId, upd_upd, upd_same]
        · apply countsFit_setData cfg s _ (getValue (ptrAdd aPage (nis + cOffsetItemId)))
            (ptrAdd aPage ((nis + cOffsetItemData) % 65536)) _ hs
          simp [hTask, hId]
      · apply countsFit_of_cache cfg s _ _ hs
        simp [hTask]

theorem processPage_countsFit (cfg : Params) (hValid : cfg.valid) (aTask : Task) (s : State)
    (aPage : Mem) (idx : Nat) (hs : CountsFit cfg s) :
    CountsFit cfg (processPage cfg s aPage idx aTask).2 := by
  have hP1 : 256 ≤ cfg.cPageSizeInBytes := hValid.2.2.2.2.2.2.2.2.1
  simp only [processPage]
  split_ifs <;>
    first
    | exact hs
    | exact processItems_countsFit cfg hValid aPage idx aTask _ _ _ _ (le_refl _)
        (by rw [cOffsetPageItems_eq]; omega) (countsFit_of_cache cfg s _ rfl hs)

theorem readAll_countsFit (cfg : Params) (hValid : cfg.valid) (s : State)
    (hs : CountsFit cfg s) : CountsFit cfg (readAll cfg s) :=
  readAll_rel cfg (fun s s' => CountsFit cfg s → CountsFit cfg s') (fun _ h => h)
    (fun _ _ _ h1 h2 h => h2 (h1 h))
    (fun aTask s aPage idx h => processPage_countsFit cfg hValid aTask s aPage idx h)
    (fun s a n h => countsFit_of_cache cfg _ _ (readPages_cache cfg s a n) h)
    (fun _ _ _ h => countsFit_of_cache cfg _ _ rfl h)
    (fun _ h => countsFit_of_cache cfg _ _ rfl h)
    (fun _ _ h => countsFit_of_cache cfg _ _ rfl h) s hs

/-- After `init` no cache entry holds more than `cMaxItemDataSize` bytes. -/
theorem init_countsFit (cfg : Params) (hValid : cfg.valid) (s : State) (aStartPage : Nat) :
    CountsFit cfg (init cfg s aStartPage) := by
  apply readAll_countsFit cfg hValid
  intro id
  exact Nat.zero_le _

theorem addConfig_countsFit (cfg : Params) (s : State) (aData : Mem) (aCount : Nat)
    (hs : CountsFit cfg s) : CountsFit cfg (addConfig cfg s aData aCount).2 := by
  simp only [addConfig]
  split_ifs with h1
  · exact countsFit_of_cache cfg _ _ rfl hs
  · exact countsFit_of_cache cfg _ _ rfl hs
  · exact countsFit_init_setData cfg s _ s.sNextId cfg.tValueBufferSize _ _ aCount aData
      (by omega) rfl hs
  · exact countsFit_of_cache cfg _ _ rfl hs
  · exact countsFit_init_setData cfg s _ s.sNextId cfg.tValueBufferSize _ _ aCount aData
      (by omega) rfl hs
  · exact countsFit_of_cache cfg _ _ rfl hs

/-- No call makes a cache entry hold more than `cMaxItemDataSize` bytes. -/
theorem runCall_countsFit (cfg : Params) (hValid : cfg.valid) (s : State) (c : Call)
    (hs : CountsFit cfg s) : CountsFit cfg (runCall cfg s c) := by
  cases c with
  | addConfig aData aCount => exact addConfig_countsFit cfg s aData aCount hs
  | setConfig aId aData =>
    simp only [runCall, setConfig]
    split_ifs
    · exact countsFit_of_cache cfg _ _ rfl hs
    · exact countsFit_setData cfg s _ aId aData rfl hs
    · exact hs
  | getConfig aId =>
    apply countsFit_of_cache cfg s _ _ hs
    simp only [runCall, getConfig]
    split_ifs <;> rfl
  | makeAllDirty => exact countsFit_of_cache cfg _ _ rfl hs
  | commit => exact countsFit_of_cache cfg _ _ (commit_keeps cfg s).2.1 hs
  | clear => exact countsFit_of_cache cfg _ _ rfl hs
  | readAllDebugTodoRemove => exact readAll_countsFit cfg hValid s hs

theorem runCalls_countsFit (cfg : Params) (hValid : cfg.valid) :
    ∀ (calls : List Call) (s : State), CountsFit cfg s → CountsFit cfg (runCalls cfg s calls) := by
  intro calls
  induction calls with
  | nil => intro s hs; exact hs
  | cons c cs ih =>
    intro s hs
    exact ih _ (runCall_countsFit cfg hValid s c hs)

/-- C19: serialized pages validate.  `calculateChecksum` does not depend on bytes 3 and 4 of
the page; and for every state of the engine reached from `init` by calls of the public
functions (where no cache entry is longer than `cMaxItemDataSize`) and every content of
the read-ahead buffer, the page `serialize` leaves in the buffer has magic 0x00, its
little-endian 16-bit value at offset 3 is `calculateChecksum` of the finished page, and
`processPage` on that page, with any task and in any state, does not return
`cErrorChecksum`. -/
theorem serialized_page_validates (cfg : Params) (hValid : cfg.valid) (s0 : State)
    (aStartPage : Nat) (calls : List Call) (aBuffer : Mem)
    (aReadAheadStartPage aPageInReadAhead : Nat) :
    (∀ (d : Mem) (v w : Nat),
      calculateChecksum cfg.cPageSizeInBytes
          (upd (upd d cOffsetPageChecksum v) (cOffsetPageChecksum + 1) w)
        = calculateChecksum cfg.cPageSizeInBytes d) ∧
    (let s : State :=
      { runCalls cfg (init cfg s0 aStartPage) calls with sReadAheadBuffer := aBuffer }
     let page := bufferPage cfg (serialize cfg s aReadAheadStartPage aPageInReadAhead)
       aPageInReadAhead
     page cOffsetPageMagic = cMagicConfig ∧
     getValue (ptrAdd page cOffsetPageChecksum) = calculateChecksum cfg.cPageSizeInBytes page ∧
     ∀ (s' : State) (idx : Nat) (aTask : Task),
       (processPage cfg s' page idx aTask).1 ≠ ReadResult.cErrorChecksum) := by
  refine ⟨?_, ?_⟩
  · intro d v w
    apply calculateChecksum_congr
    intro k h3 h4
    simp [upd, h3, h4]
  · intro s page
    have hFit : CountsFit cfg s :=
      countsFit_of_cache cfg _ s rfl
        (runCalls_countsFit cfg hValid calls _ (init_countsFit cfg hValid s0 aStartPage))
    refine ⟨serialize_magic cfg hValid s _ _ (fun id _ => hFit id),
      serialize_checksum cfg s _ _, ?_⟩
    intro s' idx aTask
    exact processPage_checksum cfg s' page idx aTask (serialize_checksum cfg s _ _).symm

/-! ## Reading an erased copy -/

theorem processPage_erased (cfg : Params) (s : State) (aPage : Mem) (idx : Nat) (aTask : Task)
    (hMagic : aPage cOffsetPageMagic = cMagicErased) (hTask : aTask ≠ Task.cCheckFf) :
    processPage cfg s aPage idx aTask = (ReadResult.cErased, s) := by
  simp [processPage, hMagic, hTask]

/-- The inner loop of `readAcopy` stops at the first page whose result is not `cOk`. -/
theorem readAcopyPages_stop (cfg : Params) (aTask : Task) (pagesRead n idx : Nat) (s : State)
    (hn : 0 < n)
    (h : (processPage cfg s (bufferPage cfg s idx) (pagesRead + idx) aTask).1 ≠ ReadResult.cOk) :
    readAcopyPages cfg aTask pagesRead n idx s
      = processPage cfg s (bufferPage cfg s idx) (pagesRead + idx) aTask := by
  cases n with
  | zero => omega
  | succ n => simp [readAcopyPages, h]

/-- A call of `readPages` inside the flash that the fault schedule lets through. -/
theorem readPages_ok (cfg : Params) (s : State) (a n : Nat)
    (hFault : s.sFaults s.sCalls.length = false)
    (hIn : a < cfg.cFlashSizeInPages ∧ a + n ≤ cfg.cFlashSizeInPages) :
    readPages cfg s a n =
      (SpiResult.cOk,
       logCall
         { s with
           sReadAheadBuffer :=
             copyN (ptrAdd s.sMemoryFlash (a * cfg.cPageSizeInBytes))
               (cfg.cPageSizeInBytes * n) s.sReadAheadBuffer 0 }
         (FlashOp.readPages a n) SpiResult.cOk) := by
  simp [readPages, hFault, hIn]

/-- The loop of `readAcopy`, entered on a copy whose first page starts with 0xFF, returns
`cErased` after one call of `readPages`. -/
theorem readAcopyLoop_erased (cfg : Params) (s : State) (off : Nat) (aTask : Task) (fuel : Nat)
    (hTask : aTask ≠ Task.cCheckFf) (hFault : s.sFaults s.sCalls.length = false)
    (hIn : s.sStartPage + off + cfg.cCopySizeInPages ≤ cfg.cFlashSizeInPages)
    (hCopy : 0 < cfg.cCopySizeInPages) (hRA : 0 < cfg.tReadAheadSizeInPages)
    (hP : 0 < cfg.cPageSizeInBytes)
    (hMagic : s.sMemoryFlash ((s.sStartPage + off) * cfg.cPageSizeInBytes) = cMagicErased) :
    readAcopyLoop cfg off aTask (fuel + 1) 0 s
      = some (ReadResult.cErased,
          (readPages cfg s (s.sStartPage + off + 0)
            (min cfg.tReadAheadSizeInPages (cfg.cCopySizeInPages - 0))).2) := by
  have hMin : 0 < min cfg.tReadAheadSizeInPages (cfg.cCopySizeInPages - 0) := by
    simp only [Nat.sub_zero]
    exact lt_min hRA hCopy
  have hLe : min cfg.tReadAheadSizeInPages (cfg.cCopySizeInPages - 0) ≤ cfg.cCopySizeInPages := by
    simp only [Nat.sub_zero]
    exact Nat.min_le_right _ _
  have hRd := readPages_ok cfg s (s.sStartPage + off + 0)
    (min cfg.tReadAheadSizeInPages (cfg.cCopySizeInPages - 0)) hFault ⟨by omega, by omega⟩
  have hFirst : bufferPage cfg (readPages cfg s (s.sStartPage + off + 0)
      (min cfg.tReadAheadSizeInPages (cfg.cCopySizeInPages - 0))).2 0 cOffsetPageMagic
        = cMagicErased := by
    rw [hRd]
    simp only [bufferPage, ptrAdd, logCall, copyN, cOffsetPageMagic]
    rw [if_pos ⟨by omega, by
      simp only [Nat.zero_mul, Nat.add_zero, Nat.zero_add]
      exact Nat.mul_pos hP hMin⟩]
    simpa using hMagic
  have hPage := processPage_erased cfg (readPages cfg s (s.sStartPage + off + 0)
      (min cfg.tReadAheadSizeInPages (cfg.cCopySizeInPages - 0))).2 _
    (0 + min cfg.tReadAheadSizeInPages (cfg.cCopySizeInPages - 0) + 0) aTask hFirst hTask
  have hPages := readAcopyPages_stop cfg aTask
    (0 + min cfg.tReadAheadSizeInPages (cfg.cCopySizeInPages - 0))
    (min cfg.tReadAheadSizeInPages (cfg.cCopySizeInPages - 0)) 0 _ hMin
    (by rw [hPage]; simp)
  rw [hPage] at hPages
  simp only [readAcopyLoop]
  rw [if_neg (by rw [hRd]; simp), if_pos hMin, hPages]
  simp

/-- Reading a copy whose first page starts with 0xFF: the result is `cOk`, the id counter is
left as it is and the cursor is that of an empty copy. -/
theorem readAcopy_erased (cfg : Params) (s : State) (off : Nat) (aTask : Task)
    (hTask : aTask ≠ Task.cCheckFf) (hFault : s.sFaults s.sCalls.length = false)
    (hIn : s.sStartPage + off + cfg.cCopySizeInPages ≤ cfg.cFlashSizeInPages)
    (hCopy : 0 < cfg.cCopySizeInPages) (hRA : 0 < cfg.tReadAheadSizeInPages)
    (hP : 0 < cfg.cPageSizeInBytes)
    (hMagic : s.sMemoryFlash ((s.sStartPage + off) * cfg.cPageSizeInBytes) = cMagicErased) :
    (readAcopy cfg s off aTask).1 = ReadResult.cOk ∧
    (readAcopy cfg s off aTask).2.sNextId = s.sNextId ∧
    (readAcopy cfg s off aTask).2.sFirstUsablePage = 0 ∧
    (readAcopy cfg s off aTask).2.sFirstUsableByteIndex = cOffsetPageItems := by
  have hLoop := readAcopyLoop_erased cfg
    { s with sFirstUsablePage := 0, sFirstUsableByteIndex := cOffsetPageItems } off aTask
    cfg.cCopySizeInPages hTask hFault hIn hCopy hRA hP hMagic
  have hMin : min cfg.tReadAheadSizeInPages (cfg.cCopySizeInPages - 0) ≤ cfg.cCopySizeInPages := by
    simp only [Nat.sub_zero]
    exact Nat.min_le_right _ _
  have hRd := readPages_ok cfg
    { s with sFirstUsablePage := 0, sFirstUsableByteIndex := cOffsetPageItems }
    (s.sStartPage + off + 0)
    (min cfg.tReadAheadSizeInPages (cfg.cCopySizeInPages - 0)) hFault ⟨by omega, by omega⟩
  simp only [readAcopy]
  rw [hLoop, hRd]
  simp [logCall]

/-- C11: reading erased flash is not an error.  If every byte of the partition (each
configured copy) is 0xFF, the partition of at least one page per copy lies inside the flash
and no call of `readPages` fails, then `readAll` reports no fatal error and leaves
`sNextId` at 0 and the cursor at page 0, byte index 5, with every dirty flag false. -/
theorem readAll_of_erased_flash (cfg : Params) (hValid : cfg.valid) (s : State)
    (hFaults : ∀ n, s.sFaults n = false) (hCopy : 0 < cfg.cCopySizeInPages)
    (hIn : s.sStartPage + cfg.tPagesNeeded ≤ cfg.cFlashSizeInPages)
    (hErased : ∀ a, s.sStartPage * cfg.cPageSizeInBytes ≤ a →
      a < (s.sStartPage + cfg.tPagesNeeded) * cfg.cPageSizeInBytes →
      s.sMemoryFlash a = cMagicErased) :
    (readAll cfg s).sFatals = s.sFatals ∧
    (readAll cfg s).sNextId = 0 ∧
    (readAll cfg s).sFirstUsablePage = 0 ∧
    (readAll cfg s).sFirstUsableByteIndex = cOffsetPageItems ∧
    ∀ i, i < cfg.cCopySizeInPages → (readAll cfg s).sDirtyPages i = false := by
  have hRA : 0 < cfg.tReadAheadSizeInPages := Nat.lt_trans Nat.zero_lt_one hValid.1
  have hP : 0 < cfg.cPageSizeInBytes :=
    Nat.lt_of_lt_of_le (by norm_num) hValid.2.2.2.2.2.2.2.2.1
  have hSize : cfg.cCopySizeInPages * (if cfg.tCopies = FlashCopies.c2 then 2 else 1)
      = cfg.tPagesNeeded := hValid.2.2.2.1
  have hLe : cfg.cCopySizeInPages ≤ cfg.tPagesNeeded := by
    rw [← hSize]
    split_ifs <;> omega
  have hA := readAcopy_erased cfg (clear cfg s) 0 Task.cCopy (by simp) (hFaults _)
    (by show s.sStartPage + 0 + cfg.cCopySizeInPages ≤ cfg.cFlashSizeInPages; omega)
    hCopy hRA hP
    (hErased _ (by show s.sStartPage * _ ≤ (s.sStartPage + 0) * _; simp)
      (by
        show (s.sStartPage + 0) * _ < _
        apply Nat.mul_lt_mul_of_pos_right _ hP
        omega))
  have kA := readAcopy_readKeeps cfg (clear cfg s) 0 Task.cCopy
  have hB : cfg.tCopies = FlashCopies.c2 →
      (readAcopy cfg (readAcopy cfg (clear cfg s) 0 Task.cCopy).2 cfg.cCopySizeInPages
          Task.cCheck).1 = ReadResult.cOk ∧
      (readAcopy cfg (readAcopy cfg (clear cfg s) 0 Task.cCopy).2 cfg.cCopySizeInPages
          Task.cCheck).2.sNextId = 0 ∧
      (readAcopy cfg (readAcopy cfg (clear cfg s) 0 Task.cCopy).2 cfg.cCopySizeInPages
          Task.cCheck).2.sFirstUsablePage = 0 ∧
      (readAcopy cfg (readAcopy cfg (clear cfg s) 0 Task.cCopy).2 cfg.cCopySizeInPages
          Task.cCheck).2.sFirstUsableByteIndex = cOffsetPageItems := by
    intro hC
    rw [if_pos hC] at hSize
    have h := readAcopy_erased cfg (readAcopy cfg (clear cfg s) 0 Task.cCopy).2
      cfg.cCopySizeInPages Task.cCheck (by simp)
      (by rw [kA.2.2.2.2]; exact hFaults _)
      (by rw [kA.1]; show s.sStartPage + _ + _ ≤ _; omega) hCopy hRA hP
      (by
        rw [kA.2.2.2.1, kA.1]
        show s.sMemoryFlash ((s.sStartPage + cfg.cCopySizeInPages) * _) = _
        apply hErased
        · apply Nat.mul_le_mul_right
          omega
        · apply Nat.mul_lt_mul_of_pos_right _ hP
          omega)
    refine ⟨h.1, ?_, h.2.2.1, h.2.2.2⟩
    rw [h.2.1, hA.2.1]
    rfl
  have kB := readAcopy_readKeeps cfg (readAcopy cfg (clear cfg s) 0 Task.cCopy).2
    cfg.cCopySizeInPages Task.cCheck
  have hEq : readAll cfg s =
      if cfg.tCopies = FlashCopies.c2 then
        (readAcopy cfg (readAcopy cfg (clear cfg s) 0 Task.cCopy).2 cfg.cCopySizeInPages
          Task.cCheck).2
      else (readAcopy cfg (clear cfg s) 0 Task.cCopy).2 := by
    unfold readAll
    lift_lets
    intro r1 result1 fup1 fubi1 r2 result2 src src1
    have h1 : result1 = ReadResult.cOk := hA.1
    have hr2 : r2 = readAcopy cfg r1.2 cfg.cCopySizeInPages Task.cCheck :=
      if_neg (not_not.2 h1)
    by_cases hC : cfg.tCopies = FlashCopies.c2
    · have h2 : result2 = ReadResult.cOk := by
        show r2.1 = _
        rw [hr2]
        exact (hB hC).1
      rw [if_pos hC, if_neg (by simp [h2]), if_neg (by simp [h2]), if_neg (by simp [h1]),
        if_neg (by simp [h1]), hr2, if_pos hC]
    · rw [if_neg hC, if_neg (by simp [h1]), if_neg hC]
  rw [hEq]
  by_cases hC : cfg.tCopies = FlashCopies.c2
  · rw [if_pos hC]
    exact ⟨by rw [kB.2.2.1, kA.2.2.1]; rfl, (hB hC).2.1, (hB hC).2.2.1, (hB hC).2.2.2,
      fun i hi => by
        have := readAll_dirty cfg s i hi
        rw [hEq, if_pos hC] at this
        exact this⟩
  · rw [if_neg hC]
    exact ⟨by rw [kA.2.2.1]; rfl, hA.2.1, hA.2.2.1, hA.2.2.2,
      fun i hi => by
        have := readAll_dirty cfg s i hi
        rw [hEq, if_neg hC] at this
        exact this⟩

/-! ## A corrupted page -/

/-- The value `getValue` reads, for two bytes. -/
theorem getValue_of_bytes (d : Mem) (h0 : d 0 < 256) (h1 : d 1 < 256) :
    getValue d = d 0 + 256 * d 1 := by
  unfold getValue
  rw [Nat.shiftLeft_eq, Nat.lor_comm, Nat.mul_comm,
    ← Nat.mul_add_lt_is_or (by simpa using h0)]
  norm_num
  omega

/-- The checksum reads the page only. -/
theorem calculateChecksum_congr_page (aPageSize : Nat) (hP : cOffsetPageChecksum ≤ aPageSize)
    (d d' : Mem) (h : ∀ k, k < aPageSize → d' k = d k) :
    calculateChecksum aPageSize d' = calculateChecksum aPageSize d := by
  rw [calculateChecksum_sum, calculateChecksum_sum]
  unfold checksumWeighted
  have hOff : cOffsetPageChecksum = 3 := rfl
  have h1 : ((List.range cOffsetPageChecksum).map fun k =>
        (d' k ^^^ cChecksumXorValue) * cChecksumPrimeTable.getD (runningTableIndex k) 0)
      = ((List.range cOffsetPageChecksum).map fun k =>
        (d k ^^^ cChecksumXorValue) * cChecksumPrimeTable.getD (runningTableIndex k) 0) := by
    apply List.map_congr_left
    intro k hk
    have := List.mem_range.1 hk
    rw [h k (by omega)]
  have h2 : ((List.range' (cOffsetPageChecksum + 2) (aPageSize - (cOffsetPageChecksum + 2))).map
        fun k => (d' k ^^^ cChecksumXorValue)
          * cChecksumPrimeTable.getD (runningTableIndex k) 0)
      = ((List.range' (cOffsetPageChecksum + 2) (aPageSize - (cOffsetPageChecksum + 2))).map
        fun k => (d k ^^^ cChecksumXorValue)
          * cChecksumPrimeTable.getD (runningTableIndex k) 0) := by
    apply List.map_congr_left
    intro k hk
    have := List.mem_range'_1.1 hk
    rw [h k (by omega)]
  rw [h1, h2]

/-- What `processPage` returns for a configuration page with a valid checksum in which one
byte was changed: `cErased` when the magic became 0xFF, otherwise `cErrorChecksum` or
`cErrorConsistency`. -/
theorem processPage_corrupted (cfg : Params) (hP : 256 ≤ cfg.cPageSizeInBytes) (s : State)
    (idx : Nat) (p q : Mem) (k v : Nat) (hk : k < cfg.cPageSizeInBytes) (hv : v < 256)
    (hpk : p k < 256)
    (hSlot : p cOffsetPageChecksum < 256 ∧ p (cOffsetPageChecksum + 1) < 256)
    (hMagic : p cOffsetPageMagic = cMagicConfig)
    (hSum : calculateChecksum cfg.cPageSizeInBytes p = getValue (ptrAdd p cOffsetPageChecksum))
    (hNe : v ≠ p k) (hq : ∀ j, j < cfg.cPageSizeInBytes → q j = upd p k v j) :
    (k = cOffsetPageMagic ∧ v = cMagicErased →
      (processPage cfg s q idx Task.cCheck).1 = ReadResult.cErased) ∧
    (¬(k = cOffsetPageMagic ∧ v = cMagicErased) →
      (processPage cfg s q idx Task.cCheck).1 = ReadResult.cErrorChecksum ∨
      (processPage cfg s q idx Task.cCheck).1 = ReadResult.cErrorConsistency) := by
  have h0 : cOffsetPageMagic = 0 := rfl
  have h3 : cOffsetPageChecksum = 3 := rfl
  have hE : cMagicErased = 255 := rfl
  have hC : cMagicConfig = 0 := rfl
  have hq0 : q cOffsetPageMagic = upd p k v cOffsetPageMagic := hq _ (by omega)
  constructor
  · rintro ⟨hk0, hvE⟩
    rw [processPage_erased cfg s q idx Task.cCheck (by rw [hq0, hk0, upd_same, hvE]) (by simp)]
  · intro hNot
    by_cases hk0 : k = cOffsetPageMagic
    · right
      have hvE : v ≠ cMagicErased := fun h => hNot ⟨hk0, h⟩
      have hvC : v ≠ cMagicConfig := by
        rw [← hMagic, ← hk0]
        exact hNe
      simp only [processPage]
      rw [hq0, hk0, upd_same, if_neg hvE, if_neg hvC]
    · left
      have hqM : q cOffsetPageMagic = cMagicConfig := by
        rw [hq0, upd_other _ _ _ _ (fun h => hk0 h.symm), hMagic]
      have hSumQ : calculateChecksum cfg.cPageSizeInBytes q
          = calculateChecksum cfg.cPageSizeInBytes (upd p k v) :=
        calculateChecksum_congr_page _ (by omega) _ _ hq
      have hGetQ : getValue (ptrAdd q cOffsetPageChecksum)
          = getValue (ptrAdd (upd p k v) cOffsetPageChecksum) := by
        unfold getValue ptrAdd
        rw [hq _ (by omega), hq _ (by omega)]
      have hBad : calculateChecksum cfg.cPageSizeInBytes q
          ≠ getValue (ptrAdd q cOffsetPageChecksum) := by
        rw [hSumQ, hGetQ]
        by_cases hIn : k = cOffsetPageChecksum ∨ k = cOffsetPageChecksum + 1
        · rw [calculateChecksum_congr _ p (upd p k v) (by
            intro j hj3 hj4
            rw [upd_other]
            rcases hIn with h | h <;> omega), hSum,
            getValue_of_bytes _ hSlot.1 hSlot.2]
          rcases hIn with h | h
          · rw [getValue_of_bytes _ (by simp [ptrAdd, upd, h, hv])
              (by simp [ptrAdd, upd, h, hSlot.2])]
            subst h
            simp only [ptrAdd, upd]
            simp
            omega
          · rw [getValue_of_bytes _ (by simp [ptrAdd, upd, h, hSlot.1])
              (by simp [ptrAdd, upd, h, hv])]
            subst h
            simp only [ptrAdd, upd]
            simp
            omega
        · have hSame : getValue (ptrAdd (upd p k v) cOffsetPageChecksum)
              = getValue (ptrAdd p cOffsetPageChecksum) := by
            unfold getValue ptrAdd
            rw [upd_other _ _ _ _ (by omega), upd_other _ _ _ _ (by omega)]
          rw [hSame, ← hSum]
          exact calculateChecksum_upd_ne _ p k v hk (by omega) (by omega) hNe hv hpk
      simp only [processPage]
      rw [if_neg (by rw [hqM, hC, hE]; decide), if_pos hqM, if_pos hBad]

/-- The loop of `readAcopy` returns the result of the first page when that is not `cOk`. -/
theorem readAcopyLoop_first (cfg : Params) (s : State) (off : Nat) (aTask : Task) (fuel : Nat)
    (hFault : s.sFaults s.sCalls.length = false)
    (hIn : s.sStartPage + off + cfg.cCopySizeInPages ≤ cfg.cFlashSizeInPages)
    (hCopy : 0 < cfg.cCopySizeInPages) (hRA : 0 < cfg.tReadAheadSizeInPages)
    (hStop : (processPage cfg
        (readPages cfg s (s.sStartPage + off + 0)
          (min cfg.tReadAheadSizeInPages (cfg.cCopySizeInPages - 0))).2
        (bufferPage cfg (readPages cfg s (s.sStartPage + off + 0)
          (min cfg.tReadAheadSizeInPages (cfg.cCopySizeInPages - 0))).2 0)
        (0 + min cfg.tReadAheadSizeInPages (cfg.cCopySizeInPages - 0) + 0) aTask).1
          ≠ ReadResult.cOk) :
    readAcopyLoop cfg off aTask (fuel + 1) 0 s
      = some (processPage cfg
        (readPages cfg s (s.sStartPage + off + 0)
          (min cfg.tReadAheadSizeInPages (cfg.cCopySizeInPages - 0))).2
        (bufferPage cfg (readPages cfg s (s.sStartPage + off + 0)
          (min cfg.tReadAheadSizeInPages (cfg.cCopySizeInPages - 0))).2 0)
        (0 + min cfg.tReadAheadSizeInPages (cfg.cCopySizeInPages - 0) + 0) aTask) := by
  have hMin : 0 < min cfg.tReadAheadSizeInPages (cfg.cCopySizeInPages - 0) := by
    simp only [Nat.sub_zero]
    exact lt_min hRA hCopy
  have hLe : min cfg.tReadAheadSizeInPages (cfg.cCopySizeInPages - 0) ≤ cfg.cCopySizeInPages := by
    simp only [Nat.sub_zero]
    exact Nat.min_le_right _ _
  have hRd := readPages_ok cfg s (s.sStartPage + off + 0)
    (min cfg.tReadAheadSizeInPages (cfg.cCopySizeInPages - 0)) hFault ⟨by omega, by omega⟩
  have hPages := readAcopyPages_stop cfg aTask
    (0 + min cfg.tReadAheadSizeInPages (cfg.cCopySizeInPages - 0))
    (min cfg.tReadAheadSizeInPages (cfg.cCopySizeInPages - 0)) 0 _ hMin hStop
  simp only [readAcopyLoop]
  rw [if_neg (by rw [hRd]; simp), if_pos hMin, hPages, if_neg hStop]

/-- The first page of the read-ahead buffer after the first `readPages` of a copy holds the
first page of the copy. -/
theorem readPages_first_page (cfg : Params) (s : State) (off : Nat)
    (hFault : s.sFaults s.sCalls.length = false)
    (hIn : s.sStartPage + off + cfg.cCopySizeInPages ≤ cfg.cFlashSizeInPages)
    (hCopy : 0 < cfg.cCopySizeInPages) (hRA : 0 < cfg.tReadAheadSizeInPages) (j : Nat)
    (hj : j < cfg.cPageSizeInBytes) :
    bufferPage cfg (readPages cfg s (s.sStartPage + off + 0)
        (min cfg.tReadAheadSizeInPages (cfg.cCopySizeInPages - 0))).2 0 j
      = s.sMemoryFlash ((s.sStartPage + off) * cfg.cPageSizeInBytes + j) := by
  have hMin : 0 < min cfg.tReadAheadSizeInPages (cfg.cCopySizeInPages - 0) := by
    simp only [Nat.sub_zero]
    exact lt_min hRA hCopy
  have hLe : min cfg.tReadAheadSizeInPages (cfg.cCopySizeInPages - 0) ≤ cfg.cCopySizeInPages := by
    simp only [Nat.sub_zero]
    exact Nat.min_le_right _ _
  rw [readPages_ok cfg s (s.sStartPage + off + 0)
    (min cfg.tReadAheadSizeInPages (cfg.cCopySizeInPages - 0)) hFault ⟨by omega, by omega⟩]
  simp only [bufferPage, ptrAdd, logCall, copyN]
  rw [if_pos ⟨by omega, by
    simp only [Nat.zero_mul, Nat.add_zero, Nat.zero_add]
    calc j < cfg.cPageSizeInBytes := hj
      _ = cfg.cPageSizeInBytes * 1 := (Nat.mul_one _).symm
      _ ≤ _ := Nat.mul_le_mul_left _ hMin⟩]
  simp

/-- When copy A reads as `cOk` and copy B as neither `cOk` nor `cErrorMismatch`, `readAll`
keeps what the pass over copy A has loaded: the cache, `sNextId` and the cursor. -/
theorem readAll_badCopy2_keeps (cfg : Params) (hCopies : cfg.tCopies = FlashCopies.c2)
    (s : State)
    (hA : (readAcopy cfg (clear cfg s) 0 Task.cCopy).1 = ReadResult.cOk)
    (hB : (readAcopy cfg (readAcopy cfg (clear cfg s) 0 Task.cCopy).2 cfg.cCopySizeInPages
      Task.cCheck).1 ≠ ReadResult.cOk)
    (hM : (readAcopy cfg (readAcopy cfg (clear cfg s) 0 Task.cCopy).2 cfg.cCopySizeInPages
      Task.cCheck).1 ≠ ReadResult.cErrorMismatch) :
    (readAll cfg s).sCache = (readAcopy cfg (clear cfg s) 0 Task.cCopy).2.sCache ∧
    (readAll cfg s).sNextId = (readAcopy cfg (clear cfg s) 0 Task.cCopy).2.sNextId ∧
    (readAll cfg s).sFirstUsablePage
      = (readAcopy cfg (clear cfg s) 0 Task.cCopy).2.sFirstUsablePage ∧
    (readAll cfg s).sFirstUsableByteIndex
      = (readAcopy cfg (clear cfg s) 0 Task.cCopy).2.sFirstUsableByteIndex := by
  have kB := readAcopy_cacheKeeps cfg (readAcopy cfg (clear cfg s) 0 Task.cCopy).2
    cfg.cCopySizeInPages Task.cCheck (by decide)
  unfold readAll
  lift_lets
  intro r1 result1 fup1 fubi1 r2 result2 src src1
  have h1 : result1 = ReadResult.cOk := hA
  have hr2 : r2 = readAcopy cfg r1.2 cfg.cCopySizeInPages Task.cCheck :=
    if_neg (not_not.2 h1)
  have hres2 : result2
      = (readAcopy cfg r1.2 cfg.cCopySizeInPages Task.cCheck).1 := by
    show r2.1 = _
    rw [hr2]
  have hsrc : src = (readAcopy cfg r1.2 cfg.cCopySizeInPages Task.cCheck).2 := by
    show r2.2 = _
    rw [hr2]
  have hB2 : result2 ≠ ReadResult.cOk := by rw [hres2]; exact hB
  have hM2 : result2 ≠ ReadResult.cErrorMismatch := by rw [hres2]; exact hM
  rw [if_pos hCopies, if_neg (fun h => hM2 h.2), if_pos ⟨h1, hB2⟩]
  refine ⟨?_, ?_, rfl, rfl⟩
  · show src.sCache = _
    rw [hsrc]
    exact kB.2
  · show src.sNextId = _
    rw [hsrc]
    exact kB.1

/-- C12 (amended): when the first page of copy B on flash is a configuration page with a
valid checksum in which one byte was changed to a different value, and copy A reads as
`cOk`, `readAll` reports `cConfigBadCopy2` (not `cConfigCopiesMismatch`), whatever the
offset of the byte, and keeps the values of copy A: the cache, `sNextId` and the cursor are
those the pass over copy A has loaded; except that it reports nothing when the byte is the
magic byte and its new value is 0xFF, as the copy then reads as erased. -/
theorem corrupted_copy_reported (cfg : Params) (hValid : cfg.valid)
    (hCopies : cfg.tCopies = FlashCopies.c2) (s : State) (k v : Nat)
    (hFaults : ∀ n, s.sFaults n = false) (hCopy : 0 < cfg.cCopySizeInPages)
    (hIn : s.sStartPage + cfg.tPagesNeeded ≤ cfg.cFlashSizeInPages)
    (hk : k < cfg.cPageSizeInBytes) (hv : v < 256)
    (hpk : s.sMemoryFlash (copyBAddress cfg s + k) < 256)
    (hSlot : s.sMemoryFlash (copyBAddress cfg s + cOffsetPageChecksum) < 256 ∧
      s.sMemoryFlash (copyBAddress cfg s + (cOffsetPageChecksum + 1)) < 256)
    (hMagic : s.sMemoryFlash (copyBAddress cfg s + cOffsetPageMagic) = cMagicConfig)
    (hSum : calculateChecksum cfg.cPageSizeInBytes (ptrAdd s.sMemoryFlash (copyBAddress cfg s))
      = getValue (ptrAdd (ptrAdd s.sMemoryFlash (copyBAddress cfg s)) cOffsetPageChecksum))
    (hNe : v ≠ s.sMemoryFlash (copyBAddress cfg s + k))
    (hA : (readAcopy cfg (clear cfg (withFlashByte s (copyBAddress cfg s + k) v)) 0
      Task.cCopy).1 = ReadResult.cOk) :
    (¬(k = cOffsetPageMagic ∧ v = cMagicErased) →
      (readAll cfg (withFlashByte s (copyBAddress cfg s + k) v)).sFatals
        = s.sFatals ++ [FlashException.cConfigBadCopy2] ∧
      (readAll cfg (withFlashByte s (copyBAddress cfg s + k) v)).sCache
        = (readAcopy cfg (clear cfg (withFlashByte s (copyBAddress cfg s + k) v)) 0
            Task.cCopy).2.sCache ∧
      (readAll cfg (withFlashByte s (copyBAddress cfg s + k) v)).sNextId
        = (readAcopy cfg (clear cfg (withFlashByte s (copyBAddress cfg s + k) v)) 0
            Task.cCopy).2.sNextId ∧
      (readAll cfg (withFlashByte s (copyBAddress cfg s + k) v)).sFirstUsablePage
        = (readAcopy cfg (clear cfg (withFlashByte s (copyBAddress cfg s + k) v)) 0
            Task.cCopy).2.sFirstUsablePage ∧
      (readAll cfg (withFlashByte s (copyBAddress cfg s + k) v)).sFirstUsableByteIndex
        = (readAcopy cfg (clear cfg (withFlashByte s (copyBAddress cfg s + k) v)) 0
            Task.cCopy).2.sFirstUsableByteIndex) ∧
    (k = cOffsetPageMagic ∧ v = cMagicErased →
      (readAll cfg (withFlashByte s (copyBAddress cfg s + k) v)).sFatals = s.sFatals) := by
  unfold copyBAddress at *
  have hRA : 0 < cfg.tReadAheadSizeInPages := Nat.lt_trans Nat.zero_lt_one hValid.1
  have hP : 256 ≤ cfg.cPageSizeInBytes := hValid.2.2.2.2.2.2.2.2.1
  have hSize : cfg.cCopySizeInPages * (if cfg.tCopies = FlashCopies.c2 then 2 else 1)
      = cfg.tPagesNeeded := hValid.2.2.2.1
  rw [if_pos hCopies] at hSize
  generalize hs' : withFlashByte s
    ((s.sStartPage + cfg.cCopySizeInPages) * cfg.cPageSizeInBytes + k) v = s' at hA ⊢
  have hs'F : s'.sFatals = s.sFatals := by rw [← hs']; rfl
  have hs'S : s'.sStartPage = s.sStartPage := by rw [← hs']; rfl
  have hs'X : s'.sFaults = s.sFaults := by rw [← hs']; rfl
  have hs'M : s'.sMemoryFlash = upd s.sMemoryFlash
      ((s.sStartPage + cfg.cCopySizeInPages) * cfg.cPageSizeInBytes + k) v := by
    rw [← hs']
    rfl
  have kA := readAcopy_readKeeps cfg (clear cfg s') 0 Task.cCopy
  generalize hs1 : (readAcopy cfg (clear cfg s') 0 Task.cCopy).2 = s1 at kA
  have kB := readAcopy_readKeeps cfg s1 cfg.cCopySizeInPages Task.cCheck
  have h1S : s1.sStartPage = s.sStartPage := by rw [kA.1]; exact hs'S
  have h1X : ∀ n, s1.sFaults n = false := by
    intro n
    rw [kA.2.2.2.2]
    show s'.sFaults n = false
    rw [hs'X]
    exact hFaults n
  have h1M : s1.sMemoryFlash = upd s.sMemoryFlash
      ((s.sStartPage + cfg.cCopySizeInPages) * cfg.cPageSizeInBytes + k) v := by
    rw [kA.2.2.2.1]
    exact hs'M
  -- the pass over copy B
  have hIn1 : s1.sStartPage + cfg.cCopySizeInPages + cfg.cCopySizeInPages
      ≤ cfg.cFlashSizeInPages := by
    rw [h1S]
    omega
  have hq := fun j hj => readPages_first_page cfg
    { s1 with sFirstUsablePage := 0, sFirstUsableByteIndex := cOffsetPageItems }
    cfg.cCopySizeInPages (h1X _) hIn1 hCopy hRA j hj
  have hCor := processPage_corrupted cfg hP
    (readPages cfg { s1 with sFirstUsablePage := 0, sFirstUsableByteIndex := cOffsetPageItems }
      (s1.sStartPage + cfg.cCopySizeInPages + 0)
      (min cfg.tReadAheadSizeInPages (cfg.cCopySizeInPages - 0))).2
    (0 + min cfg.tReadAheadSizeInPages (cfg.cCopySizeInPages - 0) + 0)
    (ptrAdd s.sMemoryFlash ((s.sStartPage + cfg.cCopySizeInPages) * cfg.cPageSizeInBytes))
    (bufferPage cfg (readPages cfg
      { s1 with sFirstUsablePage := 0, sFirstUsableByteIndex := cOffsetPageItems }
      (s1.sStartPage + cfg.cCopySizeInPages + 0)
      (min cfg.tReadAheadSizeInPages (cfg.cCopySizeInPages - 0))).2 0)
    k v hk hv hpk hSlot hMagic hSum hNe
    (by
      intro j hj
      rw [hq j hj]
      show s1.sMemoryFlash _ = _
      rw [h1M, h1S]
      simp only [upd, ptrAdd]
      by_cases hjk : j = k
      · simp [hjk]
      · rw [if_neg (by omega), if_neg hjk])
  have hLoop := fun hStop => readAcopyLoop_first cfg
    { s1 with sFirstUsablePage := 0, sFirstUsableByteIndex := cOffsetPageItems }
    cfg.cCopySizeInPages Task.cCheck cfg.cCopySizeInPages (h1X _) hIn1 hCopy hRA hStop
  have hB1 : ¬(k = cOffsetPageMagic ∧ v = cMagicErased) →
      (readAcopy cfg s1 cfg.cCopySizeInPages Task.cCheck).1 ≠ ReadResult.cOk ∧
      (readAcopy cfg s1 cfg.cCopySizeInPages Task.cCheck).1 ≠ ReadResult.cErrorMismatch := by
    intro hNot
    have hR := hCor.2 hNot
    simp only [readAcopy]
    rw [hLoop (by rcases hR with h | h <;> rw [h] <;> simp)]
    simp only []
    rcases hR with h | h <;> rw [h] <;> simp
  have hB2 : k = cOffsetPageMagic ∧ v = cMagicErased →
      (readAcopy cfg s1 cfg.cCopySizeInPages Task.cCheck).1 = ReadResult.cOk := by
    intro hYes
    have hR := hCor.1 hYes
    simp only [readAcopy]
    rw [hLoop (by rw [hR]; simp)]
    simp only []
    rw [hR]
    simp
  have hEq : (readAll cfg s').sFatals =
      if (readAcopy cfg s1 cfg.cCopySizeInPages Task.cCheck).1 = ReadResult.cOk then
        (readAcopy cfg s1 cfg.cCopySizeInPages Task.cCheck).2.sFatals
      else if (readAcopy cfg s1 cfg.cCopySizeInPages Task.cCheck).1
          = ReadResult.cErrorMismatch then
        (readAcopy cfg s1 cfg.cCopySizeInPages Task.cCheck).2.sFatals
          ++ [FlashException.cConfigCopiesMismatch]
      else
        (readAcopy cfg s1 cfg.cCopySizeInPages Task.cCheck).2.sFatals
          ++ [FlashException.cConfigBadCopy2] := by
    unfold readAll
    lift_lets
    intro r1 result1 fup1 fubi1 r2 result2 src src1
    have h1 : result1 = ReadResult.cOk := hA
    have hr1 : r1.2 = s1 := hs1
    have hr2 : r2 = readAcopy cfg s1 cfg.cCopySizeInPages Task.cCheck := by
      rw [← hr1]
      exact if_neg (not_not.2 h1)
    have hres2 : result2 = (readAcopy cfg s1 cfg.cCopySizeInPages Task.cCheck).1 := by
      show r2.1 = _
      rw [hr2]
    have hsrc : src = (readAcopy cfg s1 cfg.cCopySizeInPages Task.cCheck).2 := by
      show r2.2 = _
      rw [hr2]
    have hf1 : fup1 = s1.sFirstUsablePage := by
      show r1.2.sFirstUsablePage = _
      rw [hr1]
    have hf2 : fubi1 = s1.sFirstUsableByteIndex := by
      show r1.2.sFirstUsableByteIndex = _
      rw [hr1]
    rw [if_pos hCopies]
    by_cases hOk : (readAcopy cfg s1 cfg.cCopySizeInPages Task.cCheck).1 = ReadResult.cOk
    · rw [if_pos hOk, if_neg (by rw [hres2, hOk]; simp), if_neg (by rw [hres2, hOk]; simp),
        if_neg (by simp [h1]), if_neg (by simp [h1])]
      show r2.2.sFatals = _
      rw [hr2]
    · rw [if_neg hOk]
      by_cases hMis : (readAcopy cfg s1 cfg.cCopySizeInPages Task.cCheck).1
          = ReadResult.cErrorMismatch
      · rw [if_pos hMis, if_pos ⟨h1, by rw [hres2]; exact hMis⟩]
        show src.sFatals ++ _ = _
        rw [hsrc]
      · rw [if_neg hMis, if_neg (by rw [hres2]; simp [hMis]),
          if_pos ⟨h1, by rw [hres2]; exact hOk⟩]
        show src.sFatals ++ _ = _
        rw [hsrc]
  rw [hEq]
  have hFat : (readAcopy cfg s1 cfg.cCopySizeInPages Task.cCheck).2.sFatals = s.sFatals := by
    rw [kB.2.2.1, kA.2.2.1]
    exact hs'F
  constructor
  · intro hNot
    have hK := readAll_badCopy2_keeps cfg hCopies s' hA
      (by rw [hs1]; exact (hB1 hNot).1) (by rw [hs1]; exact (hB1 hNot).2)
    rw [hs1] at hK
    refine ⟨?_, hK⟩
    rw [if_neg (hB1 hNot).1, if_neg (hB1 hNot).2, hFat]
  · intro hYes
    rw [if_pos (hB2 hYes)]
    exact hFat

/-! ## What no call changes: the start page and the fault schedule -/

theorem readAll_device (cfg : Params) (s : State) :
    (readAll cfg s).sStartPage = s.sStartPage ∧ (readAll cfg s).sFaults = s.sFaults :=
  readAll_rel cfg (fun s s' => s'.sStartPage = s.sStartPage ∧ s'.sFaults = s.sFaults)
    (fun _ => ⟨rfl, rfl⟩)
    (fun _ _ _ h1 h2 => ⟨h2.1.trans h1.1, h2.2.trans h1.2⟩)
    (fun aTask s aPage idx =>
      ⟨(processPage_readKeeps cfg aTask s aPage idx).1,
        (processPage_readKeeps cfg aTask s aPage idx).2.2.2.2⟩)
    (fun s a n => ⟨(readPages_readKeeps cfg s a n).1, (readPages_readKeeps cfg s a n).2.2.2.2⟩)
    (fun _ _ _ => ⟨rfl, rfl⟩) (fun _ => ⟨rfl, rfl⟩) (fun _ _ => ⟨rfl, rfl⟩) s

theorem init_device (cfg : Params) (s : State) (aStartPage : Nat) :
    (init cfg s aStartPage).sStartPage = aStartPage ∧ (init cfg s aStartPage).sFaults = s.sFaults :=
  readAll_device cfg _

theorem commit_device (cfg : Params) (s : State) :
    (commit cfg s).sStartPage = s.sStartPage ∧ (commit cfg s).sFaults = s.sFaults := by
  have k1 := commitCopy_keeps cfg s 0
  have k2 := commitCopy_keeps cfg (commitCopy cfg s 0).2 cfg.cCopySizeInPages
  have k12 := commitKeeps_trans _ _ _ k1 k2
  unfold commit
  lift_lets
  intro r1 r2
  have k : CommitKeeps s r2.2 := by
    show CommitKeeps s (if r1.1 = true ∧ cfg.tCopies = FlashCopies.c2 then _ else _ :
      Bool × State).2
    split_ifs
    · exact k12
    · exact k1
  split_ifs <;> exact ⟨k.1, k.2.2.2.2.2.2.2⟩

theorem runCall_device (cfg : Params) (s : State) (c : Call) :
    (runCall cfg s c).sStartPage = s.sStartPage ∧ (runCall cfg s c).sFaults = s.sFaults := by
  cases c with
  | addConfig aData aCount =>
    simp only [runCall, addConfig]
    split_ifs <;> exact ⟨rfl, rfl⟩
  | setConfig aId aData =>
    simp only [runCall, setConfig]
    split_ifs <;> exact ⟨rfl, rfl⟩
  | getConfig aId =>
    simp only [runCall, getConfig]
    split_ifs <;> exact ⟨rfl, rfl⟩
  | makeAllDirty => exact ⟨rfl, rfl⟩
  | commit => exact commit_device cfg s
  | clear => exact ⟨rfl, rfl⟩
  | readAllDebugTodoRemove => exact readAll_device cfg s

theorem runCalls_device (cfg : Params) :
    ∀ (calls : List Call) (s : State),
      (runCalls cfg s calls).sStartPage = s.sStartPage ∧
      (runCalls cfg s calls).sFaults = s.sFaults := by
  intro calls
  induction calls with
  | nil => intro s; exact ⟨rfl, rfl⟩
  | cons c cs ih =>
    intro s
    exact ⟨(ih _).1.trans (runCall_device cfg s c).1, (ih _).2.trans (runCall_device cfg s c).2⟩

/-! ## The device calls of a commit pass -/

theorem passLog_refl (cfg : Params) (lo hi : Nat) (s : State) : PassLog cfg lo hi s (true, s) :=
  ⟨[], by simp, by simp, by simp⟩

theorem passLog_of_calls (cfg : Params) (lo hi : Nat) (s s' : State)
    (h : s'.sCalls = s.sCalls) : PassLog cfg lo hi s (true, s') :=
  ⟨[], by simp [h], by simp, by simp⟩

theorem passLog_seq (cfg : Params) (lo hi : Nat) (s s1 : State) (r : Bool × State)
    (h1 : PassLog cfg lo hi s (true, s1)) (h2 : PassLog cfg lo hi s1 r) :
    PassLog cfg lo hi s r := by
  obtain ⟨l1, e1, w1, o1⟩ := h1
  obtain ⟨l2, e2, w2, o2⟩ := h2
  refine ⟨l1 ++ l2, ?_, ?_, ?_⟩
  · rw [e2, e1, List.append_assoc]
  · intro c hc
    rcases List.mem_append.1 hc with h | h
    · exact w1 c h
    · exact w2 c h
  · have a1 : ∀ c ∈ l1, c.2 = SpiResult.cOk := o1.1 rfl
    rw [o2]
    constructor
    · intro h c hc
      rcases List.mem_append.1 hc with h' | h'
      · exact a1 c h'
      · exact h c h'
    · intro h c hc
      exact h c (List.mem_append.2 (Or.inr hc))

/-- One device call: the log grows by the call and its result. -/
theorem passLog_call (cfg : Params) (lo hi : Nat) (s s' : State) (op : FlashOp)
    (res : SpiResult) (hLog : s'.sCalls = s.sCalls ++ [(op, res)]) (hIn : opWithin cfg lo hi op) :
    PassLog cfg lo hi s (decide (res = SpiResult.cOk), s') :=
  ⟨[(op, res)], hLog, by simpa using hIn, by simp⟩

theorem readPages_log (cfg : Params) (s : State) (a n : Nat) :
    (readPages cfg s a n).2.sCalls
      = s.sCalls ++ [(FlashOp.readPages a n, (readPages cfg s a n).1)] := by
  simp only [readPages]
  split_ifs <;> rfl

theorem writePage_log (cfg : Params) (s : State) (p : Nat) (d : Mem) :
    (writePage cfg s p d).2.sCalls
      = s.sCalls ++ [(FlashOp.writePage p, (writePage cfg s p d).1)] := by
  simp only [writePage]
  split_ifs <;> rfl

theorem eraseSector_log (cfg : Params) (s : State) (a : Nat) :
    (eraseSector cfg s a).2.sCalls
      = s.sCalls ++ [(FlashOp.eraseSector a, (eraseSector cfg s a).1)] := by
  simp only [eraseSector]
  split_ifs <;> rfl

theorem serialize_calls (cfg : Params) (s : State) (a b : Nat) :
    (serialize cfg s a b).sCalls = s.sCalls := rfl

theorem writeStep_log (cfg : Params) (lo hi : Nat) (s : State) (a b p : Nat) (d : Mem)
    (hIn : lo ≤ p ∧ p < hi) :
    PassLog cfg lo hi s
      (decide ((writePage cfg (serialize cfg s a b) p d).1 = SpiResult.cOk),
        (writePage cfg (serialize cfg s a b) p d).2) :=
  passLog_call cfg lo hi s _ (FlashOp.writePage p) _
    (by rw [writePage_log, serialize_calls]) hIn

theorem commitWriteDirty_log (cfg : Params) (lo hi base off startPage sectorIndex : Nat) :
    ∀ (n pageIndex : Nat) (s : State), s.sStartPage = base →
      (∀ j, pageIndex ≤ j → j < pageIndex + n →
        lo ≤ base + off + startPage + (j + sectorIndex * cfg.cSectorSizeInPages) ∧
        base + off + startPage + (j + sectorIndex * cfg.cSectorSizeInPages) < hi) →
      PassLog cfg lo hi s (commitWriteDirty cfg off startPage sectorIndex n pageIndex s) := by
  intro n
  induction n with
  | zero => intro pageIndex s _ _; exact passLog_refl cfg lo hi s
  | succ n ih =>
    intro pageIndex s hBase hWin
    have hStep := writeStep_log cfg lo hi s startPage
      (pageIndex + sectorIndex * cfg.cSectorSizeInPages)
      (base + off + startPage + (pageIndex + sectorIndex * cfg.cSectorSizeInPages))
      (bufferPage cfg (serialize cfg s startPage
        (pageIndex + sectorIndex * cfg.cSectorSizeInPages))
        (pageIndex + sectorIndex * cfg.cSectorSizeInPages))
      (hWin pageIndex (le_refl _) (by omega))
    have hRest : ∀ j, pageIndex + 1 ≤ j → j < pageIndex + 1 + n →
        lo ≤ base + off + startPage + (j + sectorIndex * cfg.cSectorSizeInPages) ∧
        base + off + startPage + (j + sectorIndex * cfg.cSectorSizeInPages) < hi :=
      fun j h1 h2 => hWin j (by omega) (by omega)
    simp only [commitWriteDirty]
    have hS : (serialize cfg s startPage
        (pageIndex + sectorIndex * cfg.cSectorSizeInPages)).sStartPage = base := hBase
    rw [hS]
    split_ifs with hDirty hFail
    · rw [decide_eq_false hFail] at hStep
      exact hStep
    · rw [decide_eq_true (not_not.1 hFail)] at hStep
      exact passLog_seq cfg lo hi s _ _ hStep
        (ih _ _ ((writePage_commitKeeps cfg _ _ _).1.trans hS) hRest)
    · exact ih _ _ hBase hRest

theorem commitWriteUsed_log (cfg : Params) (lo hi base off startPage sectorIndex : Nat) :
    ∀ (n pageIndex : Nat) (s : State), s.sStartPage = base →
      (∀ j, pageIndex ≤ j → j < pageIndex + n →
        lo ≤ base + off + startPage + (j + sectorIndex * cfg.cSectorSizeInPages) ∧
        base + off + startPage + (j + sectorIndex * cfg.cSectorSizeInPages) < hi) →
      PassLog cfg lo hi s (commitWriteUsed cfg off startPage sectorIndex n pageIndex s) := by
  intro n
  induction n with
  | zero => intro pageIndex s _ _; exact passLog_refl cfg lo hi s
  | succ n ih =>
    intro pageIndex s hBase hWin
    have hStep := writeStep_log cfg lo hi s startPage
      (pageIndex + sectorIndex * cfg.cSectorSizeInPages)
      (base + off + startPage + (pageIndex + sectorIndex * cfg.cSectorSizeInPages))
      (bufferPage cfg (serialize cfg s startPage
        (pageIndex + sectorIndex * cfg.cSectorSizeInPages))
        (pageIndex + sectorIndex * cfg.cSectorSizeInPages))
      (hWin pageIndex (le_refl _) (by omega))
    have hRest : ∀ j, pageIndex + 1 ≤ j → j < pageIndex + 1 + n →
        lo ≤ base + off + startPage + (j + sectorIndex * cfg.cSectorSizeInPages) ∧
        base + off + startPage + (j + sectorIndex * cfg.cSectorSizeInPages) < hi :=
      fun j h1 h2 => hWin j (by omega) (by omega)
    simp only [commitWriteUsed]
    have hS : (serialize cfg s startPage
        (pageIndex + sectorIndex * cfg.cSectorSizeInPages)).sStartPage = base := hBase
    rw [hS]
    split_ifs with hUsed hFail
    · rw [decide_eq_false hFail] at hStep
      exact hStep
    · rw [decide_eq_true (not_not.1 hFail)] at hStep
      exact passLog_seq cfg lo hi s _ _ hStep
        (ih _ _ ((writePage_commitKeeps cfg _ _ _).1.trans hS) hRest)
    · exact ih _ _ hBase hRest

theorem commitSector_log (cfg : Params) (lo hi base off startSector startPage sectorIndex : Nat)
    (s : State) (hBase : s.sStartPage = base)
    (hSec : lo ≤ base + off + startPage + sectorIndex * cfg.cSectorSizeInPages ∧
      base + off + startPage + sectorIndex * cfg.cSectorSizeInPages + cfg.cSectorSizeInPages
        ≤ hi)
    (hErase : ((base + off) / cfg.cSectorSizeInPages + startSector + sectorIndex)
        * cfg.cSectorSizeInPages
      = base + off + startPage + sectorIndex * cfg.cSectorSizeInPages) :
    PassLog cfg lo hi s (commitSector cfg off startSector startPage sectorIndex s) := by
  have hWin : ∀ j, 0 ≤ j → j < 0 + cfg.cSectorSizeInPages →
      lo ≤ base + off + startPage + (j + sectorIndex * cfg.cSectorSizeInPages) ∧
      base + off + startPage + (j + sectorIndex * cfg.cSectorSizeInPages) < hi := by
    intro j _ hj
    omega
  simp only [commitSector, commitCheckSector_state]
  rw [hBase]
  split_ifs with hChanged hAll hFail
  · exact commitWriteDirty_log cfg lo hi base off startPage sectorIndex _ _ s hBase hWin
  · have hStep := passLog_call cfg lo hi s _ _ _
      (eraseSector_log cfg s
        ((base + off) / cfg.cSectorSizeInPages + startSector + sectorIndex))
      (show lo ≤ _ * cfg.cSectorSizeInPages ∧
          _ * cfg.cSectorSizeInPages + cfg.cSectorSizeInPages ≤ hi by
        rw [hErase]
        exact hSec)
    rw [decide_eq_false hFail] at hStep
    exact hStep
  · have hStep := passLog_call cfg lo hi s _ _ _
      (eraseSector_log cfg s
        ((base + off) / cfg.cSectorSizeInPages + startSector + sectorIndex))
      (show lo ≤ _ * cfg.cSectorSizeInPages ∧
          _ * cfg.cSectorSizeInPages + cfg.cSectorSizeInPages ≤ hi by
        rw [hErase]
        exact hSec)
    rw [decide_eq_true (not_not.1 hFail)] at hStep
    exact passLog_seq cfg lo hi s _ _ hStep
      (commitWriteUsed_log cfg lo hi base off startPage sectorIndex _ _ _
        ((eraseSector_commitKeeps cfg _ _).1.trans hBase) hWin)
  · exact passLog_refl cfg lo hi s

theorem commitSector_startPage (cfg : Params) (off startSector startPage sectorIndex : Nat)
    (s : State) :
    (commitSector cfg off startSector startPage sectorIndex s).2.sStartPage = s.sStartPage :=
  (commitSector_rel cfg CommitKeeps commitKeeps_refl commitKeeps_trans
    (serialize_commitKeeps cfg) (writePage_commitKeeps cfg) (eraseSector_commitKeeps cfg)
    off startSector startPage sectorIndex s).1

theorem commitSectors_log (cfg : Params) (lo hi base off startSector startPage : Nat) :
    ∀ (n sectorIndex : Nat) (s : State), s.sStartPage = base →
      (∀ j, sectorIndex ≤ j → j < sectorIndex + n →
        (lo ≤ base + off + startPage + j * cfg.cSectorSizeInPages ∧
          base + off + startPage + j * cfg.cSectorSizeInPages + cfg.cSectorSizeInPages ≤ hi) ∧
        ((base + off) / cfg.cSectorSizeInPages + startSector + j) * cfg.cSectorSizeInPages
          = base + off + startPage + j * cfg.cSectorSizeInPages) →
      PassLog cfg lo hi s (commitSectors cfg off startSector startPage n sectorIndex s) := by
  intro n
  induction n with
  | zero => intro sectorIndex s _ _; exact passLog_refl cfg lo hi s
  | succ n ih =>
    intro sectorIndex s hBase hWin
    have h1 := commitSector_log cfg lo hi base off startSector startPage sectorIndex s hBase
      (hWin sectorIndex (le_refl _) (by omega)).1 (hWin sectorIndex (le_refl _) (by omega)).2
    simp only [commitSectors]
    split_ifs with hOk
    · have h1' : PassLog cfg lo hi s
          (true, (commitSector cfg off startSector startPage sectorIndex s).2) := by
        rw [← hOk]
        exact h1
      exact passLog_seq cfg lo hi s _ _ h1'
        (ih _ _ ((commitSector_startPage cfg _ _ _ _ s).trans hBase)
          (fun j h1 h2 => hWin j (by omega) (by omega)))
    · exact h1

/-- The sectors of a round of `commit(uint32_t)` lie inside the copy. -/
theorem sector_window (S startSector j pageCount gEnd copyPages RA : Nat) (hS : 0 < S)
    (hCopy : copyPages % S = 0) (hEnd : gEnd ≤ copyPages)
    (hCount : pageCount = min gEnd (startSector * S + RA) - startSector * S)
    (hj : j < (pageCount + S - 1) / S) :
    startSector * S + j * S + S ≤ copyPages := by
  have h1 : (j + 1) * S ≤ pageCount + S - 1 := (Nat.le_div_iff_mul_le hS).1 hj
  have h2 : j * S + S ≤ pageCount + S - 1 := by
    rw [Nat.add_mul, Nat.one_mul] at h1
    exact h1
  have h3 := Nat.min_le_left gEnd (startSector * S + RA)
  have h4 : startSector * S + j * S < copyPages := by omega
  obtain ⟨m, hm⟩ := Nat.dvd_of_mod_eq_zero hCopy
  rw [hm, ← Nat.add_mul, Nat.mul_comm S m] at h4
  have h5 : startSector + j < m := Nat.lt_of_mul_lt_mul_right h4
  have h6 : (startSector + j + 1) * S ≤ m * S := Nat.mul_le_mul_right S h5
  rw [hm, Nat.mul_comm S m]
  have h7 : (startSector + j + 1) * S = startSector * S + j * S + S := by
    rw [Nat.add_mul, Nat.add_mul, Nat.one_mul]
  omega

theorem passLog_of_true (cfg : Params) (lo hi : Nat) (s : State) (r : Bool × State)
    (h : PassLog cfg lo hi s r) (hOk : r.1 = true) : PassLog cfg lo hi s (true, r.2) := by
  obtain ⟨l, e, w, o⟩ := h
  exact ⟨l, e, w, by simpa [hOk] using o⟩

theorem commitSectors_startPage (cfg : Params) (off startSector startPage n sectorIndex : Nat)
    (s : State) :
    (commitSectors cfg off startSector startPage n sectorIndex s).2.sStartPage = s.sStartPage :=
  (commitSectors_rel cfg CommitKeeps commitKeeps_refl commitKeeps_trans
    (serialize_commitKeeps cfg) (writePage_commitKeeps cfg) (eraseSector_commitKeeps cfg)
    off startSector startPage n sectorIndex s).1

theorem commitLoop_log (cfg : Params) (base off gEnd : Nat) (hS : 0 < cfg.cSectorSizeInPages)
    (hAlign : (base + off) % cfg.cSectorSizeInPages = 0)
    (hCopy : cfg.cCopySizeInPages % cfg.cSectorSizeInPages = 0)
    (hEnd : gEnd ≤ cfg.cCopySizeInPages) :
    ∀ (fuel dirtyIter : Nat) (s : State) (r : Bool × State), s.sStartPage = base →
      dirtyIter ≤ gEnd → commitLoop cfg off gEnd fuel dirtyIter s = some r →
      PassLog cfg (base + off) (base + off + cfg.cCopySizeInPages) s r := by
  intro fuel
  induction fuel with
  | zero =>
    intro dirtyIter s r _ _ h
    unfold commitLoop at h
    split_ifs at h
    cases h
    exact passLog_refl _ _ _ s
  | succ fuel ih =>
    intro dirtyIter s r hBase hIter h
    unfold commitLoop at h
    simp only at h
    rw [hBase] at h
    have hDiv : dirtyIter / cfg.cSectorSizeInPages * cfg.cSectorSizeInPages ≤ dirtyIter :=
      Nat.div_mul_le_self _ _
    have hMin1 := Nat.min_le_left gEnd
      (dirtyIter / cfg.cSectorSizeInPages * cfg.cSectorSizeInPages + cfg.tReadAheadSizeInPages)
    split_ifs at h with hDone hFail hOk
    · cases h
      exact passLog_refl _ _ _ s
    · have hLt : dirtyIter < gEnd := Nat.lt_of_le_of_ne hIter hDone
      have hMin2 : dirtyIter / cfg.cSectorSizeInPages * cfg.cSectorSizeInPages ≤ min gEnd
          (dirtyIter / cfg.cSectorSizeInPages * cfg.cSectorSizeInPages
            + cfg.tReadAheadSizeInPages) := by
        rw [Nat.le_min]
        omega
      have hRead := passLog_call cfg (base + off) (base + off + cfg.cCopySizeInPages) s _ _ _
        (readPages_log cfg s
          (base + off + dirtyIter / cfg.cSectorSizeInPages * cfg.cSectorSizeInPages)
          (min gEnd (dirtyIter / cfg.cSectorSizeInPages * cfg.cSectorSizeInPages
            + cfg.tReadAheadSizeInPages)
            - dirtyIter / cfg.cSectorSizeInPages * cfg.cSectorSizeInPages))
        (show base + off ≤ _ ∧ _ ≤ base + off + cfg.cCopySizeInPages by omega)
      cases h
      rw [decide_eq_false hFail] at hRead
      exact hRead
    all_goals
      have hLt : dirtyIter < gEnd := Nat.lt_of_le_of_ne hIter hDone
      have hMin2 : dirtyIter / cfg.cSectorSizeInPages * cfg.cSectorSizeInPages ≤ min gEnd
          (dirtyIter / cfg.cSectorSizeInPages * cfg.cSectorSizeInPages
            + cfg.tReadAheadSizeInPages) := by
        rw [Nat.le_min]
        omega
      have hRead := passLog_call cfg (base + off) (base + off + cfg.cCopySizeInPages) s _ _ _
        (readPages_log cfg s
          (base + off + dirtyIter / cfg.cSectorSizeInPages * cfg.cSectorSizeInPages)
          (min gEnd (dirtyIter / cfg.cSectorSizeInPages * cfg.cSectorSizeInPages
            + cfg.tReadAheadSizeInPages)
            - dirtyIter / cfg.cSectorSizeInPages * cfg.cSectorSizeInPages))
        (show base + off ≤ _ ∧ _ ≤ base + off + cfg.cCopySizeInPages by omega)
      rw [decide_eq_true (not_not.1 hFail)] at hRead
      have hBase1 : (readPages cfg s
          (base + off + dirtyIter / cfg.cSectorSizeInPages * cfg.cSectorSizeInPages)
          (min gEnd (dirtyIter / cfg.cSectorSizeInPages * cfg.cSectorSizeInPages
            + cfg.tReadAheadSizeInPages)
            - dirtyIter / cfg.cSectorSizeInPages * cfg.cSectorSizeInPages)).2.sStartPage
          = base := (readPages_commitKeeps cfg s _ _).1.trans hBase
      have hSecs := commitSectors_log cfg (base + off) (base + off + cfg.cCopySizeInPages) base
        off (dirtyIter / cfg.cSectorSizeInPages)
        (dirtyIter / cfg.cSectorSizeInPages * cfg.cSectorSizeInPages)
        ((min gEnd (dirtyIter / cfg.cSectorSizeInPages * cfg.cSectorSizeInPages
            + cfg.tReadAheadSizeInPages)
            - dirtyIter / cfg.cSectorSizeInPages * cfg.cSectorSizeInPages
          + cfg.cSectorSizeInPages - 1) / cfg.cSectorSizeInPages) 0 _ hBase1
        (by
          intro j _ hj
          have hW := sector_window cfg.cSectorSizeInPages (dirtyIter / cfg.cSectorSizeInPages)
            j _ gEnd cfg.cCopySizeInPages cfg.tReadAheadSizeInPages hS hCopy hEnd rfl
            (by simpa using hj)
          refine ⟨⟨by omega, by omega⟩, ?_⟩
          rw [Nat.add_mul, Nat.add_mul, Nat.div_mul_cancel (Nat.dvd_of_mod_eq_zero hAlign)])
    · have hSecs' := passLog_of_true _ _ _ _ _ hSecs hOk
      have hB := findDirty_bounds s.sDirtyPages
        (gEnd - min gEnd (dirtyIter / cfg.cSectorSizeInPages * cfg.cSectorSizeInPages
          + cfg.tReadAheadSizeInPages))
        (min gEnd (dirtyIter / cfg.cSectorSizeInPages * cfg.cSectorSizeInPages
          + cfg.tReadAheadSizeInPages))
      exact passLog_seq _ _ _ s _ _ hRead
        (passLog_seq _ _ _ _ _ _ hSecs'
          (ih _ _ _ ((commitSectors_startPage cfg _ _ _ _ _ _).trans hBase1) (by omega) h))
    · cases h
      exact passLog_seq _ _ _ s _ _ hRead hSecs

/-- The device calls of one commit pass address the pages of its copy, and the pass returns
`true` when all of them returned `cOk`, `false` when one did not. -/
theorem commitCopy_log (cfg : Params) (hValid : cfg.valid) (s : State) (off : Nat)
    (hAlign : (s.sStartPage + off) % cfg.cSectorSizeInPages = 0) :
    PassLog cfg (s.sStartPage + off) (s.sStartPage + off + cfg.cCopySizeInPages) s
      (commitCopy cfg s off) := by
  have hSec := valid_sector cfg hValid
  have hFuel := commitCopy_fuel cfg hSec.1 hSec.2 s off
  have hB := findDirty_bounds s.sDirtyPages
    (min cfg.cCopySizeInPages ((s.sFirstUsablePage + 1) % 4294967296)) 0
  simp only [commitCopy]
  cases h : commitLoop cfg off (min cfg.cCopySizeInPages ((s.sFirstUsablePage + 1) % 4294967296))
      cfg.cCopySizeInPages
      (findDirty s.sDirtyPages (min cfg.cCopySizeInPages ((s.sFirstUsablePage + 1) % 4294967296)) 0)
      s with
  | none =>
    rw [h] at hFuel
    simp at hFuel
  | some r =>
    exact commitLoop_log cfg s.sStartPage off _ hSec.1 hAlign hValid.2.2.1
      (Nat.min_le_left _ _) _ _ s r rfl (by omega) h

/-- C14: commit ordering and failure reporting.  In dual-copy mode, with the partition on a
sector boundary, the device calls of one `commit()` are a list `lA` followed by a list `lB`:
every call of `lA` addresses pages of copy A, every call of `lB` pages of copy B; if a call
of `lA` returned other than `cOk`, `lB` is empty; if some call returned other than `cOk`,
`commit` reports `cFlashTransferError` and leaves the dirty map as it was; and if all
returned `cOk`, it reports nothing and clears every dirty flag. -/
theorem commit_order_and_report (cfg : Params) (hValid : cfg.valid)
    (hCopies : cfg.tCopies = FlashCopies.c2) (s : State)
    (hAlign : s.sStartPage % cfg.cSectorSizeInPages = 0) :
    ∃ lA lB : List (FlashOp × SpiResult),
      (commit cfg s).sCalls = s.sCalls ++ (lA ++ lB) ∧
      (∀ c ∈ lA, opWithin cfg s.sStartPage (s.sStartPage + cfg.cCopySizeInPages) c.1) ∧
      (∀ c ∈ lB, opWithin cfg (s.sStartPage + cfg.cCopySizeInPages)
        (s.sStartPage + cfg.cCopySizeInPages + cfg.cCopySizeInPages) c.1) ∧
      ((∃ c ∈ lA, c.2 ≠ SpiResult.cOk) → lB = []) ∧
      ((∃ c ∈ lA ++ lB, c.2 ≠ SpiResult.cOk) →
        (commit cfg s).sFatals = s.sFatals ++ [FlashException.cFlashTransferError] ∧
        (commit cfg s).sDirtyPages = s.sDirtyPages) ∧
      ((∀ c ∈ lA ++ lB, c.2 = SpiResult.cOk) →
        (commit cfg s).sFatals = s.sFatals ∧
        ∀ i, i < cfg.cCopySizeInPages → (commit cfg s).sDirtyPages i = false) := by
  have hA := commitCopy_log cfg hValid s 0 (by simpa using hAlign)
  have kA := commitCopy_keeps cfg s 0
  have hB := commitCopy_log cfg hValid (commitCopy cfg s 0).2 cfg.cCopySizeInPages (by
    rw [kA.1, Nat.add_mod, hAlign, hValid.2.2.1]
    simp)
  have kB := commitCopy_keeps cfg (commitCopy cfg s 0).2 cfg.cCopySizeInPages
  rw [kA.1] at hB
  simp only [Nat.add_zero] at hA
  obtain ⟨lA, eA, wA, oA⟩ := hA
  obtain ⟨lB, eB, wB, oB⟩ := hB
  by_cases h1 : (commitCopy cfg s 0).1 = true
  · have aA : ∀ c ∈ lA, c.2 = SpiResult.cOk := oA.1 h1
    have hCommit : commit cfg s =
        if (commitCopy cfg (commitCopy cfg s 0).2 cfg.cCopySizeInPages).1 = true then
          makeAllClean cfg (commitCopy cfg (commitCopy cfg s 0).2 cfg.cCopySizeInPages).2
        else
          fatalError (commitCopy cfg (commitCopy cfg s 0).2 cfg.cCopySizeInPages).2
            FlashException.cFlashTransferError := by
      simp only [commit, h1, hCopies, and_self, if_true]
    refine ⟨lA, lB, ?_, wA, wB, ?_, ?_, ?_⟩
    · rw [hCommit]
      split_ifs
      · show (commitCopy cfg (commitCopy cfg s 0).2 cfg.cCopySizeInPages).2.sCalls = _
        rw [eB, eA, List.append_assoc]
      · show (commitCopy cfg (commitCopy cfg s 0).2 cfg.cCopySizeInPages).2.sCalls = _
        rw [eB, eA, List.append_assoc]
    · rintro ⟨c, hc, hne⟩
      exact absurd (aA c hc) hne
    · rintro ⟨c, hc, hne⟩
      have hcB : c ∈ lB := by
        rcases List.mem_append.1 hc with h | h
        · exact absurd (aA c h) hne
        · exact h
      have h2 : ¬(commitCopy cfg (commitCopy cfg s 0).2 cfg.cCopySizeInPages).1 = true :=
        fun h => hne (oB.1 h c hcB)
      rw [hCommit, if_neg h2]
      refine ⟨?_, ?_⟩
      · show (commitCopy cfg (commitCopy cfg s 0).2 cfg.cCopySizeInPages).2.sFatals ++ _ = _
        rw [kB.2.2.2.2.2.2.1, kA.2.2.2.2.2.2.1]
      · show (commitCopy cfg (commitCopy cfg s 0).2 cfg.cCopySizeInPages).2.sDirtyPages = _
        rw [kB.2.2.1, kA.2.2.1]
    · intro hAll
      have h2 : (commitCopy cfg (commitCopy cfg s 0).2 cfg.cCopySizeInPages).1 = true :=
        oB.2 (fun c hc => hAll c (List.mem_append.2 (Or.inr hc)))
      rw [hCommit, if_pos h2]
      refine ⟨?_, ?_⟩
      · show (commitCopy cfg (commitCopy cfg s 0).2 cfg.cCopySizeInPages).2.sFatals = _
        rw [kB.2.2.2.2.2.2.1, kA.2.2.2.2.2.2.1]
      · intro i hi
        simp [makeAllClean, hi]
  · have hCommit : commit cfg s
        = fatalError (commitCopy cfg s 0).2 FlashException.cFlashTransferError := by
      simp only [commit, h1, false_and, if_false]
      simp [h1]
    have hBad : ∃ c ∈ lA, c.2 ≠ SpiResult.cOk := by
      by_contra hNone
      push_neg at hNone
      exact h1 (oA.2 hNone)
    refine ⟨lA, [], ?_, wA, ?_, fun _ => rfl, ?_, ?_⟩
    · rw [hCommit, List.append_nil]
      exact eA
    · intro c hc
      simp at hc
    · intro _
      rw [hCommit]
      refine ⟨?_, ?_⟩
      · show (commitCopy cfg s 0).2.sFatals ++ _ = _
        rw [kA.2.2.2.2.2.2.1]
      · show (commitCopy cfg s 0).2.sDirtyPages = _
        rw [kA.2.2.1]
    · intro hAll
      obtain ⟨c, hc, hne⟩ := hBad
      exact absurd (hAll c (List.mem_append.2 (Or.inl hc))) hne

/-- C32: verification passes are read-only.  For every page and every engine state,
`processPage` with the task `cCheckFf` returns the state it was given (so `sNextId`, the
cursor, every cache entry and the dirty map are as before), and `processPage` with the task
`cCheck` changes neither `sNextId` nor any cache entry; `commit`, whose passes call
`processPage` with `cCheckFf` only, alters neither `sNextId`, nor the cursor, nor any cache
entry. -/
theorem verification_passes_read_only (cfg : Params) (s : State) (aPage : Mem) (idx : Nat) :
    (processPage cfg s aPage idx Task.cCheckFf).2 = s ∧
    (processPage cfg s aPage idx Task.cCheck).2.sNextId = s.sNextId ∧
    (processPage cfg s aPage idx Task.cCheck).2.sCache = s.sCache ∧
    (commit cfg s).sNextId = s.sNextId ∧
    (commit cfg s).sFirstUsablePage = s.sFirstUsablePage ∧
    (commit cfg s).sFirstUsableByteIndex = s.sFirstUsableByteIndex ∧
    (commit cfg s).sCache = s.sCache := by
  obtain ⟨h1, h2⟩ := processPage_noCopy cfg s aPage idx Task.cCheck (by decide)
  obtain ⟨k1, k2, k3, k4, _⟩ := commit_keeps cfg s
  exact ⟨processPage_checkFf cfg s aPage idx, h1, h2, k1, k3, k4, k2⟩


/-- C26: page classification by `processPage`, for every page, state, page index and task.
If byte 0 is 0xFF the result is `cErased` under the tasks `cCopy` and `cCheck`, and under
`cCheckFf` it is `cErased` if all `cPageSizeInBytes` bytes are 0xFF and `cErrorConsistency`
otherwise; if byte 0 is neither 0x00 nor 0xFF the result is `cErrorConsistency`; if byte 0 is
0x00 and the stored checksum differs from `calculateChecksum` of the page the result is
`cErrorChecksum`, whatever the item count field holds; if byte 0 is 0x00, the checksum
matches and the item count field is 0 or 0xFFFF the result is `cErrorConsistency`.  In each
of these cases the state returned is the state given. -/
theorem processPage_classification (cfg : Params) (s : State) (aPage : Mem) (idx : Nat)
    (aTask : Task) :
    (aPage 0 = 0xff → aTask ≠ Task.cCheckFf →
      processPage cfg s aPage idx aTask = (ReadResult.cErased, s)) ∧
    (aPage 0 = 0xff → (∀ k, k < cfg.cPageSizeInBytes → aPage k = 0xff) →
      processPage cfg s aPage idx Task.cCheckFf = (ReadResult.cErased, s)) ∧
    (aPage 0 = 0xff → (∃ k, k < cfg.cPageSizeInBytes ∧ aPage k ≠ 0xff) →
      processPage cfg s aPage idx Task.cCheckFf = (ReadResult.cErrorConsistency, s)) ∧
    (aPage 0 ≠ 0x00 → aPage 0 ≠ 0xff →
      processPage cfg s aPage idx aTask = (ReadResult.cErrorConsistency, s)) ∧
    (aPage 0 = 0x00 →
      getValue (ptrAdd aPage 3) ≠ calculateChecksum cfg.cPageSizeInBytes aPage →
      processPage cfg s aPage idx aTask = (ReadResult.cErrorChecksum, s)) ∧
    (aPage 0 = 0x00 →
      getValue (ptrAdd aPage 3) = calculateChecksum cfg.cPageSizeInBytes aPage →
      getValue (ptrAdd aPage 1) = 0 ∨ getValue (ptrAdd aPage 1) = 0xffff →
      processPage cfg s aPage idx aTask = (ReadResult.cErrorConsistency, s)) := by
  have e0 : cOffsetPageMagic = 0 := rfl
  have e1 : cOffsetPageCount = 1 := rfl
  have e3 : cOffsetPageChecksum = 3 := rfl
  have eE : cMagicErased = 0xff := rfl
  have eC : cMagicConfig = 0 := rfl
  have eU : cUnusedValue = 0xffff := rfl
  refine ⟨?_, ?_, ?_, ?_, ?_, ?_⟩
  · intro h hT
    simp only [processPage, e0, eE, h, if_true, if_neg hT]
  · intro h hAll
    have hA : (List.range cfg.cPageSizeInBytes).all (fun k => aPage k == 0xff) = true := by
      rw [List.all_eq_true]
      intro k hk
      simpa using hAll k (List.mem_range.mp hk)
    simp only [processPage, e0, eE, h, if_true, hA]
  · intro h hEx
    obtain ⟨k, hk, hne⟩ := hEx
    have hA : ¬ (List.range cfg.cPageSizeInBytes).all (fun k => aPage k == 0xff) = true := by
      rw [List.all_eq_true]
      intro hAll
      have := hAll k (List.mem_range.mpr hk)
      exact hne (by simpa using this)
    simp only [processPage, e0, eE, h, if_true, if_neg hA]
  · intro h0 hF
    simp only [processPage, e0, eE, eC, if_neg hF, if_neg h0]
  · intro h0 hSum
    have hF : ¬ ((0 : Nat) = 0xff) := by decide
    have hS : calculateChecksum cfg.cPageSizeInBytes aPage ≠ getValue (ptrAdd aPage 3) :=
      fun h => hSum h.symm
    simp only [processPage, e0, eE, eC, e3, h0, if_neg hF, if_true, if_pos hS]
  · intro h0 hSum hCnt
    have hF : ¬ ((0 : Nat) = 0xff) := by decide
    have hS : ¬ calculateChecksum cfg.cPageSizeInBytes aPage ≠ getValue (ptrAdd aPage 3) :=
      fun h => h hSum.symm
    simp only [processPage, e0, e1, eE, eC, e3, eU, h0, if_neg hF, if_true, if_neg hS, if_pos hCnt]

/-! ## Termination and the number of device reads -/

theorem countReads_append (l1 l2 : List (FlashOp × SpiResult)) :
    countReads (l1 ++ l2) = countReads l1 + countReads l2 := by
  induction l1 with
  | nil => simp [countReads]
  | cons c l ih =>
    obtain ⟨op, res⟩ := c
    cases op <;> simp [countReads, ih]
    omega

theorem pagesRequested_append (l1 l2 : List (FlashOp × SpiResult)) :
    pagesRequested (l1 ++ l2) = pagesRequested l1 + pagesRequested l2 := by
  induction l1 with
  | nil => simp [pagesRequested]
  | cons c l ih =>
    obtain ⟨op, res⟩ := c
    cases op <;> simp [pagesRequested, ih]
    omega

theorem noReads_refl (s : State) : NoReads s s := ⟨[], by simp, rfl⟩

theorem noReads_trans (a b c : State) (h1 : NoReads a b) (h2 : NoReads b c) : NoReads a c := by
  obtain ⟨l1, e1, c1⟩ := h1
  obtain ⟨l2, e2, c2⟩ := h2
  exact ⟨l1 ++ l2, by rw [e2, e1, List.append_assoc], by rw [countReads_append, c1, c2]⟩

/-- The sector loop of a commit pass makes no `readPages` call. -/
theorem commitSectors_noReads (cfg : Params) (off startSector startPage n sectorIndex : Nat)
    (s : State) : NoReads s (commitSectors cfg off startSector startPage n sectorIndex s).2 :=
  commitSectors_rel cfg NoReads noReads_refl noReads_trans
    (fun s _ _ => ⟨[], by simp [serialize_calls], rfl⟩)
    (fun s p d => ⟨_, writePage_log cfg s p d, rfl⟩)
    (fun s a => ⟨_, eraseSector_log cfg s a, rfl⟩) off startSector startPage n sectorIndex s

theorem reads_chain_last (s : State) (rd : SpiResult × State) (t : State) (a n : Nat)
    (h1 : rd.2.sCalls = s.sCalls ++ [(FlashOp.readPages a n, rd.1)]) (h2 : NoReads rd.2 t) :
    ∃ l : List (FlashOp × SpiResult), t.sCalls = s.sCalls ++ l ∧ countReads l ≤ 1 := by
  obtain ⟨l2, e2, c2⟩ := h2
  refine ⟨[(FlashOp.readPages a n, rd.1)] ++ l2, ?_, ?_⟩
  · rw [e2, h1, List.append_assoc]
  · rw [countReads_append, c2]
    simp [countReads]

theorem reads_chain (s : State) (rd : SpiResult × State) (t : State) (r : Bool × State)
    (a n k : Nat)
    (h1 : rd.2.sCalls = s.sCalls ++ [(FlashOp.readPages a n, rd.1)]) (h2 : NoReads rd.2 t)
    (h3 : ∃ l : List (FlashOp × SpiResult), r.2.sCalls = t.sCalls ++ l ∧ countReads l ≤ k) :
    ∃ l : List (FlashOp × SpiResult), r.2.sCalls = s.sCalls ++ l ∧ countReads l ≤ k + 1 := by
  obtain ⟨l2, e2, c2⟩ := reads_chain_last s rd t a n h1 h2
  obtain ⟨l3, e3, c3⟩ := h3
  refine ⟨l2 ++ l3, ?_, ?_⟩
  · rw [e3, e2, List.append_assoc]
  · rw [countReads_append]
    omega

/-- The loop of `commit(uint32_t)` makes at most one `readPages` call in each round. -/
theorem commitLoop_reads (cfg : Params) (off globalEnd : Nat) :
    ∀ (fuel dirtyIter : Nat) (s : State) (r : Bool × State),
      commitLoop cfg off globalEnd fuel dirtyIter s = some r →
      ∃ l : List (FlashOp × SpiResult), r.2.sCalls = s.sCalls ++ l ∧ countReads l ≤ fuel := by
  intro fuel
  induction fuel with
  | zero =>
    intro dirtyIter s r h
    unfold commitLoop at h
    split_ifs at h
    cases h
    exact ⟨[], by simp, Nat.le_refl _⟩
  | succ fuel ih =>
    intro dirtyIter s r h
    unfold commitLoop at h
    simp only at h
    split_ifs at h
    · cases h; exact ⟨[], by simp, Nat.zero_le _⟩
    · cases h
      exact ⟨_, readPages_log cfg s _ _, by simp [countReads]⟩
    · exact reads_chain s _ _ r _ _ fuel (readPages_log cfg s _ _)
        (commitSectors_noReads cfg off _ _ _ 0 _) (ih _ _ _ h)
    · have hr := Option.some.inj h
      rw [← hr]
      obtain ⟨l, e, c⟩ := reads_chain_last s _ _ _ _ (readPages_log cfg s _ _)
        (commitSectors_noReads cfg off _ _ _ 0 _)
      exact ⟨l, e, by omega⟩

theorem round_bound (copy p ra : Nat) (hRA : 0 < ra) (hm : 0 < min ra (copy - p)) :
    (copy - (p + min ra (copy - p)) + ra - 1) / ra + 1 ≤ (copy - p + ra - 1) / ra := by
  by_cases h : ra ≤ copy - p
  · rw [Nat.min_eq_left h]
    have e : copy - p + ra - 1 = (copy - (p + ra) + ra - 1) + ra := by omega
    rw [e, Nat.add_div_right _ hRA]
  · have h2 : copy - p ≤ ra := by omega
    rw [Nat.min_eq_right h2] at hm ⊢
    have e : copy - (p + (copy - p)) + ra - 1 = ra - 1 := by omega
    rw [e, Nat.div_eq_of_lt (by omega)]
    have : 1 * ra ≤ copy - p + ra - 1 := by omega
    exact (Nat.le_div_iff_mul_le hRA).mpr this

theorem processPage_calls (cfg : Params) (aTask : Task) (s : State) (aPage : Mem) (idx : Nat) :
    (processPage cfg s aPage idx aTask).2.sCalls = s.sCalls :=
  congrArg FlashInterface.sCalls (processPage_sameOutside cfg s aPage idx aTask).1

theorem readAcopyPages_calls (cfg : Params) (aTask : Task) (pagesRead n pageIndex : Nat)
    (s : State) : (readAcopyPages cfg aTask pagesRead n pageIndex s).2.sCalls = s.sCalls :=
  readAcopyPages_rel cfg aTask (fun s t => t.sCalls = s.sCalls) (fun _ => rfl)
    (fun _ _ _ h1 h2 => h2.trans h1) (fun s aPage idx => processPage_calls cfg aTask s aPage idx)
    pagesRead n pageIndex s

/-- The loop of `readAcopy` makes only `readPages` calls: at most one more than the chunks
of `tReadAheadSizeInPages` pages that cover the rest of the copy, and for no more than the
pages left of the copy. -/
theorem readAcopyLoop_reads (cfg : Params) (hRA : 0 < cfg.tReadAheadSizeInPages)
    (off : Nat) (aTask : Task) :
    ∀ (fuel pagesRead : Nat) (s : State) (r : ReadResult × State),
      readAcopyLoop cfg off aTask fuel pagesRead s = some r →
      ∃ l : List (FlashOp × SpiResult), r.2.sCalls = s.sCalls ++ l ∧
        countReads l = l.length ∧
        l.length ≤ (cfg.cCopySizeInPages - pagesRead + cfg.tReadAheadSizeInPages - 1)
          / cfg.tReadAheadSizeInPages + 1 ∧
        pagesRequested l ≤ cfg.cCopySizeInPages - pagesRead := by
  intro fuel
  induction fuel with
  | zero => intro pagesRead s r h; simp [readAcopyLoop] at h
  | succ fuel ih =>
    intro pagesRead s r h
    have hMin := Nat.min_le_right cfg.tReadAheadSizeInPages (cfg.cCopySizeInPages - pagesRead)
    have one : ∀ t : State, t.sCalls = (readPages cfg s (s.sStartPage + off + pagesRead)
          (min cfg.tReadAheadSizeInPages (cfg.cCopySizeInPages - pagesRead))).2.sCalls →
        ∃ l : List (FlashOp × SpiResult), t.sCalls = s.sCalls ++ l ∧
          countReads l = l.length ∧
          l.length ≤ (cfg.cCopySizeInPages - pagesRead + cfg.tReadAheadSizeInPages - 1)
            / cfg.tReadAheadSizeInPages + 1 ∧
          pagesRequested l ≤ cfg.cCopySizeInPages - pagesRead := by
      intro t ht
      refine ⟨_, ht.trans (readPages_log cfg s _ _), ?_, ?_, ?_⟩
      · simp [countReads]
      · simp
      · simp [pagesRequested]
    simp only [readAcopyLoop] at h
    split_ifs at h with h1 h2 h3
    · cases h; exact one _ rfl
    · obtain ⟨l, e, c, b, q⟩ := ih _ _ _ h
      rw [readAcopyPages_calls, readPages_log, List.append_assoc] at e
      refine ⟨_, e, ?_, ?_, ?_⟩
      · simp [countReads, c]
      · have := round_bound cfg.cCopySizeInPages pagesRead cfg.tReadAheadSizeInPages hRA h2
        simp only [List.length_append, List.length_singleton]
        omega
      · rw [pagesRequested_append]
        simp only [pagesRequested]
        omega
    · cases h
      exact one _ (readAcopyPages_calls cfg aTask _ _ _ _)
    · cases h; exact one _ rfl

/-- C33: `commit` and reading a copy terminate, in every valid instantiation, for every
state (so every dirty map, cursor and schedule of device failures), copy offset and task.
The scan loop of a commit pass strictly advances: in a round started at the dirty page
`dirtyIter` below `globalEndPageIndex`, the end page of the chunk is greater than
`dirtyIter`, and the dirty page searched for next lies at or beyond that end page and not
beyond `globalEndPageIndex`; a round that reads and handles its chunk without failure
continues with that page.  So the loop returns within `globalEndPageIndex - dirtyIter`
rounds, it makes at most one `readPages` call per round, and a pass returns within
`cCopySizeInPages` rounds with at most `cCopySizeInPages` calls of `readPages`.  Reading a
copy returns within the rounds it is given; the device calls it makes are `readPages` calls
only, at most `ceil(cCopySizeInPages / tReadAheadSizeInPages) + 1` of them, and they ask
for at most `cCopySizeInPages` pages in all, which are the pages it processes. -/
theorem commit_and_read_terminate (cfg : Params) (hValid : cfg.valid) (s : State) (off : Nat)
    (aTask : Task) :
    (∀ globalEnd dirtyIter endPage : Nat, dirtyIter < globalEnd →
      endPage = min globalEnd (dirtyIter / cfg.cSectorSizeInPages * cfg.cSectorSizeInPages
        + cfg.tReadAheadSizeInPages) →
      dirtyIter < endPage ∧
      endPage ≤ findDirty s.sDirtyPages (globalEnd - endPage) endPage ∧
      findDirty s.sDirtyPages (globalEnd - endPage) endPage ≤ globalEnd) ∧
    (∀ fuel globalEnd dirtyIter startPage endPage : Nat, dirtyIter ≠ globalEnd →
      startPage = dirtyIter / cfg.cSectorSizeInPages * cfg.cSectorSizeInPages →
      endPage = min globalEnd (startPage + cfg.tReadAheadSizeInPages) →
      ∀ rd : SpiResult × State,
        readPages cfg s (s.sStartPage + off + startPage) (endPage - startPage) = rd →
        rd.1 = SpiResult.cOk →
      ∀ r : Bool × State,
        commitSectors cfg off (dirtyIter / cfg.cSectorSizeInPages) startPage
          ((endPage - startPage + cfg.cSectorSizeInPages - 1) / cfg.cSectorSizeInPages) 0 rd.2
          = r →
        r.1 = true →
        commitLoop cfg off globalEnd (fuel + 1) dirtyIter s
          = commitLoop cfg off globalEnd fuel
              (findDirty s.sDirtyPages (globalEnd - endPage) endPage) r.2) ∧
    (∀ globalEnd dirtyIter : Nat, dirtyIter ≤ globalEnd →
      ∃ r, commitLoop cfg off globalEnd (globalEnd - dirtyIter) dirtyIter s = some r) ∧
    (∀ (fuel globalEnd dirtyIter : Nat) (r : Bool × State),
      commitLoop cfg off globalEnd fuel dirtyIter s = some r →
      ∃ l : List (FlashOp × SpiResult), r.2.sCalls = s.sCalls ++ l ∧ countReads l ≤ fuel) ∧
    (∃ r, commitLoop cfg off (min cfg.cCopySizeInPages ((s.sFirstUsablePage + 1) % 4294967296))
        cfg.cCopySizeInPages
        (findDirty s.sDirtyPages
          (min cfg.cCopySizeInPages ((s.sFirstUsablePage + 1) % 4294967296)) 0) s = some r ∧
      commitCopy cfg s off = r ∧
      ∃ l : List (FlashOp × SpiResult), (commitCopy cfg s off).2.sCalls = s.sCalls ++ l ∧
        countReads l ≤ cfg.cCopySizeInPages) ∧
    (∃ r, readAcopyLoop cfg off aTask (cfg.cCopySizeInPages + 1) 0
        { s with sFirstUsablePage := 0, sFirstUsableByteIndex := cOffsetPageItems } = some r ∧
      (readAcopy cfg s off aTask).2 = r.2) ∧
    (∃ l : List (FlashOp × SpiResult), (readAcopy cfg s off aTask).2.sCalls = s.sCalls ++ l ∧
      countReads l = l.length ∧
      l.length ≤ (cfg.cCopySizeInPages + cfg.tReadAheadSizeInPages - 1)
        / cfg.tReadAheadSizeInPages + 1 ∧
      pagesRequested l ≤ cfg.cCopySizeInPages) := by
  obtain ⟨hS, hRA⟩ := valid_sector cfg hValid
  have hRA0 : 0 < cfg.tReadAheadSizeInPages := Nat.lt_of_lt_of_le hS hRA
  refine ⟨?_, ?_, ?_, ?_, ?_, ?_, ?_⟩
  · intro globalEnd dirtyIter endPage hLt hEnd
    have hDiv : dirtyIter < dirtyIter / cfg.cSectorSizeInPages * cfg.cSectorSizeInPages
        + cfg.cSectorSizeInPages := Nat.lt_div_mul_add hS
    have hB := findDirty_bounds s.sDirtyPages (globalEnd - endPage) endPage
    have hMin : endPage ≤ globalEnd := by rw [hEnd]; exact Nat.min_le_left _ _
    have hGt : dirtyIter < endPage := by
      rw [hEnd, Nat.lt_min]
      omega
    exact ⟨hGt, hB.1, by omega⟩
  · intro fuel globalEnd dirtyIter startPage endPage hNe hStart hEnd rd hRd hOk r hR hTrue
    subst hStart hEnd hRd hR
    conv => lhs; unfold commitLoop
    simp only [if_neg hNe, hOk, ne_eq, not_true_eq_false, if_false, hTrue, if_true]
  · intro globalEnd dirtyIter h
    exact Option.isSome_iff_exists.mp
      (commitLoop_isSome cfg hS hRA off globalEnd _ dirtyIter s h (Nat.le_refl _))
  · intro fuel globalEnd dirtyIter r h
    exact commitLoop_reads cfg off globalEnd fuel dirtyIter s r h
  · obtain ⟨r, hr⟩ := Option.isSome_iff_exists.mp (commitCopy_fuel cfg hS hRA s off)
    have hc : commitCopy cfg s off = r := by simp only [commitCopy, hr]
    refine ⟨r, hr, hc, ?_⟩
    rw [hc]
    exact commitLoop_reads cfg off _ _ _ s r hr
  · obtain ⟨r, hr⟩ := Option.isSome_iff_exists.mp (readAcopy_fuel cfg
      { s with sFirstUsablePage := 0, sFirstUsableByteIndex := cOffsetPageItems } off aTask)
    exact ⟨r, hr, by simp only [readAcopy, hr]⟩
  · obtain ⟨r, hr⟩ := Option.isSome_iff_exists.mp (readAcopy_fuel cfg
      { s with sFirstUsablePage := 0, sFirstUsableByteIndex := cOffsetPageItems } off aTask)
    have hc : (readAcopy cfg s off aTask).2 = r.2 := by simp only [readAcopy, hr]
    rw [hc]
    have h := readAcopyLoop_reads cfg hRA0 off aTask _ 0 _ r hr
    simpa using h

/-! ## The partitioner -/

/-- The layout when the sum of the sizes does not wrap.  `FlashPartitioner::init` passes the
base page 0 to plugin 1, `n1` to plugin 2 and `n1 + n2` to plugin 3, where `ni` is
`getPagesNeeded()` of plugin `i` (with `FlashConfig` as the only plugin it is
`FlashConfig::init(0)`).  When `n1 + n2 + n3 ≤ flashSizeInPages` over the naturals, the
`static_assert` on the sum holds as the compiler evaluates it, every page of the three ranges
`[base_i, base_i + n_i)` lies inside `[0, flashSizeInPages)`, no page lies in two of the
ranges, and each base is a multiple of the sector size when every `ni` is. -/
theorem partition_layout (cFlashSizeInPages cSectorSizeInPages n1 n2 n3 : Nat)
    (cfg : Params) (s : State)
    (hFlash : cFlashSizeInPages < 4294967296)
    (hFit : n1 + n2 + n3 ≤ cFlashSizeInPages) :
    FlashPartitioner.init (recordingPlugin 1 n1) (recordingPlugin 2 n2) (recordingPlugin 3 n3) []
      = [(1, 0), (2, n1), (3, n1 + n2)] ∧
    FlashPartitioner.init (configPlugin cfg) (NullPlugin State) (NullPlugin State) s
      = init cfg s 0 ∧
    ((n1 % cSectorSizeInPages = 0 ∧ n2 % cSectorSizeInPages = 0 ∧ n3 % cSectorSizeInPages = 0) ↔
      FlashPartitioner.valid cFlashSizeInPages cSectorSizeInPages
        (recordingPlugin 1 n1) (recordingPlugin 2 n2) (recordingPlugin 3 n3)) ∧
    (∀ page, inPartition 0 n1 page ∨ inPartition n1 n2 page ∨ inPartition (n1 + n2) n3 page →
      page < cFlashSizeInPages) ∧
    (∀ page, ¬ (inPartition 0 n1 page ∧ inPartition n1 n2 page) ∧
      ¬ (inPartition 0 n1 page ∧ inPartition (n1 + n2) n3 page) ∧
      ¬ (inPartition n1 n2 page ∧ inPartition (n1 + n2) n3 page)) ∧
    (n1 % cSectorSizeInPages = 0 → n2 % cSectorSizeInPages = 0 → n3 % cSectorSizeInPages = 0 →
      0 % cSectorSizeInPages = 0 ∧ n1 % cSectorSizeInPages = 0 ∧
      (n1 + n2) % cSectorSizeInPages = 0) := by
  have h12 : (n1 + n2) % 4294967296 = n1 + n2 := Nat.mod_eq_of_lt (by omega)
  have h123 : (n1 + n2 + n3) % 4294967296 = n1 + n2 + n3 := Nat.mod_eq_of_lt (by omega)
  refine ⟨?_, rfl, ?_, ?_, ?_, ?_⟩
  · simp [FlashPartitioner.init, recordingPlugin, h12]
  · simp only [FlashPartitioner.valid, recordingPlugin, h12, h123]
    constructor
    · intro h; exact ⟨hFit, h⟩
    · intro h; exact h.2
  · intro page h
    unfold inPartition at h
    omega
  · intro page
    unfold inPartition
    omega
  · intro a1 a2 _
    refine ⟨Nat.zero_mod _, a1, ?_⟩
    rw [Nat.add_mod, a1, a2]
    simp

/-- C23 (failing input): the `static_assert` on the sum of the partition sizes is evaluated
in `uint32_t`, so sizes whose sum wraps pass it although the partitions do not fit the flash.
On the flash of the test interface (65536 pages, sectors of 16 pages) the sizes
`n1 = n2 = 2^31`, `n3 = 0` pass every `static_assert` on the sizes (the sum wraps to 0, each
size is a multiple of 16), while `n1 + n2 + n3` exceeds the flash size;
`FlashPartitioner::init` passes the base 0 to plugin 1, `2^31` to plugin 2 and, the sum of
the first two sizes wrapping, 0 to plugin 3; page 65536 of the range of plugin 1 and the
first page `2^31` of the range of plugin 2 lie outside `[0, flashSizeInPages)`. -/
theorem partition_assert_wraps :
    FlashPartitioner.valid 65536 16 (recordingPlugin 1 2147483648)
      (recordingPlugin 2 2147483648) (recordingPlugin 3 0) ∧
    ¬ (2147483648 + 2147483648 + 0 ≤ 65536) ∧
    FlashPartitioner.init (recordingPlugin 1 2147483648) (recordingPlugin 2 2147483648)
      (recordingPlugin 3 0) [] = [(1, 0), (2, 2147483648), (3, 0)] ∧
    (inPartition 0 2147483648 65536 ∧ ¬ (65536 < 65536)) ∧
    (inPartition 2147483648 2147483648 2147483648 ∧ ¬ (2147483648 < 65536)) := by
  decide

/-- The layout for partitions of 4096, 2048 and 1024 pages on a flash of 65536 pages. -/
theorem partition_layout_witness :
    ((65536 : Nat) < 4294967296 ∧ 4096 + 2048 + 1024 ≤ 65536) ∧
    FlashPartitioner.init (recordingPlugin 1 4096) (recordingPlugin 2 2048)
      (recordingPlugin 3 1024) [] = [(1, 0), (2, 4096), (3, 6144)] ∧
    (∀ page, inPartition 0 4096 page ∨ inPartition 4096 2048 page ∨
      inPartition (4096 + 2048) 1024 page → page < 65536) :=
  ⟨⟨by decide, by decide⟩,
   (partition_layout 65536 16 4096 2048 1024 testParams powerOn (by decide) (by decide)).1,
   (partition_layout 65536 16 4096 2048 1024 testParams powerOn (by decide)
     (by decide)).2.2.2.1⟩

/-! ## The two copies after a commit -/

/-- An address `x * P + i` with `i < P` lies in the page `y` exactly when `x = y`. -/
theorem in_page_iff (P x y i : Nat) (hi : i < P) :
    (y * P ≤ x * P + i ∧ x * P + i < y * P + P) ↔ x = y := by
  constructor
  · rintro ⟨h1, h2⟩
    rcases Nat.lt_trichotomy x y with h | h | h
    · have : (x + 1) * P ≤ y * P := Nat.mul_le_mul_right P h
      rw [Nat.add_mul, Nat.one_mul] at this
      omega
    · exact h
    · have : (y + 1) * P ≤ x * P := Nat.mul_le_mul_right P h
      rw [Nat.add_mul, Nat.one_mul] at this
      omega
  · intro h
    subst h
    omega

theorem writePage_ok (cfg : Params) (s : State) (aPage : Nat) (aData : Mem)
    (hFault : s.sFaults s.sCalls.length = false) (hIn : aPage < cfg.cFlashSizeInPages) :
    writePage cfg s aPage aData =
      (SpiResult.cOk,
       logCall
         { s with
           sMemoryFlash :=
             copyN aData cfg.cPageSizeInBytes s.sMemoryFlash (aPage * cfg.cPageSizeInBytes) }
         (FlashOp.writePage aPage) SpiResult.cOk) := by
  simp [writePage, hFault, hIn]

theorem eraseSector_ok (cfg : Params) (s : State) (aSector : Nat)
    (hFault : s.sFaults s.sCalls.length = false)
    (hIn : aSector < cfg.cFlashSizeInPages / cfg.cSectorSizeInPages) :
    eraseSector cfg s aSector =
      (SpiResult.cOk,
       logCall
         { s with
           sMemoryFlash :=
             copyN (fun _ => cMagicErased) (cfg.cPageSizeInBytes * cfg.cSectorSizeInPages)
               s.sMemoryFlash (aSector * (cfg.cPageSizeInBytes * cfg.cSectorSizeInPages)) }
         (FlashOp.eraseSector aSector) SpiResult.cOk) := by
  simp [eraseSector, hFault, hIn]

/-- The loop of `serialize` writes inside the page it fills, so at and after the end of
the page it writes nothing. -/
theorem serializeItems_above (cfg : Params) (hValid : cfg.valid) (s : State) (page : Nat)
    (hFit : ∀ id, id < s.sNextId → (s.sCache id).getCount ≤ cfg.cMaxItemDataSize) :
    ∀ (n id count nis : Nat) (buffer : Mem) (a : Nat),
      page + cfg.cPageSizeInBytes ≤ a →
      (serializeItems cfg s page n id count nis buffer).2 a = buffer a := by
  have hP1 : 256 ≤ cfg.cPageSizeInBytes := hValid.2.2.2.2.2.2.2.2.1
  have hP2 : cfg.cPageSizeInBytes ≤ 32768 := hValid.2.2.2.2.2.2.2.2.2.1
  have hMax := cMaxItemDataSize_eq cfg hP1 (by omega)
  intro n
  induction n with
  | zero => intro id count nis buffer a _; rfl
  | succ n ih =>
    intro id count nis buffer a ha
    simp only [serializeItems]
    split_ifs with hc
    · have hCount := hFit id hc.1
      have hLt := hc.2
      rw [hMax] at hCount
      simp only [cOffsetItemData_eq, int16ToUint32] at hLt
      have hSmall : nis < 32768 := by
        by_contra hBig
        rw [if_neg hBig] at hLt
        omega
      rw [if_pos hSmall] at hLt
      have hOff : int16Offset page nis = page + nis := by simp [int16Offset, hSmall]
      have hOff1 : int16Offset page ((nis + cOffsetItemData) % 65536) = page + nis + 4 := by
        simp only [int16Offset, cOffsetItemData_eq]
        rw [if_pos (by omega)]
        omega
      rw [ih _ _ _ _ _ ha, hOff, hOff1]
      simp only [copyN, cOffsetItemId, cOffsetItemCount]
      have hc2 : (s.sCache id).getCount ≤ cfg.cPageSizeInBytes - 9 := hCount
      rw [if_neg (by omega), setValue_other _ _ _ _ (by omega) (by omega),
        setValue_other _ _ _ _ (by omega) (by omega)]
    · rfl

/-- The function `serialize` changes the read-ahead buffer inside the page it fills only,
when the items to write are no longer than `cMaxItemDataSize`. -/
theorem serialize_outside (cfg : Params) (hValid : cfg.valid) (s : State) (sp q : Nat)
    (hFit : ∀ id, id < s.sNextId → (s.sCache id).getCount ≤ cfg.cMaxItemDataSize) (a : Nat)
    (ha : a < q * cfg.cPageSizeInBytes ∨ q * cfg.cPageSizeInBytes + cfg.cPageSizeInBytes ≤ a) :
    (serialize cfg s sp q).sReadAheadBuffer a = s.sReadAheadBuffer a := by
  have hP1 : 256 ≤ cfg.cPageSizeInBytes := hValid.2.2.2.2.2.2.2.2.1
  have h3 : cOffsetPageChecksum = 3 := rfl
  have h1 : cOffsetPageCount = 1 := rfl
  have h0 : cOffsetPageMagic = 0 := rfl
  simp only [serialize]
  rw [setValue_other _ _ _ _ (by omega) (by omega),
    setValue_other _ _ _ _ (by omega) (by omega)]
  rcases ha with ha | ha
  · rw [serializeItems_below cfg hValid s _ hFit _ _ _ _ _ _ (le_refl _)
      (by rw [cOffsetPageItems_eq]; omega)]
    simp only [upd]
    rw [if_neg (by omega)]
  · rw [serializeItems_above cfg hValid s _ hFit _ _ _ _ _ _ ha]
    simp only [upd]
    rw [if_neg (by omega)]

/-- The loop of `serialize` reads the state through the cache and `sNextId` only. -/
theorem serializeItems_iface (cfg : Params) (c : FlashConfig) (i1 i2 : FlashInterface)
    (page : Nat) :
    ∀ (n id count nis : Nat) (buffer : Mem),
      serializeItems cfg (State.mk c i1) page n id count nis buffer
        = serializeItems cfg (State.mk c i2) page n id count nis buffer := by
  intro n
  induction n with
  | zero => intro id count nis buffer; rfl
  | succ n ih =>
    intro id count nis buffer
    simp only [serializeItems]
    rw [ih]

/-- The function `serialize` neither reads nor changes the interface part of the state. -/
theorem serialize_iface (cfg : Params) (c : FlashConfig) (i1 i2 : FlashInterface)
    (sp q : Nat) :
    (serialize cfg (State.mk c i1) sp q).toFlashConfig
      = (serialize cfg (State.mk c i2) sp q).toFlashConfig ∧
    (serialize cfg (State.mk c i1) sp q).toFlashInterface = i1 := by
  constructor
  · simp only [serialize]
    rw [serializeItems_iface cfg c i1 i2]
  · rfl

/-- Under the task `cCheckFf` the result of the item loop of `processPage` does not depend
on the interface part of the state. -/
theorem processItems_iface (cfg : Params) (aPage : Mem) (idx : Nat) (i1 i2 : FlashInterface) :
    ∀ (n nis : Nat) (result : ReadResult) (c : FlashConfig),
      (processItems cfg aPage idx Task.cCheckFf n nis result (State.mk c i1)).1
        = (processItems cfg aPage idx Task.cCheckFf n nis result (State.mk c i2)).1 := by
  intro n
  induction n with
  | zero => intro nis result c; rfl
  | succ n ih =>
    intro nis result c
    simp only [processItems]
    split
    · rfl
    · simp only [reduceCtorEq, and_false, if_false, if_true]
      exact ih _ _ _

/-- Under the task `cCheckFf` the result of `processPage` does not depend on the interface
part of the state. -/
theorem processPage_iface (cfg : Params) (aPage : Mem) (idx : Nat) (c : FlashConfig)
    (i1 i2 : FlashInterface) :
    (processPage cfg (State.mk c i1) aPage idx Task.cCheckFf).1
      = (processPage cfg (State.mk c i2) aPage idx Task.cCheckFf).1 := by
  simp only [processPage]
  split_ifs <;> first | rfl | exact processItems_iface cfg aPage idx i1 i2 _ _ _ _

/-- The classification of a sector in `commit(uint32_t)` does not depend on the interface
part of the state. -/
theorem commitCheckSector_iface (cfg : Params) (startPage sectorIndex : Nat) (c : FlashConfig)
    (i1 i2 : FlashInterface) :
    ∀ (n pageIndex : Nat) (a b : Bool),
      (commitCheckSector cfg startPage sectorIndex n pageIndex a b (State.mk c i1)).1
        = (commitCheckSector cfg startPage sectorIndex n pageIndex a b (State.mk c i2)).1 := by
  intro n
  induction n with
  | zero => intro pageIndex a b; rfl
  | succ n ih =>
    intro pageIndex a b
    simp only [commitCheckSector]
    rw [processPage_checkFf, processPage_checkFf]
    have h := processPage_iface cfg
      (bufferPage cfg (State.mk c i1) (pageIndex + sectorIndex * cfg.cSectorSizeInPages))
      (startPage + (pageIndex + sectorIndex * cfg.cSectorSizeInPages)) c i1 i2
    have hb : bufferPage cfg (State.mk c i2) (pageIndex + sectorIndex * cfg.cSectorSizeInPages)
        = bufferPage cfg (State.mk c i1) (pageIndex + sectorIndex * cfg.cSectorSizeInPages) :=
      rfl
    rw [hb, ← h]
    exact ih _ _ _

theorem in_pages_iff (P x lo hi i : Nat) (hi' : i < P) :
    (lo * P ≤ x * P + i ∧ x * P + i < hi * P) ↔ (lo ≤ x ∧ x < hi) := by
  constructor
  · rintro ⟨h1, h2⟩
    constructor
    · by_contra h
      have : (x + 1) * P ≤ lo * P := Nat.mul_le_mul_right P (by omega)
      rw [Nat.add_mul, Nat.one_mul] at this
      omega
    · by_contra h
      have : hi * P ≤ x * P := Nat.mul_le_mul_right P (by omega)
      omega
  · rintro ⟨h1, h2⟩
    have a1 : lo * P ≤ x * P := Nat.mul_le_mul_right P h1
    have a2 : (x + 1) * P ≤ hi * P := Nat.mul_le_mul_right P h2
    rw [Nat.add_mul, Nat.one_mul] at a2
    omega

theorem state_eq (s : State) (c : FlashConfig) (i : FlashInterface)
    (h1 : s.toFlashConfig = c) (h2 : s.toFlashInterface = i) : s = State.mk c i := by
  cases s
  simp only at h1 h2
  subst h1 h2
  rfl

theorem lock_mono (cfg : Params) (base n m : Nat) (a b : State) (h : Lock cfg base n a b)
    (hnm : n ≤ m) : Lock cfg base m a b :=
  ⟨h.1, h.2.1, fun j hj => h.2.2.1 j (Nat.le_trans hnm hj), h.2.2.2.1, h.2.2.2.2⟩

/-- Two states in lockstep with equal buffers have the same engine. -/
theorem lock_config (cfg : Params) (base : Nat) (a b : State) (h : Lock cfg base 0 a b) :
    b.toFlashConfig = a.toFlashConfig := by
  obtain ⟨_, ⟨h1, h2, h3, h4, h5, h6, _, _⟩, hb, _, _⟩ := h
  have hbuf : b.sReadAheadBuffer = a.sReadAheadBuffer := funext fun j => hb j (Nat.zero_le _)
  obtain ⟨⟨a1, a2, a3, a4, a5, a6, a7⟩, ai⟩ := a
  obtain ⟨⟨b1, b2, b3, b4, b5, b6, b7⟩, bi⟩ := b
  simp only at h1 h2 h3 h4 h5 h6 hbuf
  subst h1 h2 h3 h4 h5 h6 hbuf
  rfl

theorem lock_faults (cfg : Params) (base n : Nat) (a b : State) (h : Lock cfg base n a b) :
    ∀ m, b.sFaults m = false := by
  intro m
  rw [h.2.1.2.2.2.2.2.2.2]
  exact h.2.2.2.1 m

theorem lock_buffer (cfg : Params) (base : Nat) (a b : State) (h : Lock cfg base 0 a b) :
    b.sReadAheadBuffer = a.sReadAheadBuffer :=
  funext fun j => h.2.2.1 j (Nat.zero_le _)

/-- The function `serialize` keeps two passes in lockstep. -/
theorem serialize_lock (cfg : Params) (base : Nat) (a b : State) (sp q : Nat)
    (h : Lock cfg base 0 a b) :
    Lock cfg base 0 (serialize cfg a sp q) (serialize cfg b sp q) := by
  have hc := lock_config cfg base a b h
  obtain ⟨h0, hk, _, hf, hm⟩ := h
  obtain ⟨ac, ai⟩ := a
  obtain ⟨bc, bi⟩ := b
  simp only at hc
  subst hc
  have hs := (serialize_iface cfg bc ai bi sp q).1
  refine ⟨h0, ?_, ?_, hf, hm⟩
  · have e1 := congrArg FlashConfig.sStartPage hs
    have e2 := congrArg FlashConfig.sCache hs
    have e3 := congrArg FlashConfig.sDirtyPages hs
    have e4 := congrArg FlashConfig.sFirstUsablePage hs
    have e5 := congrArg FlashConfig.sFirstUsableByteIndex hs
    have e6 := congrArg FlashConfig.sNextId hs
    exact ⟨e1.symm, e2.symm, e3.symm, e4.symm, e5.symm, e6.symm, hk.2.2.2.2.2.2.1,
      hk.2.2.2.2.2.2.2⟩
  · intro j _
    exact (congrFun (congrArg FlashConfig.sReadAheadBuffer hs) j).symm

/-- A successful `writePage` of the same data to the page `p` of copy A in one pass and of
copy B in the other keeps the passes in lockstep, and the pass over copy B leaves the flash
below copy B as it is. -/
theorem writePage_lock (cfg : Params) (base : Nat) (a b : State) (p pA pB : Nat) (d : Mem)
    (h : Lock cfg base 0 a b) (hp : p < cfg.cCopySizeInPages)
    (hIn : base + 2 * cfg.cCopySizeInPages ≤ cfg.cFlashSizeInPages)
    (hA : pA = base + p) (hB : pB = base + cfg.cCopySizeInPages + p) :
    (writePage cfg a pA d).1 = SpiResult.cOk ∧ (writePage cfg b pB d).1 = SpiResult.cOk ∧
    Lock cfg base 0 (writePage cfg a pA d).2 (writePage cfg b pB d).2 ∧
    FlashBelow ((base + cfg.cCopySizeInPages) * cfg.cPageSizeInBytes) b
      (writePage cfg b pB d).2 := by
  have hfb := lock_faults cfg base 0 a b h
  obtain ⟨h0, hk, hbuf, hf, hm⟩ := h
  rw [writePage_ok cfg a pA d (hf _) (by omega), writePage_ok cfg b pB d (hfb _) (by omega)]
  refine ⟨rfl, rfl, ⟨h0, ?_, ?_, ?_, ?_⟩, ?_⟩
  · exact hk
  · exact hbuf
  · exact hf
  · intro k i hk' hi
    show copyN d _ a.sMemoryFlash _ _ = copyN d _ b.sMemoryFlash _ _
    simp only [copyN]
    have e1 := in_page_iff cfg.cPageSizeInBytes (base + k) pA i hi
    have e2 := in_page_iff cfg.cPageSizeInBytes (base + cfg.cCopySizeInPages + k) pB i hi
    by_cases hkp : k = p
    · rw [if_pos (e1.mpr (by omega)), if_pos (e2.mpr (by omega))]
      subst hkp hA hB
      congr 1
      omega
    · rw [if_neg (fun hh => hkp (by have := e1.mp hh; omega)),
        if_neg (fun hh => hkp (by have := e2.mp hh; omega))]
      exact hm k i hk' hi
  · intro x hx
    show copyN d _ b.sMemoryFlash _ x = b.sMemoryFlash x
    simp only [copyN]
    rw [if_neg]
    intro hh
    have : (base + cfg.cCopySizeInPages) * cfg.cPageSizeInBytes ≤ pB * cfg.cPageSizeInBytes :=
      Nat.mul_le_mul_right _ (by omega)
    omega

/-- A successful `eraseSector` of the same sector of copy A in one pass and of copy B in the
other keeps the passes in lockstep, and the pass over copy B leaves the flash below copy B as
it is.  `mS` is the first page of the sector, counted from the start of the copy. -/
theorem eraseSector_lock (cfg : Params) (base : Nat) (a b : State) (mS secA secB : Nat)
    (h : Lock cfg base 0 a b) (hS : 0 < cfg.cSectorSizeInPages)
    (hm : mS + cfg.cSectorSizeInPages ≤ cfg.cCopySizeInPages)
    (hIn : base + 2 * cfg.cCopySizeInPages ≤ cfg.cFlashSizeInPages)
    (hA : secA * cfg.cSectorSizeInPages = base + mS)
    (hB : secB * cfg.cSectorSizeInPages = base + cfg.cCopySizeInPages + mS) :
    (eraseSector cfg a secA).1 = SpiResult.cOk ∧ (eraseSector cfg b secB).1 = SpiResult.cOk ∧
    Lock cfg base 0 (eraseSector cfg a secA).2 (eraseSector cfg b secB).2 ∧
    FlashBelow ((base + cfg.cCopySizeInPages) * cfg.cPageSizeInBytes) b
      (eraseSector cfg b secB).2 := by
  have hfb := lock_faults cfg base 0 a b h
  obtain ⟨h0, hk, hbuf, hf, hmir⟩ := h
  have hInA : secA < cfg.cFlashSizeInPages / cfg.cSectorSizeInPages := by
    apply (Nat.le_div_iff_mul_le hS).mpr
    show (secA + 1) * cfg.cSectorSizeInPages ≤ _
    rw [Nat.add_mul, Nat.one_mul, hA]
    omega
  have hInB : secB < cfg.cFlashSizeInPages / cfg.cSectorSizeInPages := by
    apply (Nat.le_div_iff_mul_le hS).mpr
    show (secB + 1) * cfg.cSectorSizeInPages ≤ _
    rw [Nat.add_mul, Nat.one_mul, hB]
    omega
  have eA : secA * (cfg.cPageSizeInBytes * cfg.cSectorSizeInPages)
      = (base + mS) * cfg.cPageSizeInBytes := by
    rw [← hA]; ring
  have eB : secB * (cfg.cPageSizeInBytes * cfg.cSectorSizeInPages)
      = (base + cfg.cCopySizeInPages + mS) * cfg.cPageSizeInBytes := by
    rw [← hB]; ring
  have eA2 : (base + mS) * cfg.cPageSizeInBytes
      + cfg.cPageSizeInBytes * cfg.cSectorSizeInPages
      = (base + mS + cfg.cSectorSizeInPages) * cfg.cPageSizeInBytes := by ring
  have eB2 : (base + cfg.cCopySizeInPages + mS) * cfg.cPageSizeInBytes
      + cfg.cPageSizeInBytes * cfg.cSectorSizeInPages
      = (base + cfg.cCopySizeInPages + mS + cfg.cSectorSizeInPages) * cfg.cPageSizeInBytes := by
    ring
  rw [eraseSector_ok cfg a secA (hf _) hInA, eraseSector_ok cfg b secB (hfb _) hInB]
  refine ⟨rfl, rfl, ⟨h0, hk, hbuf, hf, ?_⟩, ?_⟩
  · intro k i hk' hi
    simp only [logCall, copyN]
    rw [eA, eB, eA2, eB2]
    have e1 := in_pages_iff cfg.cPageSizeInBytes (base + k) (base + mS)
      (base + mS + cfg.cSectorSizeInPages) i hi
    have e2 := in_pages_iff cfg.cPageSizeInBytes (base + cfg.cCopySizeInPages + k)
      (base + cfg.cCopySizeInPages + mS)
      (base + cfg.cCopySizeInPages + mS + cfg.cSectorSizeInPages) i hi
    by_cases hkm : mS ≤ k ∧ k < mS + cfg.cSectorSizeInPages
    · rw [if_pos (e1.mpr (by omega)), if_pos (e2.mpr (by omega))]
    · rw [if_neg (fun hh => hkm (by have := e1.mp hh; omega)),
        if_neg (fun hh => hkm (by have := e2.mp hh; omega))]
      exact hmir k i hk' hi
  · intro x hx
    simp only [logCall, copyN]
    rw [eB, if_neg]
    intro hh
    have : (base + cfg.cCopySizeInPages) * cfg.cPageSizeInBytes
        ≤ (base + cfg.cCopySizeInPages + mS) * cfg.cPageSizeInBytes :=
      Nat.mul_le_mul_right _ (by omega)
    omega

/-- A successful `readPages` of the same pages of copy A in one pass and of copy B in the
other brings two passes whose buffers agree after the pages read into lockstep. -/
theorem readPages_lock (cfg : Params) (base : Nat) (a b : State) (sp pc pA pB : Nat)
    (h : Lock cfg base (cfg.cPageSizeInBytes * pc) a b) (hP : 0 < cfg.cPageSizeInBytes)
    (hsp : sp < cfg.cCopySizeInPages) (hpc : sp + pc ≤ cfg.cCopySizeInPages)
    (hIn : base + 2 * cfg.cCopySizeInPages ≤ cfg.cFlashSizeInPages)
    (hA : pA = base + sp) (hB : pB = base + cfg.cCopySizeInPages + sp) :
    (readPages cfg a pA pc).1 = SpiResult.cOk ∧ (readPages cfg b pB pc).1 = SpiResult.cOk ∧
    Lock cfg base 0 (readPages cfg a pA pc).2 (readPages cfg b pB pc).2 ∧
    FlashBelow ((base + cfg.cCopySizeInPages) * cfg.cPageSizeInBytes) b
      (readPages cfg b pB pc).2 := by
  have hfb := lock_faults cfg base _ a b h
  obtain ⟨h0, hk, hbuf, hf, hmir⟩ := h
  rw [readPages_ok cfg a pA pc (hf _) ⟨by omega, by omega⟩,
    readPages_ok cfg b pB pc (hfb _) ⟨by omega, by omega⟩]
  refine ⟨rfl, rfl, ⟨h0, hk, ?_, hf, hmir⟩, fun x _ => rfl⟩
  intro j _
  simp only [logCall, copyN, ptrAdd]
  by_cases hj : 0 ≤ j ∧ j < 0 + cfg.cPageSizeInBytes * pc
  · rw [if_pos hj, if_pos hj]
    have hdiv : j / cfg.cPageSizeInBytes < pc := by
      apply (Nat.div_lt_iff_lt_mul hP).mpr
      rw [Nat.mul_comm]
      omega
    have hmod : j % cfg.cPageSizeInBytes < cfg.cPageSizeInBytes := Nat.mod_lt _ hP
    have hj2 : j - 0 = j / cfg.cPageSizeInBytes * cfg.cPageSizeInBytes
        + j % cfg.cPageSizeInBytes := by
      rw [Nat.sub_zero, Nat.mul_comm]
      exact (Nat.div_add_mod j cfg.cPageSizeInBytes).symm
    have eA : pA * cfg.cPageSizeInBytes + (j - 0)
        = (base + (sp + j / cfg.cPageSizeInBytes)) * cfg.cPageSizeInBytes
          + j % cfg.cPageSizeInBytes := by
      rw [hj2, hA]; ring
    have eB : pB * cfg.cPageSizeInBytes + (j - 0)
        = (base + cfg.cCopySizeInPages + (sp + j / cfg.cPageSizeInBytes))
            * cfg.cPageSizeInBytes + j % cfg.cPageSizeInBytes := by
      rw [hj2, hB]; ring
    rw [eA, eB]
    exact (hmir _ _ (by omega) hmod).symm
  · rw [if_neg hj, if_neg hj]
    exact hbuf j (by omega)

theorem flashBelow_trans (L : Nat) (a b c : State) (h1 : FlashBelow L a b)
    (h2 : FlashBelow L b c) : FlashBelow L a c :=
  fun x hx => (h2 x hx).trans (h1 x hx)

/-- Serializing and writing the page `sp + q` in both passes keeps them in lockstep. -/
theorem writeStep_lock (cfg : Params) (base : Nat) (a b : State) (sp q : Nat)
    (h : Lock cfg base 0 a b) (hp : sp + q < cfg.cCopySizeInPages)
    (hIn : base + 2 * cfg.cCopySizeInPages ≤ cfg.cFlashSizeInPages) :
    (writePage cfg (serialize cfg a sp q)
      ((serialize cfg a sp q).sStartPage + 0 + sp + q)
      (bufferPage cfg (serialize cfg a sp q) q)).1 = SpiResult.cOk ∧
    (writePage cfg (serialize cfg b sp q)
      ((serialize cfg b sp q).sStartPage + cfg.cCopySizeInPages + sp + q)
      (bufferPage cfg (serialize cfg b sp q) q)).1 = SpiResult.cOk ∧
    Lock cfg base 0
      (writePage cfg (serialize cfg a sp q)
        ((serialize cfg a sp q).sStartPage + 0 + sp + q)
        (bufferPage cfg (serialize cfg a sp q) q)).2
      (writePage cfg (serialize cfg b sp q)
        ((serialize cfg b sp q).sStartPage + cfg.cCopySizeInPages + sp + q)
        (bufferPage cfg (serialize cfg b sp q) q)).2 ∧
    FlashBelow ((base + cfg.cCopySizeInPages) * cfg.cPageSizeInBytes) b
      (writePage cfg (serialize cfg b sp q)
        ((serialize cfg b sp q).sStartPage + cfg.cCopySizeInPages + sp + q)
        (bufferPage cfg (serialize cfg b sp q) q)).2 := by
  have hs := serialize_lock cfg base a b sp q h
  have hd : bufferPage cfg (serialize cfg b sp q) q = bufferPage cfg (serialize cfg a sp q) q := by
    simp only [bufferPage]
    rw [lock_buffer cfg base _ _ hs]
  have hA : (serialize cfg a sp q).sStartPage = base := hs.1
  have hB : (serialize cfg b sp q).sStartPage = base := by
    rw [hs.2.1.1]
    exact hA
  rw [hd]
  have hw := writePage_lock cfg base (serialize cfg a sp q) (serialize cfg b sp q) (sp + q)
    ((serialize cfg a sp q).sStartPage + 0 + sp + q)
    ((serialize cfg b sp q).sStartPage + cfg.cCopySizeInPages + sp + q)
    (bufferPage cfg (serialize cfg a sp q) q) hs hp hIn (by rw [hA]; omega) (by rw [hB]; omega)
  exact ⟨hw.1, hw.2.1, hw.2.2.1, fun x hx => hw.2.2.2 x hx⟩

/-- The loop of `commit(uint32_t)` over the dirty pages of an erased sector runs alike in the
two passes. -/
theorem commitWriteDirty_lock (cfg : Params) (base startPage sectorIndex : Nat)
    (hIn : base + 2 * cfg.cCopySizeInPages ≤ cfg.cFlashSizeInPages) :
    ∀ (n pageIndex : Nat) (a b : State), Lock cfg base 0 a b →
      startPage + (pageIndex + n + sectorIndex * cfg.cSectorSizeInPages)
        ≤ cfg.cCopySizeInPages →
      LockStep cfg base b
        (commitWriteDirty cfg 0 startPage sectorIndex n pageIndex a)
        (commitWriteDirty cfg cfg.cCopySizeInPages startPage sectorIndex n pageIndex b) := by
  intro n
  induction n with
  | zero => intro pageIndex a b h _; exact ⟨rfl, rfl, h, fun _ _ => rfl⟩
  | succ n ih =>
    intro pageIndex a b h hSec
    simp only [commitWriteDirty]
    rw [h.2.1.2.2.1]
    by_cases hD : a.sDirtyPages (startPage + (pageIndex + sectorIndex * cfg.cSectorSizeInPages))
        = true
    · rw [if_pos hD, if_pos hD]
      obtain ⟨w1, w2, w3, w4⟩ := writeStep_lock cfg base a b startPage
        (pageIndex + sectorIndex * cfg.cSectorSizeInPages) h (by omega) hIn
      rw [if_neg (not_not.2 w1), if_neg (not_not.2 w2)]
      obtain ⟨r1, r2, r3, r4⟩ := ih (pageIndex + 1) _ _ w3 (by omega)
      exact ⟨r1, r2, r3, flashBelow_trans _ _ _ _ w4 r4⟩
    · rw [if_neg hD, if_neg hD]
      exact ih (pageIndex + 1) a b h (by omega)

/-- The loop of `commit(uint32_t)` over the used pages of a sector just erased runs alike in
the two passes. -/
theorem commitWriteUsed_lock (cfg : Params) (base startPage sectorIndex : Nat)
    (hIn : base + 2 * cfg.cCopySizeInPages ≤ cfg.cFlashSizeInPages) :
    ∀ (n pageIndex : Nat) (a b : State), Lock cfg base 0 a b →
      startPage + (pageIndex + n + sectorIndex * cfg.cSectorSizeInPages)
        ≤ cfg.cCopySizeInPages →
      LockStep cfg base b
        (commitWriteUsed cfg 0 startPage sectorIndex n pageIndex a)
        (commitWriteUsed cfg cfg.cCopySizeInPages startPage sectorIndex n pageIndex b) := by
  intro n
  induction n with
  | zero => intro pageIndex a b h _; exact ⟨rfl, rfl, h, fun _ _ => rfl⟩
  | succ n ih =>
    intro pageIndex a b h hSec
    simp only [commitWriteUsed]
    rw [h.2.1.2.2.2.1, h.2.1.2.2.2.2.1]
    by_cases hU : startPage + (pageIndex + sectorIndex * cfg.cSectorSizeInPages)
          < a.sFirstUsablePage ∨
        (startPage + (pageIndex + sectorIndex * cfg.cSectorSizeInPages) = a.sFirstUsablePage ∧
          a.sFirstUsableByteIndex > cOffsetPageItems)
    · rw [if_pos hU, if_pos hU]
      obtain ⟨w1, w2, w3, w4⟩ := writeStep_lock cfg base a b startPage
        (pageIndex + sectorIndex * cfg.cSectorSizeInPages) h (by omega) hIn
      rw [if_neg (not_not.2 w1), if_neg (not_not.2 w2)]
      obtain ⟨r1, r2, r3, r4⟩ := ih (pageIndex + 1) _ _ w3 (by omega)
      exact ⟨r1, r2, r3, flashBelow_trans _ _ _ _ w4 r4⟩
    · rw [if_neg hU, if_neg hU]
      exact ih (pageIndex + 1) a b h (by omega)

/-- The handling of one sector in `commit(uint32_t)` runs alike in the two passes. -/
theorem commitSector_lock (cfg : Params) (base startSector startPage sectorIndex : Nat)
    (hS : 0 < cfg.cSectorSizeInPages) (hAlign : base % cfg.cSectorSizeInPages = 0)
    (hCopy : cfg.cCopySizeInPages % cfg.cSectorSizeInPages = 0)
    (hIn : base + 2 * cfg.cCopySizeInPages ≤ cfg.cFlashSizeInPages)
    (hStart : startPage = startSector * cfg.cSectorSizeInPages)
    (hSec : startPage + sectorIndex * cfg.cSectorSizeInPages + cfg.cSectorSizeInPages
      ≤ cfg.cCopySizeInPages)
    (a b : State) (h : Lock cfg base 0 a b) :
    LockStep cfg base b
      (commitSector cfg 0 startSector startPage sectorIndex a)
      (commitSector cfg cfg.cCopySizeInPages startSector startPage sectorIndex b) := by
  have hc := lock_config cfg base a b h
  have hclass : (commitCheckSector cfg startPage sectorIndex cfg.cSectorSizeInPages 0 true
      false b).1
      = (commitCheckSector cfg startPage sectorIndex cfg.cSectorSizeInPages 0 true false a).1 := by
    have eb := state_eq b a.toFlashConfig b.toFlashInterface hc rfl
    have ea := state_eq a a.toFlashConfig a.toFlashInterface rfl rfl
    rw [eb]
    conv => rhs; rw [ea]
    exact commitCheckSector_iface cfg startPage sectorIndex _ _ _ _ _ _ _
  simp only [commitSector, commitCheckSector_state]
  rw [hclass]
  by_cases hChanged : (commitCheckSector cfg startPage sectorIndex cfg.cSectorSizeInPages 0
      true false a).1.2 = true
  · rw [if_pos hChanged, if_pos hChanged]
    by_cases hErased : (commitCheckSector cfg startPage sectorIndex cfg.cSectorSizeInPages 0
        true false a).1.1 = true
    · rw [if_pos hErased, if_pos hErased]
      exact commitWriteDirty_lock cfg base startPage sectorIndex hIn cfg.cSectorSizeInPages 0 a b h
        (by omega)
    · rw [if_neg hErased, if_neg hErased]
      have hdA : (a.sStartPage + 0) / cfg.cSectorSizeInPages * cfg.cSectorSizeInPages = base := by
        rw [Nat.add_zero, h.1]
        exact Nat.div_mul_cancel (Nat.dvd_of_mod_eq_zero hAlign)
      have hdB : (b.sStartPage + cfg.cCopySizeInPages) / cfg.cSectorSizeInPages
          * cfg.cSectorSizeInPages = base + cfg.cCopySizeInPages := by
        rw [h.2.1.1, h.1]
        apply Nat.div_mul_cancel
        apply Nat.dvd_of_mod_eq_zero
        rw [Nat.add_mod, hAlign, hCopy]
        simp
      have hsA : ((a.sStartPage + 0) / cfg.cSectorSizeInPages + startSector + sectorIndex)
          * cfg.cSectorSizeInPages
          = base + (startPage + sectorIndex * cfg.cSectorSizeInPages) := by
        rw [Nat.add_mul, Nat.add_mul, hdA, hStart]
        omega
      have hsB : ((b.sStartPage + cfg.cCopySizeInPages) / cfg.cSectorSizeInPages + startSector
          + sectorIndex) * cfg.cSectorSizeInPages
          = base + cfg.cCopySizeInPages
            + (startPage + sectorIndex * cfg.cSectorSizeInPages) := by
        rw [Nat.add_mul, Nat.add_mul, hdB, hStart]
        omega
      obtain ⟨e1, e2, e3, e4⟩ := eraseSector_lock cfg base a b
        (startPage + sectorIndex * cfg.cSectorSizeInPages)
        ((a.sStartPage + 0) / cfg.cSectorSizeInPages + startSector + sectorIndex)
        ((b.sStartPage + cfg.cCopySizeInPages) / cfg.cSectorSizeInPages + startSector
          + sectorIndex)
        h hS hSec hIn hsA hsB
      rw [if_neg (not_not.2 e1), if_neg (not_not.2 e2)]
      obtain ⟨r1, r2, r3, r4⟩ := commitWriteUsed_lock cfg base startPage sectorIndex hIn
        cfg.cSectorSizeInPages 0 _ _ e3 (by omega)
      exact ⟨r1, r2, r3, flashBelow_trans _ _ _ _ e4 r4⟩
  · rw [if_neg hChanged, if_neg hChanged]
    exact ⟨rfl, rfl, h, fun _ _ => rfl⟩

/-- The loop of `commit(uint32_t)` over the sectors in the read-ahead buffer runs alike in
the two passes. -/
theorem commitSectors_lock (cfg : Params) (base startSector startPage : Nat)
    (hS : 0 < cfg.cSectorSizeInPages) (hAlign : base % cfg.cSectorSizeInPages = 0)
    (hCopy : cfg.cCopySizeInPages % cfg.cSectorSizeInPages = 0)
    (hIn : base + 2 * cfg.cCopySizeInPages ≤ cfg.cFlashSizeInPages)
    (hStart : startPage = startSector * cfg.cSectorSizeInPages) :
    ∀ (n sectorIndex : Nat) (a b : State), Lock cfg base 0 a b →
      startPage + (sectorIndex + n) * cfg.cSectorSizeInPages ≤ cfg.cCopySizeInPages →
      LockStep cfg base b
        (commitSectors cfg 0 startSector startPage n sectorIndex a)
        (commitSectors cfg cfg.cCopySizeInPages startSector startPage n sectorIndex b) := by
  intro n
  induction n with
  | zero => intro sectorIndex a b h _; exact ⟨rfl, rfl, h, fun _ _ => rfl⟩
  | succ n ih =>
    intro sectorIndex a b h hSec
    have hSec1 : startPage + sectorIndex * cfg.cSectorSizeInPages + cfg.cSectorSizeInPages
        ≤ cfg.cCopySizeInPages := by
      have : (sectorIndex + (n + 1)) * cfg.cSectorSizeInPages
          = sectorIndex * cfg.cSectorSizeInPages + cfg.cSectorSizeInPages
            + n * cfg.cSectorSizeInPages := by ring
      omega
    obtain ⟨s1, s2, s3, s4⟩ := commitSector_lock cfg base startSector startPage sectorIndex
      hS hAlign hCopy hIn hStart hSec1 a b h
    simp only [commitSectors]
    rw [if_pos s1, if_pos s2]
    obtain ⟨r1, r2, r3, r4⟩ := ih (sectorIndex + 1) _ _ s3
      (by
        have : (sectorIndex + 1 + n) = (sectorIndex + (n + 1)) := by omega
        rw [this]
        exact hSec)
    exact ⟨r1, r2, r3, flashBelow_trans _ _ _ _ s4 r4⟩

/-- One round of the loop of `commit(uint32_t)` in which the pages are read and the sectors
handled without failure. -/
theorem commitLoop_step (cfg : Params) (off gEnd fuel dirtyIter : Nat) (s : State)
    (hNe : dirtyIter ≠ gEnd)
    (hOk : (readPages cfg s
      (s.sStartPage + off + dirtyIter / cfg.cSectorSizeInPages * cfg.cSectorSizeInPages)
      (min gEnd (dirtyIter / cfg.cSectorSizeInPages * cfg.cSectorSizeInPages
          + cfg.tReadAheadSizeInPages)
        - dirtyIter / cfg.cSectorSizeInPages * cfg.cSectorSizeInPages)).1 = SpiResult.cOk)
    (hTrue : (commitSectors cfg off (dirtyIter / cfg.cSectorSizeInPages)
      (dirtyIter / cfg.cSectorSizeInPages * cfg.cSectorSizeInPages)
      ((min gEnd (dirtyIter / cfg.cSectorSizeInPages * cfg.cSectorSizeInPages
            + cfg.tReadAheadSizeInPages)
          - dirtyIter / cfg.cSectorSizeInPages * cfg.cSectorSizeInPages
          + cfg.cSectorSizeInPages - 1) / cfg.cSectorSizeInPages) 0
      (readPages cfg s
        (s.sStartPage + off + dirtyIter / cfg.cSectorSizeInPages * cfg.cSectorSizeInPages)
        (min gEnd (dirtyIter / cfg.cSectorSizeInPages * cfg.cSectorSizeInPages
            + cfg.tReadAheadSizeInPages)
          - dirtyIter / cfg.cSectorSizeInPages * cfg.cSectorSizeInPages)).2).1 = true) :
    commitLoop cfg off gEnd (fuel + 1) dirtyIter s
      = commitLoop cfg off gEnd fuel
          (findDirty s.sDirtyPages
            (gEnd - min gEnd (dirtyIter / cfg.cSectorSizeInPages * cfg.cSectorSizeInPages
              + cfg.tReadAheadSizeInPages))
            (min gEnd (dirtyIter / cfg.cSectorSizeInPages * cfg.cSectorSizeInPages
              + cfg.tReadAheadSizeInPages)))
          (commitSectors cfg off (dirtyIter / cfg.cSectorSizeInPages)
            (dirtyIter / cfg.cSectorSizeInPages * cfg.cSectorSizeInPages)
            ((min gEnd (dirtyIter / cfg.cSectorSizeInPages * cfg.cSectorSizeInPages
                  + cfg.tReadAheadSizeInPages)
                - dirtyIter / cfg.cSectorSizeInPages * cfg.cSectorSizeInPages
                + cfg.cSectorSizeInPages - 1) / cfg.cSectorSizeInPages) 0
            (readPages cfg s
              (s.sStartPage + off
                + dirtyIter / cfg.cSectorSizeInPages * cfg.cSectorSizeInPages)
              (min gEnd (dirtyIter / cfg.cSectorSizeInPages * cfg.cSectorSizeInPages
                  + cfg.tReadAheadSizeInPages)
                - dirtyIter / cfg.cSectorSizeInPages * cfg.cSectorSizeInPages)).2).2 := by
  conv => lhs; unfold commitLoop
  simp only [if_neg hNe, hOk, ne_eq, not_true_eq_false, if_false, hTrue, if_true]

/-- The number of whole sectors that cover the pages read in a round fits the copy. -/
theorem sectors_fit (S sp pc copy : Nat) (hS : 0 < S) (hsp : sp % S = 0) (hCopy : copy % S = 0)
    (h : sp + pc ≤ copy) : sp + (pc + S - 1) / S * S ≤ copy := by
  obtain ⟨x, hx⟩ := Nat.dvd_of_mod_eq_zero hsp
  obtain ⟨y, hy⟩ := Nat.dvd_of_mod_eq_zero hCopy
  have h1 : (pc + S - 1) / S * S ≤ pc + S - 1 := Nat.div_mul_le_self _ _
  have h2 : sp + (pc + S - 1) / S * S < copy + S := by omega
  have h3 : sp + (pc + S - 1) / S * S = (x + (pc + S - 1) / S) * S := by
    rw [hx]; ring
  have h4 : copy + S = (y + 1) * S := by rw [hy]; ring
  rw [h3, h4] at h2
  have h5 : x + (pc + S - 1) / S < y + 1 := Nat.lt_of_mul_lt_mul_right h2
  rw [h3, hy]
  calc (x + (pc + S - 1) / S) * S ≤ y * S := Nat.mul_le_mul_right S (by omega)
    _ = S * y := Nat.mul_comm _ _

/-- The loop of `commit(uint32_t)` runs alike in the two passes: when the pass over copy A
starts in `a` and the pass over copy B in `b`, the two states in lockstep but for the part
of the read-ahead buffer the first round reads, both passes report success, the pages of
copy A after the first hold what the pages of copy B hold after the second, and the second
leaves the flash below copy B as it is. -/
theorem commitLoop_lock (cfg : Params) (base gEnd : Nat)
    (hS : 0 < cfg.cSectorSizeInPages) (hP : 0 < cfg.cPageSizeInBytes)
    (hAlign : base % cfg.cSectorSizeInPages = 0)
    (hCopy : cfg.cCopySizeInPages % cfg.cSectorSizeInPages = 0)
    (hIn : base + 2 * cfg.cCopySizeInPages ≤ cfg.cFlashSizeInPages)
    (hEnd : gEnd ≤ cfg.cCopySizeInPages) :
    ∀ (fuel dirtyIter : Nat) (a b : State),
      Lock cfg base
        (cfg.cPageSizeInBytes
          * (min gEnd (dirtyIter / cfg.cSectorSizeInPages * cfg.cSectorSizeInPages
              + cfg.tReadAheadSizeInPages)
            - dirtyIter / cfg.cSectorSizeInPages * cfg.cSectorSizeInPages)) a b →
      dirtyIter ≤ gEnd →
      ∀ ra rb : Bool × State,
        commitLoop cfg 0 gEnd fuel dirtyIter a = some ra →
        commitLoop cfg cfg.cCopySizeInPages gEnd fuel dirtyIter b = some rb →
        ra.1 = true ∧ rb.1 = true ∧
        (∀ k i, k < cfg.cCopySizeInPages → i < cfg.cPageSizeInBytes →
          ra.2.sMemoryFlash ((base + k) * cfg.cPageSizeInBytes + i)
            = rb.2.sMemoryFlash
                ((base + cfg.cCopySizeInPages + k) * cfg.cPageSizeInBytes + i)) ∧
        FlashBelow ((base + cfg.cCopySizeInPages) * cfg.cPageSizeInBytes) b rb.2 := by
  intro fuel
  induction fuel with
  | zero =>
    intro dirtyIter a b h _ ra rb hra hrb
    unfold commitLoop at hra hrb
    split_ifs at hra hrb
    cases hra
    cases hrb
    exact ⟨rfl, rfl, h.2.2.2.2, fun _ _ => rfl⟩
  | succ fuel ih =>
    intro dirtyIter a b h hIter ra rb hra hrb
    by_cases hDone : dirtyIter = gEnd
    · unfold commitLoop at hra hrb
      rw [if_pos hDone] at hra hrb
      cases hra
      cases hrb
      exact ⟨rfl, rfl, h.2.2.2.2, fun _ _ => rfl⟩
    · have hLt : dirtyIter < gEnd := Nat.lt_of_le_of_ne hIter hDone
      have hDiv : dirtyIter / cfg.cSectorSizeInPages * cfg.cSectorSizeInPages ≤ dirtyIter :=
        Nat.div_mul_le_self _ _
      have hMin1 := Nat.min_le_left gEnd
        (dirtyIter / cfg.cSectorSizeInPages * cfg.cSectorSizeInPages
          + cfg.tReadAheadSizeInPages)
      have hMin2 : dirtyIter / cfg.cSectorSizeInPages * cfg.cSectorSizeInPages ≤ min gEnd
          (dirtyIter / cfg.cSectorSizeInPages * cfg.cSectorSizeInPages
            + cfg.tReadAheadSizeInPages) := by
        rw [Nat.le_min]
        omega
      have hbS : b.sStartPage = base := by rw [h.2.1.1]; exact h.1
      obtain ⟨d1, d2, d3, d4⟩ := readPages_lock cfg base a b
        (dirtyIter / cfg.cSectorSizeInPages * cfg.cSectorSizeInPages)
        (min gEnd (dirtyIter / cfg.cSectorSizeInPages * cfg.cSectorSizeInPages
            + cfg.tReadAheadSizeInPages)
          - dirtyIter / cfg.cSectorSizeInPages * cfg.cSectorSizeInPages)
        (a.sStartPage + 0 + dirtyIter / cfg.cSectorSizeInPages * cfg.cSectorSizeInPages)
        (b.sStartPage + cfg.cCopySizeInPages
          + dirtyIter / cfg.cSectorSizeInPages * cfg.cSectorSizeInPages)
        h hP (by omega) (by omega) hIn (by rw [h.1]; omega) (by rw [hbS])
      have hFit := sectors_fit cfg.cSectorSizeInPages
        (dirtyIter / cfg.cSectorSizeInPages * cfg.cSectorSizeInPages)
        (min gEnd (dirtyIter / cfg.cSectorSizeInPages * cfg.cSectorSizeInPages
            + cfg.tReadAheadSizeInPages)
          - dirtyIter / cfg.cSectorSizeInPages * cfg.cSectorSizeInPages)
        cfg.cCopySizeInPages hS (Nat.mul_mod_left _ _) hCopy (by omega)
      obtain ⟨c1, c2, c3, c4⟩ := commitSectors_lock cfg base (dirtyIter / cfg.cSectorSizeInPages)
        (dirtyIter / cfg.cSectorSizeInPages * cfg.cSectorSizeInPages) hS hAlign hCopy hIn rfl
        ((min gEnd (dirtyIter / cfg.cSectorSizeInPages * cfg.cSectorSizeInPages
              + cfg.tReadAheadSizeInPages)
            - dirtyIter / cfg.cSectorSizeInPages * cfg.cSectorSizeInPages
            + cfg.cSectorSizeInPages - 1) / cfg.cSectorSizeInPages) 0 _ _ d3
        (by rw [Nat.zero_add]; exact hFit)
      rw [commitLoop_step cfg 0 gEnd fuel dirtyIter a hDone d1 c1] at hra
      rw [commitLoop_step cfg cfg.cCopySizeInPages gEnd fuel dirtyIter b hDone d2 c2,
        h.2.1.2.2.1] at hrb
      have hB := findDirty_bounds a.sDirtyPages
        (gEnd - min gEnd (dirtyIter / cfg.cSectorSizeInPages * cfg.cSectorSizeInPages
          + cfg.tReadAheadSizeInPages))
        (min gEnd (dirtyIter / cfg.cSectorSizeInPages * cfg.cSectorSizeInPages
          + cfg.tReadAheadSizeInPages))
      obtain ⟨r1, r2, r3, r4⟩ := ih _ _ _ (lock_mono cfg base 0 _ _ _ c3 (Nat.zero_le _))
        (by omega) ra rb hra hrb
      exact ⟨r1, r2, r3,
        flashBelow_trans _ _ _ _ (flashBelow_trans _ _ _ _ d4 c4) r4⟩

theorem bufferFrom_trans (n : Nat) (a b c : State) (h1 : BufferFrom n a b)
    (h2 : BufferFrom n b c) : BufferFrom n a c :=
  fun j hj => (h2 j hj).trans (h1 j hj)

theorem bufferFrom_mono (n m : Nat) (a b : State) (h : BufferFrom n a b) (hnm : n ≤ m) :
    BufferFrom m a b :=
  fun j hj => h j (Nat.le_trans hnm hj)

theorem flashFrom_trans (L : Nat) (a b c : State) (h1 : FlashFrom L a b)
    (h2 : FlashFrom L b c) : FlashFrom L a c :=
  fun x hx => (h2 x hx).trans (h1 x hx)

/-- A call of `writePage` leaves the read-ahead buffer as it is, and the flash after the
page written. -/
theorem writePage_frame (cfg : Params) (s : State) (p : Nat) (d : Mem) (n L : Nat)
    (hL : p * cfg.cPageSizeInBytes + cfg.cPageSizeInBytes ≤ L) :
    BufferFrom n s (writePage cfg s p d).2 ∧ FlashFrom L s (writePage cfg s p d).2 := by
  simp only [writePage]
  split_ifs
  · exact ⟨fun _ _ => rfl, fun _ _ => rfl⟩
  · refine ⟨fun _ _ => rfl, fun x hx => ?_⟩
    simp only [logCall, copyN]
    rw [if_neg (by omega)]
  · exact ⟨fun _ _ => rfl, fun _ _ => rfl⟩

/-- A call of `eraseSector` leaves the read-ahead buffer as it is, and the flash after the
sector erased. -/
theorem eraseSector_frame (cfg : Params) (s : State) (sec : Nat) (n L : Nat)
    (hL : sec * (cfg.cPageSizeInBytes * cfg.cSectorSizeInPages)
      + cfg.cPageSizeInBytes * cfg.cSectorSizeInPages ≤ L) :
    BufferFrom n s (eraseSector cfg s sec).2 ∧ FlashFrom L s (eraseSector cfg s sec).2 := by
  simp only [eraseSector]
  split_ifs
  · exact ⟨fun _ _ => rfl, fun _ _ => rfl⟩
  · refine ⟨fun _ _ => rfl, fun x hx => ?_⟩
    simp only [logCall, copyN]
    rw [if_neg (by omega)]
  · exact ⟨fun _ _ => rfl, fun _ _ => rfl⟩

/-- A call of `readPages` leaves the flash as it is, and the read-ahead buffer after the
pages read. -/
theorem readPages_frame (cfg : Params) (s : State) (p n L : Nat) :
    BufferFrom (cfg.cPageSizeInBytes * n) s (readPages cfg s p n).2 ∧
    FlashFrom L s (readPages cfg s p n).2 := by
  simp only [readPages]
  split_ifs
  · exact ⟨fun _ _ => rfl, fun _ _ => rfl⟩
  · refine ⟨fun j hj => ?_, fun _ _ => rfl⟩
    simp only [logCall, copyN]
    rw [if_neg (by omega)]
  · exact ⟨fun _ _ => rfl, fun _ _ => rfl⟩

/-- Serializing and writing the page `sp + q` of copy A changes the read-ahead buffer inside
the page `q` only and leaves the flash from copy B on as it is. -/
theorem writeStep_frame (cfg : Params) (hValid : cfg.valid) (base : Nat) (s : State)
    (sp q pc : Nat)
    (hFit : ∀ id, id < s.sNextId → (s.sCache id).getCount ≤ cfg.cMaxItemDataSize)
    (hBase : s.sStartPage = base) (hp : sp + q < cfg.cCopySizeInPages) (hq : q < pc) :
    BufferFrom (cfg.cPageSizeInBytes * pc) s
      (writePage cfg (serialize cfg s sp q)
        ((serialize cfg s sp q).sStartPage + 0 + sp + q)
        (bufferPage cfg (serialize cfg s sp q) q)).2 ∧
    FlashFrom ((base + cfg.cCopySizeInPages) * cfg.cPageSizeInBytes) s
      (writePage cfg (serialize cfg s sp q)
        ((serialize cfg s sp q).sStartPage + 0 + sp + q)
        (bufferPage cfg (serialize cfg s sp q) q)).2 := by
  have hS : (serialize cfg s sp q).sStartPage = base := hBase
  have hle : (q + 1) * cfg.cPageSizeInBytes ≤ pc * cfg.cPageSizeInBytes :=
    Nat.mul_le_mul_right _ hq
  rw [Nat.add_mul, Nat.one_mul] at hle
  have hle2 : (base + sp + q + 1) * cfg.cPageSizeInBytes
      ≤ (base + cfg.cCopySizeInPages) * cfg.cPageSizeInBytes :=
    Nat.mul_le_mul_right _ (by omega)
  have hw := writePage_frame cfg (serialize cfg s sp q)
    ((serialize cfg s sp q).sStartPage + 0 + sp + q)
    (bufferPage cfg (serialize cfg s sp q) q) (cfg.cPageSizeInBytes * pc)
    ((base + cfg.cCopySizeInPages) * cfg.cPageSizeInBytes)
    (by
      rw [hS, Nat.add_zero]
      have e : (base + sp + q + 1) * cfg.cPageSizeInBytes
          = (base + sp + q) * cfg.cPageSizeInBytes + cfg.cPageSizeInBytes := by ring
      omega)
  refine ⟨fun j hj => ?_, fun x hx => ?_⟩
  · rw [hw.1 j hj]
    apply serialize_outside cfg hValid s sp q hFit
    right
    rw [Nat.mul_comm] at hj
    omega
  · rw [hw.2 x hx]
    rfl

/-- The loop of `commit(uint32_t)` over the dirty pages of an erased sector of copy A changes
the read-ahead buffer inside the pages read only, when the dirty pages are among them, and
leaves the flash from copy B on as it is. -/
theorem commitWriteDirty_frame (cfg : Params) (hValid : cfg.valid) (base : Nat) (s0 : State)
    (sp si pc qMax : Nat) (hBase : s0.sStartPage = base)
    (hFit : ∀ id, id < s0.sNextId → (s0.sCache id).getCount ≤ cfg.cMaxItemDataSize)
    (hW : ∀ q, q < qMax →
      (s0.sDirtyPages (sp + q) = true ∨ sp + q ≤ s0.sFirstUsablePage) → q < pc)
    (hMax : sp + qMax ≤ cfg.cCopySizeInPages) :
    ∀ (n pageIndex : Nat) (s : State), CommitKeeps s0 s →
      pageIndex + n + si * cfg.cSectorSizeInPages ≤ qMax →
      BufferFrom (cfg.cPageSizeInBytes * pc) s
        (commitWriteDirty cfg 0 sp si n pageIndex s).2 ∧
      FlashFrom ((base + cfg.cCopySizeInPages) * cfg.cPageSizeInBytes) s
        (commitWriteDirty cfg 0 sp si n pageIndex s).2 := by
  intro n
  induction n with
  | zero => intro pageIndex s _ _; exact ⟨fun _ _ => rfl, fun _ _ => rfl⟩
  | succ n ih =>
    intro pageIndex s hk hq
    obtain ⟨k1, k2, k3, k4, k5, k6, _, _⟩ := id hk
    simp only [commitWriteDirty]
    by_cases hD : s.sDirtyPages (sp + (pageIndex + si * cfg.cSectorSizeInPages)) = true
    · rw [if_pos hD]
      have hqpc : pageIndex + si * cfg.cSectorSizeInPages < pc :=
        hW _ (by omega) (Or.inl (by rw [← k3]; exact hD))
      obtain ⟨w1, w2⟩ := writeStep_frame cfg hValid base s sp
        (pageIndex + si * cfg.cSectorSizeInPages) pc
        (by rw [k6, k2]; exact hFit) (by rw [k1]; exact hBase) (by omega) hqpc
      split_ifs
      · exact ⟨w1, w2⟩
      · have hk' : CommitKeeps s0 (writePage cfg
            (serialize cfg s sp (pageIndex + si * cfg.cSectorSizeInPages))
            ((serialize cfg s sp (pageIndex + si * cfg.cSectorSizeInPages)).sStartPage + 0 + sp
              + (pageIndex + si * cfg.cSectorSizeInPages))
            (bufferPage cfg (serialize cfg s sp (pageIndex + si * cfg.cSectorSizeInPages))
              (pageIndex + si * cfg.cSectorSizeInPages))).2 :=
          commitKeeps_trans _ _ _ hk
            (commitKeeps_trans _ _ _ (serialize_commitKeeps cfg s _ _)
              (writePage_commitKeeps cfg _ _ _))
        obtain ⟨r1, r2⟩ := ih (pageIndex + 1) _ hk' (by omega)
        exact ⟨bufferFrom_trans _ _ _ _ w1 r1, flashFrom_trans _ _ _ _ w2 r2⟩
    · rw [if_neg hD]
      exact ih (pageIndex + 1) s hk (by omega)

/-- The loop of `commit(uint32_t)` over the used pages of a sector of copy A just erased
changes the read-ahead buffer inside the pages read only, when the used pages are among
them, and leaves the flash from copy B on as it is. -/
theorem commitWriteUsed_frame (cfg : Params) (hValid : cfg.valid) (base : Nat) (s0 : State)
    (sp si pc qMax : Nat) (hBase : s0.sStartPage = base)
    (hFit : ∀ id, id < s0.sNextId → (s0.sCache id).getCount ≤ cfg.cMaxItemDataSize)
    (hW : ∀ q, q < qMax →
      (s0.sDirtyPages (sp + q) = true ∨ sp + q ≤ s0.sFirstUsablePage) → q < pc)
    (hMax : sp + qMax ≤ cfg.cCopySizeInPages) :
    ∀ (n pageIndex : Nat) (s : State), CommitKeeps s0 s →
      pageIndex + n + si * cfg.cSectorSizeInPages ≤ qMax →
      BufferFrom (cfg.cPageSizeInBytes * pc) s
        (commitWriteUsed cfg 0 sp si n pageIndex s).2 ∧
      FlashFrom ((base + cfg.cCopySizeInPages) * cfg.cPageSizeInBytes) s
        (commitWriteUsed cfg 0 sp si n pageIndex s).2 := by
  intro n
  induction n with
  | zero => intro pageIndex s _ _; exact ⟨fun _ _ => rfl, fun _ _ => rfl⟩
  | succ n ih =>
    intro pageIndex s hk hq
    obtain ⟨k1, k2, k3, k4, k5, k6, _, _⟩ := id hk
    simp only [commitWriteUsed]
    by_cases hU : sp + (pageIndex + si * cfg.cSectorSizeInPages) < s.sFirstUsablePage ∨
        (sp + (pageIndex + si * cfg.cSectorSizeInPages) = s.sFirstUsablePage ∧
          s.sFirstUsableByteIndex > cOffsetPageItems)
    · rw [if_pos hU]
      have hqpc : pageIndex + si * cfg.cSectorSizeInPages < pc :=
        hW _ (by omega) (Or.inr (by rw [← k4]; omega))
      obtain ⟨w1, w2⟩ := writeStep_frame cfg hValid base s sp
        (pageIndex + si * cfg.cSectorSizeInPages) pc
        (by rw [k6, k2]; exact hFit) (by rw [k1]; exact hBase) (by omega) hqpc
      split_ifs
      · exact ⟨w1, w2⟩
      · have hk' : CommitKeeps s0 (writePage cfg
            (serialize cfg s sp (pageIndex + si * cfg.cSectorSizeInPages))
            ((serialize cfg s sp (pageIndex + si * cfg.cSectorSizeInPages)).sStartPage + 0 + sp
              + (pageIndex + si * cfg.cSectorSizeInPages))
            (bufferPage cfg (serialize cfg s sp (pageIndex + si * cfg.cSectorSizeInPages))
              (pageIndex + si * cfg.cSectorSizeInPages))).2 :=
          commitKeeps_trans _ _ _ hk
            (commitKeeps_trans _ _ _ (serialize_commitKeeps cfg s _ _)
              (writePage_commitKeeps cfg _ _ _))
        obtain ⟨r1, r2⟩ := ih (pageIndex + 1) _ hk' (by omega)
        exact ⟨bufferFrom_trans _ _ _ _ w1 r1, flashFrom_trans _ _ _ _ w2 r2⟩
    · rw [if_neg hU]
      exact ih (pageIndex + 1) s hk (by omega)

/-- The handling of one sector of copy A in `commit(uint32_t)` changes the read-ahead buffer
inside the pages read only and leaves the flash from copy B on as it is. -/
theorem commitSector_frame (cfg : Params) (hValid : cfg.valid) (base : Nat) (s0 : State)
    (startSector sp si pc qMax : Nat) (hBase : s0.sStartPage = base)
    (hAlign : base % cfg.cSectorSizeInPages = 0)
    (hStart : sp = startSector * cfg.cSectorSizeInPages)
    (hFit : ∀ id, id < s0.sNextId → (s0.sCache id).getCount ≤ cfg.cMaxItemDataSize)
    (hW : ∀ q, q < qMax →
      (s0.sDirtyPages (sp + q) = true ∨ sp + q ≤ s0.sFirstUsablePage) → q < pc)
    (hMax : sp + qMax ≤ cfg.cCopySizeInPages)
    (s : State) (hk : CommitKeeps s0 s)
    (hq : si * cfg.cSectorSizeInPages + cfg.cSectorSizeInPages ≤ qMax) :
    BufferFrom (cfg.cPageSizeInBytes * pc) s (commitSector cfg 0 startSector sp si s).2 ∧
    FlashFrom ((base + cfg.cCopySizeInPages) * cfg.cPageSizeInBytes) s
      (commitSector cfg 0 startSector sp si s).2 := by
  simp only [commitSector, commitCheckSector_state]
  split_ifs
  · exact commitWriteDirty_frame cfg hValid base s0 sp si pc qMax hBase hFit hW hMax
      cfg.cSectorSizeInPages 0 s hk (by omega)
  · refine eraseSector_frame cfg s _ _ _ ?_
    have hd : (s.sStartPage + 0) / cfg.cSectorSizeInPages * cfg.cSectorSizeInPages = base := by
      rw [Nat.add_zero, hk.1, hBase]
      exact Nat.div_mul_cancel (Nat.dvd_of_mod_eq_zero hAlign)
    have e : ((s.sStartPage + 0) / cfg.cSectorSizeInPages + startSector + si)
        * (cfg.cPageSizeInBytes * cfg.cSectorSizeInPages)
        + cfg.cPageSizeInBytes * cfg.cSectorSizeInPages
        = ((s.sStartPage + 0) / cfg.cSectorSizeInPages * cfg.cSectorSizeInPages
            + startSector * cfg.cSectorSizeInPages + si * cfg.cSectorSizeInPages
            + cfg.cSectorSizeInPages) * cfg.cPageSizeInBytes := by ring
    rw [e, hd, ← hStart]
    exact Nat.mul_le_mul_right _ (by omega)
  · have hd : (s.sStartPage + 0) / cfg.cSectorSizeInPages * cfg.cSectorSizeInPages = base := by
      rw [Nat.add_zero, hk.1, hBase]
      exact Nat.div_mul_cancel (Nat.dvd_of_mod_eq_zero hAlign)
    have e : ((s.sStartPage + 0) / cfg.cSectorSizeInPages + startSector + si)
        * (cfg.cPageSizeInBytes * cfg.cSectorSizeInPages)
        + cfg.cPageSizeInBytes * cfg.cSectorSizeInPages
        = ((s.sStartPage + 0) / cfg.cSectorSizeInPages * cfg.cSectorSizeInPages
            + startSector * cfg.cSectorSizeInPages + si * cfg.cSectorSizeInPages
            + cfg.cSectorSizeInPages) * cfg.cPageSizeInBytes := by ring
    obtain ⟨e1, e2⟩ := eraseSector_frame cfg s
      ((s.sStartPage + 0) / cfg.cSectorSizeInPages + startSector + si)
      (cfg.cPageSizeInBytes * pc) ((base + cfg.cCopySizeInPages) * cfg.cPageSizeInBytes)
      (by
        rw [e, hd, ← hStart]
        exact Nat.mul_le_mul_right _ (by omega))
    obtain ⟨r1, r2⟩ := commitWriteUsed_frame cfg hValid base s0 sp si pc qMax hBase hFit hW
      hMax cfg.cSectorSizeInPages 0 _
      (commitKeeps_trans _ _ _ hk (eraseSector_commitKeeps cfg s _)) (by omega)
    exact ⟨bufferFrom_trans _ _ _ _ e1 r1, flashFrom_trans _ _ _ _ e2 r2⟩
  · exact ⟨fun _ _ => rfl, fun _ _ => rfl⟩

/-- The loop of `commit(uint32_t)` over the sectors of copy A in the read-ahead buffer
changes the buffer inside the pages read only and leaves the flash from copy B on as it
is. -/
theorem commitSectors_frame (cfg : Params) (hValid : cfg.valid) (base : Nat) (s0 : State)
    (startSector sp pc qMax : Nat) (hBase : s0.sStartPage = base)
    (hAlign : base % cfg.cSectorSizeInPages = 0)
    (hStart : sp = startSector * cfg.cSectorSizeInPages)
    (hFit : ∀ id, id < s0.sNextId → (s0.sCache id).getCount ≤ cfg.cMaxItemDataSize)
    (hW : ∀ q, q < qMax →
      (s0.sDirtyPages (sp + q) = true ∨ sp + q ≤ s0.sFirstUsablePage) → q < pc)
    (hMax : sp + qMax ≤ cfg.cCopySizeInPages) :
    ∀ (n si : Nat) (s : State), CommitKeeps s0 s →
      (si + n) * cfg.cSectorSizeInPages ≤ qMax →
      BufferFrom (cfg.cPageSizeInBytes * pc) s
        (commitSectors cfg 0 startSector sp n si s).2 ∧
      FlashFrom ((base + cfg.cCopySizeInPages) * cfg.cPageSizeInBytes) s
        (commitSectors cfg 0 startSector sp n si s).2 := by
  intro n
  induction n with
  | zero => intro si s _ _; exact ⟨fun _ _ => rfl, fun _ _ => rfl⟩
  | succ n ih =>
    intro si s hk hq
    have hq1 : si * cfg.cSectorSizeInPages + cfg.cSectorSizeInPages ≤ qMax := by
      have : (si + (n + 1)) * cfg.cSectorSizeInPages
          = si * cfg.cSectorSizeInPages + cfg.cSectorSizeInPages
            + n * cfg.cSectorSizeInPages := by ring
      omega
    obtain ⟨s1, s2⟩ := commitSector_frame cfg hValid base s0 startSector sp si pc qMax hBase
      hAlign hStart hFit hW hMax s hk hq1
    have hk' : CommitKeeps s0 (commitSector cfg 0 startSector sp si s).2 :=
      commitKeeps_trans _ _ _ hk
        (commitSector_rel cfg CommitKeeps commitKeeps_refl commitKeeps_trans
          (serialize_commitKeeps cfg) (writePage_commitKeeps cfg) (eraseSector_commitKeeps cfg)
          0 startSector sp si s)
    simp only [commitSectors]
    split_ifs
    · obtain ⟨r1, r2⟩ := ih (si + 1) _ hk'
        (by
          have : si + 1 + n = si + (n + 1) := by omega
          rw [this]
          exact hq)
      exact ⟨bufferFrom_trans _ _ _ _ s1 r1, flashFrom_trans _ _ _ _ s2 r2⟩
    · exact ⟨s1, s2⟩

/-- The loop of `commit(uint32_t)` over copy A changes the read-ahead buffer inside the
pages its first round reads only, when the dirty and the used pages of the copy lie before
`gEnd`, and leaves the flash from copy B on as it is. -/
theorem commitLoop_frame (cfg : Params) (hValid : cfg.valid) (base gEnd : Nat) (s0 : State)
    (hBase : s0.sStartPage = base) (hAlign : base % cfg.cSectorSizeInPages = 0)
    (hFit : ∀ id, id < s0.sNextId → (s0.sCache id).getCount ≤ cfg.cMaxItemDataSize)
    (hJ : ∀ p, p < cfg.cCopySizeInPages →
      (s0.sDirtyPages p = true ∨ p ≤ s0.sFirstUsablePage) → p < gEnd)
    (hEnd : gEnd ≤ cfg.cCopySizeInPages) :
    ∀ (fuel dirtyIter : Nat) (s : State) (r : Bool × State), CommitKeeps s0 s →
      dirtyIter ≤ gEnd →
      commitLoop cfg 0 gEnd fuel dirtyIter s = some r →
      BufferFrom
        (cfg.cPageSizeInBytes
          * (min gEnd (dirtyIter / cfg.cSectorSizeInPages * cfg.cSectorSizeInPages
              + cfg.tReadAheadSizeInPages)
            - dirtyIter / cfg.cSectorSizeInPages * cfg.cSectorSizeInPages)) s r.2 ∧
      FlashFrom ((base + cfg.cCopySizeInPages) * cfg.cPageSizeInBytes) s r.2 := by
  obtain ⟨hS, hRAS⟩ := valid_sector cfg hValid
  have hRAmod : cfg.tReadAheadSizeInPages % cfg.cSectorSizeInPages = 0 := hValid.2.1
  have hCopy : cfg.cCopySizeInPages % cfg.cSectorSizeInPages = 0 := hValid.2.2.1
  intro fuel
  induction fuel with
  | zero =>
    intro dirtyIter s r _ _ h
    unfold commitLoop at h
    split_ifs at h
    cases h
    exact ⟨fun _ _ => rfl, fun _ _ => rfl⟩
  | succ fuel ih =>
    intro dirtyIter s r hk hIter h
    by_cases hDone : dirtyIter = gEnd
    · unfold commitLoop at h
      rw [if_pos hDone] at h
      cases h
      exact ⟨fun _ _ => rfl, fun _ _ => rfl⟩
    · have hLt : dirtyIter < gEnd := Nat.lt_of_le_of_ne hIter hDone
      have hDiv : dirtyIter / cfg.cSectorSizeInPages * cfg.cSectorSizeInPages ≤ dirtyIter :=
        Nat.div_mul_le_self _ _
      have hMin1 := Nat.min_le_left gEnd
        (dirtyIter / cfg.cSectorSizeInPages * cfg.cSectorSizeInPages
          + cfg.tReadAheadSizeInPages)
      have hMinR := Nat.min_le_right gEnd
        (dirtyIter / cfg.cSectorSizeInPages * cfg.cSectorSizeInPages
          + cfg.tReadAheadSizeInPages)
      have hMin2 : dirtyIter / cfg.cSectorSizeInPages * cfg.cSectorSizeInPages ≤ min gEnd
          (dirtyIter / cfg.cSectorSizeInPages * cfg.cSectorSizeInPages
            + cfg.tReadAheadSizeInPages) := by
        rw [Nat.le_min]
        omega
      generalize hsp : dirtyIter / cfg.cSectorSizeInPages * cfg.cSectorSizeInPages = sp
        at h hDiv hMin1 hMinR hMin2 ⊢
      generalize hep : min gEnd (sp + cfg.tReadAheadSizeInPages) = endPage
        at h hMin1 hMinR hMin2 ⊢
      have hspmod : sp % cfg.cSectorSizeInPages = 0 := by
        rw [← hsp]
        exact Nat.mul_mod_left _ _
      have hFitC := sectors_fit cfg.cSectorSizeInPages sp (endPage - sp)
        cfg.cCopySizeInPages hS hspmod hCopy (by omega)
      have hFitR := sectors_fit cfg.cSectorSizeInPages 0 (endPage - sp)
        cfg.tReadAheadSizeInPages hS (Nat.zero_mod _) hRAmod (by omega)
      rw [Nat.zero_add] at hFitR
      have hW : ∀ q,
          q < (endPage - sp + cfg.cSectorSizeInPages - 1) / cfg.cSectorSizeInPages
            * cfg.cSectorSizeInPages →
          (s0.sDirtyPages (sp + q) = true ∨ sp + q ≤ s0.sFirstUsablePage) →
          q < endPage - sp := by
        intro q hq hq2
        have h1 := hJ (sp + q) (by omega) hq2
        have h2 : sp + q < min gEnd (sp + cfg.tReadAheadSizeInPages) := by
          rw [Nat.lt_min]
          omega
        rw [hep] at h2
        omega
      have hRd := readPages_frame cfg s (s.sStartPage + 0 + sp) (endPage - sp)
        ((base + cfg.cCopySizeInPages) * cfg.cPageSizeInBytes)
      have hkRd : CommitKeeps s0 (readPages cfg s (s.sStartPage + 0 + sp) (endPage - sp)).2 :=
        commitKeeps_trans _ _ _ hk (readPages_commitKeeps cfg s _ _)
      have hSec := commitSectors_frame cfg hValid base s0 (dirtyIter / cfg.cSectorSizeInPages)
        sp (endPage - sp)
        ((endPage - sp + cfg.cSectorSizeInPages - 1) / cfg.cSectorSizeInPages
          * cfg.cSectorSizeInPages)
        hBase hAlign hsp.symm hFit hW hFitC
        ((endPage - sp + cfg.cSectorSizeInPages - 1) / cfg.cSectorSizeInPages) 0
        (readPages cfg s (s.sStartPage + 0 + sp) (endPage - sp)).2 hkRd
        (by rw [Nat.zero_add])
      have hkSec : CommitKeeps s0 (commitSectors cfg 0 (dirtyIter / cfg.cSectorSizeInPages) sp
          ((endPage - sp + cfg.cSectorSizeInPages - 1) / cfg.cSectorSizeInPages) 0
          (readPages cfg s (s.sStartPage + 0 + sp) (endPage - sp)).2).2 :=
        commitKeeps_trans _ _ _ hkRd
          (commitSectors_rel cfg CommitKeeps commitKeeps_refl commitKeeps_trans
            (serialize_commitKeeps cfg) (writePage_commitKeeps cfg)
            (eraseSector_commitKeeps cfg) 0 _ sp _ 0 _)
      unfold commitLoop at h
      rw [if_neg hDone] at h
      simp only at h
      rw [hsp, hep] at h
      split_ifs at h with hFail hOk
      · cases h
        exact hRd
      · have hB := findDirty_bounds s.sDirtyPages (gEnd - endPage) endPage
        obtain ⟨r1, r2⟩ := ih _ _ r hkSec (by omega) h
        refine ⟨?_, flashFrom_trans _ _ _ _ (flashFrom_trans _ _ _ _ hRd.2 hSec.2) r2⟩
        refine bufferFrom_trans _ _ _ _ (bufferFrom_trans _ _ _ _ hRd.1 hSec.1) ?_
        by_cases hLast : endPage = gEnd
        · have hd1 : findDirty s.sDirtyPages (gEnd - endPage) endPage = gEnd := by
            rw [hLast, Nat.sub_self]
            rfl
          rw [hd1, commitLoop_done] at h
          cases h
          exact fun _ _ => rfl
        · refine bufferFrom_mono _ _ _ _ r1 ?_
          apply Nat.mul_le_mul_left
          have hFull : endPage = sp + cfg.tReadAheadSizeInPages := by
            rw [← hep]
            apply Nat.min_eq_right
            by_contra hc
            apply hLast
            rw [← hep]
            apply Nat.min_eq_left
            omega
          have := Nat.min_le_right gEnd
            (findDirty s.sDirtyPages (gEnd - endPage) endPage / cfg.cSectorSizeInPages
              * cfg.cSectorSizeInPages + cfg.tReadAheadSizeInPages)
          omega
      · cases h
        exact ⟨bufferFrom_trans _ _ _ _ hRd.1 hSec.1, flashFrom_trans _ _ _ _ hRd.2 hSec.2⟩

/-- A commit without device failure leaves the two copies identical, when they were
identical before and the dirty pages of the copy lie at or before the cursor page. -/
theorem commit_mirrored (cfg : Params) (hValid : cfg.valid)
    (hC2 : cfg.tCopies = FlashCopies.c2) (base : Nat) (s : State)
    (hAlign : base % cfg.cSectorSizeInPages = 0)
    (hIn : base + cfg.tPagesNeeded ≤ cfg.cFlashSizeInPages)
    (hBase : s.sStartPage = base) (hFaults : ∀ m, s.sFaults m = false)
    (hFit : CountsFit cfg s) (hCursor : s.sFirstUsablePage + 1 < 4294967296)
    (hDirty : ∀ p, p < cfg.cCopySizeInPages → s.sDirtyPages p = true →
      p ≤ s.sFirstUsablePage)
    (hMir : Mirrored cfg s) :
    Mirrored cfg (commit cfg s) ∧ (commit cfg s).sFatals = s.sFatals := by
  obtain ⟨hS, hRAS⟩ := valid_sector cfg hValid
  have hP : 0 < cfg.cPageSizeInBytes :=
    Nat.lt_of_lt_of_le (by norm_num) hValid.2.2.2.2.2.2.2.2.1
  have hCopy : cfg.cCopySizeInPages % cfg.cSectorSizeInPages = 0 := hValid.2.2.1
  have hSize : cfg.cCopySizeInPages * (if cfg.tCopies = FlashCopies.c2 then 2 else 1)
      = cfg.tPagesNeeded := hValid.2.2.2.1
  rw [if_pos hC2] at hSize
  have hIn2 : base + 2 * cfg.cCopySizeInPages ≤ cfg.cFlashSizeInPages := by omega
  have hMod : (s.sFirstUsablePage + 1) % 4294967296 = s.sFirstUsablePage + 1 :=
    Nat.mod_eq_of_lt hCursor
  -- the pass over copy A
  obtain ⟨rA, hA⟩ := Option.isSome_iff_exists.mp (commitCopy_fuel cfg hS hRAS s 0)
  have hcA : commitCopy cfg s 0 = rA := by simp only [commitCopy, hA]
  have kA : CommitKeeps s rA.2 := by
    rw [← hcA]
    exact commitCopy_keeps cfg s 0
  rw [hMod] at hA
  have hEnd : min cfg.cCopySizeInPages (s.sFirstUsablePage + 1) ≤ cfg.cCopySizeInPages :=
    Nat.min_le_left _ _
  have hB0 := findDirty_bounds s.sDirtyPages
    (min cfg.cCopySizeInPages (s.sFirstUsablePage + 1)) 0
  have hJ : ∀ p, p < cfg.cCopySizeInPages →
      (s.sDirtyPages p = true ∨ p ≤ s.sFirstUsablePage) →
      p < min cfg.cCopySizeInPages (s.sFirstUsablePage + 1) := by
    intro p hp h
    rw [Nat.lt_min]
    rcases h with h | h
    · have := hDirty p hp h
      omega
    · omega
  obtain ⟨fA1, fA2⟩ := commitLoop_frame cfg hValid base _ s hBase hAlign (fun id _ => hFit id)
    hJ hEnd _ _ s rA (commitKeeps_refl s) (by omega) hA
  have hLock : Lock cfg base
      (cfg.cPageSizeInBytes
        * (min (min cfg.cCopySizeInPages (s.sFirstUsablePage + 1))
            (findDirty s.sDirtyPages (min cfg.cCopySizeInPages (s.sFirstUsablePage + 1)) 0
              / cfg.cSectorSizeInPages * cfg.cSectorSizeInPages
              + cfg.tReadAheadSizeInPages)
          - findDirty s.sDirtyPages (min cfg.cCopySizeInPages (s.sFirstUsablePage + 1)) 0
              / cfg.cSectorSizeInPages * cfg.cSectorSizeInPages)) s rA.2 := by
    refine ⟨hBase, kA, fA1, hFaults, ?_⟩
    intro k i hk hi
    have hge : (base + cfg.cCopySizeInPages) * cfg.cPageSizeInBytes
        ≤ (base + cfg.cCopySizeInPages + k) * cfg.cPageSizeInBytes + i :=
      Nat.le_trans (Nat.mul_le_mul_right _ (by omega)) (Nat.le_add_right _ _)
    rw [fA2 _ hge]
    have := hMir k i hk hi
    rw [hBase] at this
    exact this
  -- the pass over copy B
  obtain ⟨rB, hB⟩ := Option.isSome_iff_exists.mp
    (commitCopy_fuel cfg hS hRAS rA.2 cfg.cCopySizeInPages)
  have hcB : commitCopy cfg rA.2 cfg.cCopySizeInPages = rB := by simp only [commitCopy, hB]
  rw [kA.2.2.2.1, kA.2.2.1, hMod] at hB
  obtain ⟨l1, l2, l3, l4⟩ := commitLoop_lock cfg base _ hS hP hAlign hCopy hIn2 hEnd _ _ s rA.2
    hLock (by omega) rA rB hA hB
  have kB : CommitKeeps rA.2 rB.2 := by
    rw [← hcB]
    exact commitCopy_keeps cfg rA.2 cfg.cCopySizeInPages
  have hEq : commit cfg s = makeAllClean cfg rB.2 := by
    simp only [commit, hcA, l1, hC2, and_self, if_true, hcB, l2]
  rw [hEq]
  constructor
  · intro k i hk hi
    show rB.2.sMemoryFlash ((rB.2.sStartPage + k) * _ + i)
      = rB.2.sMemoryFlash ((rB.2.sStartPage + _ + k) * _ + i)
    rw [kB.1, kA.1, hBase]
    have hlt : (base + k) * cfg.cPageSizeInBytes + i
        < (base + cfg.cCopySizeInPages) * cfg.cPageSizeInBytes := by
      have : (base + k + 1) * cfg.cPageSizeInBytes
          ≤ (base + cfg.cCopySizeInPages) * cfg.cPageSizeInBytes :=
        Nat.mul_le_mul_right _ (by omega)
      rw [Nat.add_mul _ 1, Nat.one_mul] at this
      omega
    rw [l4 _ hlt]
    exact l3 k i hk hi
  · show rB.2.sFatals = s.sFatals
    rw [kB.2.2.2.2.2.2.1, kA.2.2.2.2.2.2.1]

theorem init_pageIndex (tValueBufferSize : Nat) (item : ConfigItem) (p o c : Nat) :
    (item.init tValueBufferSize p o c).getPageIndex = p ∨
    (item.init tValueBufferSize p o c).getPageIndex = item.getPageIndex := by
  by_cases h : item.mStatus = Status.cVoid
  · left
    simp [ConfigItem.init, h, ConfigItem.getPageIndex]
  · right
    rw [init_of_initialised _ _ _ _ _ h]

/-- The call `addConfig` keeps `MirrorInv`. -/
theorem mirrorInv_addConfig (cfg : Params) (base : Nat) (s : State) (aData : Mem)
    (aCount : Nat) (h : MirrorInv cfg base s) :
    MirrorInv cfg base (addConfig cfg s aData aCount).2 := by
  obtain ⟨h1, h2, h3, h4, h5, h6, h7, h8⟩ := h
  have hCF := addConfig_countsFit cfg s aData aCount h3
  by_cases g1 : aCount ≤ cfg.cMaxItemDataSize
  · by_cases g2 : s.sNextId < cUnusedValue
    · rw [addConfig_eq cfg s aData aCount g1 g2 _ _ rfl rfl] at hCF ⊢
      have hPage : s.sFirstUsablePage ≤
          (if (cfg.cPageSizeInBytes + 4294967296 - s.sFirstUsableByteIndex) % 4294967296
              % 65536 < aCount then (s.sFirstUsablePage + 1) % 4294967296
            else s.sFirstUsablePage) ∧
          (if (cfg.cPageSizeInBytes + 4294967296 - s.sFirstUsableByteIndex) % 4294967296
              % 65536 < aCount then (s.sFirstUsablePage + 1) % 4294967296
            else s.sFirstUsablePage) ≤ s.sFirstUsablePage + 1 := by
        split_ifs
        · rw [Nat.mod_eq_of_lt (by omega)]
          omega
        · omega
      generalize (if (cfg.cPageSizeInBytes + 4294967296 - s.sFirstUsableByteIndex) % 4294967296
          % 65536 < aCount then (s.sFirstUsablePage + 1) % 4294967296
        else s.sFirstUsablePage) = page at hCF hPage ⊢
      generalize (if (cfg.cPageSizeInBytes + 4294967296 - s.sFirstUsableByteIndex) % 4294967296
          % 65536 < aCount then cOffsetPageItems else s.sFirstUsableByteIndex) = idx
        at hCF ⊢
      have hN : s.sNextId + 1 ≤ 65535 := by
        unfold cUnusedValue at g2
        omega
      split_ifs at hCF ⊢ with hp
      · refine ⟨h1, h2, hCF, hN, ?_, ?_, ?_, h8⟩
        · show page ≤ s.sNextId + 1
          omega
        · intro id
          show (upd s.sCache s.sNextId _ id).getPageIndex ≤ page ∧
            (upd s.sCache s.sNextId _ id).getPageIndex < cfg.cCopySizeInPages
          by_cases hid : id = s.sNextId
          · rw [hid, upd_same]
            show (ConfigItem.init _ _ _ _ _).getPageIndex ≤ page ∧
              (ConfigItem.init _ _ _ _ _).getPageIndex < cfg.cCopySizeInPages
            rcases init_pageIndex cfg.tValueBufferSize (s.sCache s.sNextId) page
              ((idx + cOffsetItemData) % 65536) aCount with e | e
            · rw [e]
              exact ⟨Nat.le_refl _, hp⟩
            · rw [e]
              have := h6 s.sNextId
              exact ⟨by omega, this.2⟩
          · rw [upd_other _ _ _ _ hid]
            have := h6 id
            exact ⟨by omega, this.2⟩
        · intro p hpc hd
          show p ≤ page
          have hd' : upd s.sDirtyPages _ true p = true := hd
          by_cases hpp : p = ((s.sCache s.sNextId).init cfg.tValueBufferSize page
              ((idx + cOffsetItemData) % 65536) aCount).getPageIndex
          · rcases init_pageIndex cfg.tValueBufferSize (s.sCache s.sNextId) page
              ((idx + cOffsetItemData) % 65536) aCount with e | e
            · omega
            · have := h6 s.sNextId
              omega
          · rw [upd_other _ _ _ _ hpp] at hd'
            have := h7 p hpc hd'
            omega
      · refine ⟨h1, h2, hCF, hN, ?_, ?_, ?_, h8⟩
        · show page ≤ s.sNextId + 1
          omega
        · intro id
          show (s.sCache id).getPageIndex ≤ page ∧ _
          have := h6 id
          exact ⟨by omega, this.2⟩
        · intro p hpc hd
          show p ≤ page
          have := h7 p hpc hd
          omega
    · have g2' : s.sNextId ≥ cUnusedValue := by omega
      have g1' : ¬ aCount > cfg.cMaxItemDataSize := by omega
      simp only [addConfig, g1', g2', if_false, if_true]
      exact ⟨h1, h2, h3, h4, h5, h6, h7, h8⟩
  · have g1' : aCount > cfg.cMaxItemDataSize := by omega
    simp only [addConfig, g1', if_true]
    exact ⟨h1, h2, h3, h4, h5, h6, h7, h8⟩

/-- The call `setConfig` keeps `MirrorInv`. -/
theorem mirrorInv_setConfig (cfg : Params) (base : Nat) (s : State) (aId : Nat) (aData : Mem)
    (h : MirrorInv cfg base s) : MirrorInv cfg base (setConfig s aId aData) := by
  obtain ⟨h1, h2, h3, h4, h5, h6, h7, h8⟩ := h
  simp only [setConfig]
  split_ifs
  · exact ⟨h1, h2, h3, h4, h5, h6, h7, h8⟩
  · refine ⟨h1, h2, ?_, h4, h5, ?_, ?_, h8⟩
    · intro id
      show (upd s.sCache aId _ id).getCount ≤ _
      by_cases hid : id = aId
      · rw [hid, upd_same]
        exact h3 aId
      · rw [upd_other _ _ _ _ hid]
        exact h3 id
    · intro id
      show (upd s.sCache aId _ id).getPageIndex ≤ _ ∧ (upd s.sCache aId _ id).getPageIndex < _
      by_cases hid : id = aId
      · rw [hid, upd_same]
        exact h6 aId
      · rw [upd_other _ _ _ _ hid]
        exact h6 id
    · intro p hpc hd
      have hd' : upd s.sDirtyPages (s.sCache aId).getPageIndex true p = true := hd
      show p ≤ s.sFirstUsablePage
      by_cases hpp : p = (s.sCache aId).getPageIndex
      · rw [hpp]
        exact (h6 aId).1
      · rw [upd_other _ _ _ _ hpp] at hd'
        exact h7 p hpc hd'
  · exact ⟨h1, h2, h3, h4, h5, h6, h7, h8⟩

/-- The call `commit` keeps `MirrorInv`, and reports no fatal error. -/
theorem mirrorInv_commit (cfg : Params) (hValid : cfg.valid)
    (hC2 : cfg.tCopies = FlashCopies.c2) (base : Nat) (s : State)
    (hAlign : base % cfg.cSectorSizeInPages = 0)
    (hIn : base + cfg.tPagesNeeded ≤ cfg.cFlashSizeInPages)
    (h : MirrorInv cfg base s) :
    MirrorInv cfg base (commit cfg s) ∧ (commit cfg s).sFatals = s.sFatals := by
  obtain ⟨h1, h2, h3, h4, h5, h6, h7, h8⟩ := h
  obtain ⟨k1, k2, k3, k4, k5⟩ := commit_keeps cfg s
  obtain ⟨m1, m2⟩ := commit_mirrored cfg hValid hC2 base s hAlign hIn h1 h2 h3 (by omega) h7 h8
  refine ⟨⟨by rw [k5]; exact h1, ?_, ?_, by rw [k1]; exact h4, by rw [k3, k1]; exact h5, ?_,
    ?_, m1⟩, m2⟩
  · intro m
    rw [(commit_device cfg s).2]
    exact h2 m
  · exact countsFit_of_cache cfg s _ k2 h3
  · intro id
    rw [k2, k3]
    exact h6 id
  · intro p hpc hd
    rcases commit_outcome cfg s with ⟨_, hc⟩ | ⟨_, hc⟩
    · rw [hc p hpc] at hd
      cases hd
    · rw [hc] at hd
      rw [k3]
      exact h7 p hpc hd

/-- Reading a copy whose first page starts with 0xFF leaves the cache as it is. -/
theorem readAcopy_erased_cache (cfg : Params) (s : State) (off : Nat) (aTask : Task)
    (hTask : aTask ≠ Task.cCheckFf) (hFault : s.sFaults s.sCalls.length = false)
    (hIn : s.sStartPage + off + cfg.cCopySizeInPages ≤ cfg.cFlashSizeInPages)
    (hCopy : 0 < cfg.cCopySizeInPages) (hRA : 0 < cfg.tReadAheadSizeInPages)
    (hP : 0 < cfg.cPageSizeInBytes)
    (hMagic : s.sMemoryFlash ((s.sStartPage + off) * cfg.cPageSizeInBytes) = cMagicErased) :
    (readAcopy cfg s off aTask).2.sCache = s.sCache := by
  have hLoop := readAcopyLoop_erased cfg
    { s with sFirstUsablePage := 0, sFirstUsableByteIndex := cOffsetPageItems } off aTask
    cfg.cCopySizeInPages hTask hFault hIn hCopy hRA hP hMagic
  have hMin : min cfg.tReadAheadSizeInPages (cfg.cCopySizeInPages - 0) ≤ cfg.cCopySizeInPages := by
    simp only [Nat.sub_zero]
    exact Nat.min_le_right _ _
  have hRd := readPages_ok cfg
    { s with sFirstUsablePage := 0, sFirstUsableByteIndex := cOffsetPageItems }
    (s.sStartPage + off + 0)
    (min cfg.tReadAheadSizeInPages (cfg.cCopySizeInPages - 0)) hFault ⟨by omega, by omega⟩
  simp only [readAcopy]
  rw [hLoop, hRd]
  simp [logCall]

/-- In dual-copy mode `readAll` on a partition of 0xFF bytes leaves `sNextId` and the cursor
page at 0 and the cache as it is. -/
theorem readAll_erased_c2 (cfg : Params) (hValid : cfg.valid)
    (hC2 : cfg.tCopies = FlashCopies.c2) (s : State)
    (hFaults : ∀ n, s.sFaults n = false) (hCopy : 0 < cfg.cCopySizeInPages)
    (hIn : s.sStartPage + cfg.tPagesNeeded ≤ cfg.cFlashSizeInPages)
    (hErased : ∀ a, s.sStartPage * cfg.cPageSizeInBytes ≤ a →
      a < (s.sStartPage + cfg.tPagesNeeded) * cfg.cPageSizeInBytes →
      s.sMemoryFlash a = cMagicErased) :
    (readAll cfg s).sNextId = 0 ∧ (readAll cfg s).sFirstUsablePage = 0 ∧
    (readAll cfg s).sCache = s.sCache := by
  have hRA : 0 < cfg.tReadAheadSizeInPages := Nat.lt_trans Nat.zero_lt_one hValid.1
  have hP : 0 < cfg.cPageSizeInBytes :=
    Nat.lt_of_lt_of_le (by norm_num) hValid.2.2.2.2.2.2.2.2.1
  have hSize : cfg.cCopySizeInPages * (if cfg.tCopies = FlashCopies.c2 then 2 else 1)
      = cfg.tPagesNeeded := hValid.2.2.2.1
  rw [if_pos hC2] at hSize
  have hMagicA : (clear cfg s).sMemoryFlash (((clear cfg s).sStartPage + 0)
      * cfg.cPageSizeInBytes) = cMagicErased :=
    hErased _ (by show s.sStartPage * _ ≤ (s.sStartPage + 0) * _; simp)
      (by
        show (s.sStartPage + 0) * _ < _
        apply Nat.mul_lt_mul_of_pos_right _ hP
        omega)
  have hInA : (clear cfg s).sStartPage + 0 + cfg.cCopySizeInPages ≤ cfg.cFlashSizeInPages := by
    show s.sStartPage + 0 + cfg.cCopySizeInPages ≤ cfg.cFlashSizeInPages
    omega
  have hA := readAcopy_erased cfg (clear cfg s) 0 Task.cCopy (by simp) (hFaults _) hInA
    hCopy hRA hP hMagicA
  have hAc := readAcopy_erased_cache cfg (clear cfg s) 0 Task.cCopy (by simp) (hFaults _) hInA
    hCopy hRA hP hMagicA
  have kA := readAcopy_readKeeps cfg (clear cfg s) 0 Task.cCopy
  have hB := readAcopy_erased cfg (readAcopy cfg (clear cfg s) 0 Task.cCopy).2
    cfg.cCopySizeInPages Task.cCheck (by simp)
    (by rw [kA.2.2.2.2]; exact hFaults _)
    (by rw [kA.1]; show s.sStartPage + _ + _ ≤ _; omega) hCopy hRA hP
    (by
      rw [kA.2.2.2.1, kA.1]
      show s.sMemoryFlash ((s.sStartPage + cfg.cCopySizeInPages) * _) = _
      apply hErased
      · apply Nat.mul_le_mul_right
        omega
      · apply Nat.mul_lt_mul_of_pos_right _ hP
        omega)
  have kB := readAcopy_cacheKeeps cfg (readAcopy cfg (clear cfg s) 0 Task.cCopy).2
    cfg.cCopySizeInPages Task.cCheck (by simp)
  have hEq : readAll cfg s =
      (readAcopy cfg (readAcopy cfg (clear cfg s) 0 Task.cCopy).2 cfg.cCopySizeInPages
        Task.cCheck).2 := by
    unfold readAll
    lift_lets
    intro r1 result1 fup1 fubi1 r2 result2 src src1
    have h1 : result1 = ReadResult.cOk := hA.1
    have hr2 : r2 = readAcopy cfg r1.2 cfg.cCopySizeInPages Task.cCheck :=
      if_neg (not_not.2 h1)
    have h2 : result2 = ReadResult.cOk := by
      show r2.1 = _
      rw [hr2]
      exact hB.1
    rw [if_pos hC2, if_neg (by simp [h2]), if_neg (by simp [h2]), if_neg (by simp [h1]),
      if_neg (by simp [h1]), hr2]
  rw [hEq]
  refine ⟨?_, hB.2.2.1, ?_⟩
  · rw [hB.2.1, hA.2.1]
    rfl
  · rw [kB.2, hAc]
    rfl

/-- After `init` on a partition of 0xFF bytes `MirrorInv` holds. -/
theorem mirrorInv_init (cfg : Params) (hValid : cfg.valid)
    (hC2 : cfg.tCopies = FlashCopies.c2) (base : Nat) (s : State)
    (hFaults : ∀ n, s.sFaults n = false) (hCopy : 0 < cfg.cCopySizeInPages)
    (hIn : base + cfg.tPagesNeeded ≤ cfg.cFlashSizeInPages)
    (hErased : ∀ a, base * cfg.cPageSizeInBytes ≤ a →
      a < (base + cfg.tPagesNeeded) * cfg.cPageSizeInBytes →
      s.sMemoryFlash a = cMagicErased) :
    MirrorInv cfg base (init cfg s base) := by
  have hSize : cfg.cCopySizeInPages * (if cfg.tCopies = FlashCopies.c2 then 2 else 1)
      = cfg.tPagesNeeded := hValid.2.2.2.1
  rw [if_pos hC2] at hSize
  obtain ⟨e1, e2, e3⟩ := readAll_erased_c2 cfg hValid hC2
    { s with sStartPage := base, sCache := fun _ => ConfigItem.new } hFaults hCopy hIn hErased
  have kR := readAll_rel cfg (fun a b : State => b.sMemoryFlash = a.sMemoryFlash)
    (fun _ => rfl) (fun _ _ _ h1 h2 => h2.trans h1)
    (fun aTask s aPage idx => (processPage_readKeeps cfg aTask s aPage idx).2.2.2.1)
    (fun s a n => (readPages_readKeeps cfg s a n).2.2.2.1)
    (fun _ _ _ => rfl) (fun _ => rfl) (fun _ _ => rfl)
    { s with sStartPage := base, sCache := fun _ => ConfigItem.new }
  have hD := init_device cfg s base
  refine ⟨hD.1, ?_, init_countsFit cfg hValid s base, ?_, ?_, ?_, ?_, ?_⟩
  · intro m
    rw [hD.2]
    exact hFaults m
  · show (readAll cfg _).sNextId ≤ 65535
    rw [e1]
    omega
  · show (readAll cfg _).sFirstUsablePage ≤ (readAll cfg _).sNextId
    rw [e1, e2]
  · intro id
    show ((readAll cfg _).sCache id).getPageIndex ≤ (readAll cfg _).sFirstUsablePage ∧
      ((readAll cfg _).sCache id).getPageIndex < cfg.cCopySizeInPages
    rw [e3, e2]
    exact ⟨Nat.le_refl _, hCopy⟩
  · intro p hp hd
    have := readAll_dirty cfg { s with sStartPage := base, sCache := fun _ => ConfigItem.new }
      p hp
    have hd' : (readAll cfg { s with sStartPage := base, sCache := fun _ => ConfigItem.new }
      ).sDirtyPages p = true := hd
    rw [this] at hd'
    cases hd'
  · intro k i hk hi
    show (readAll cfg _).sMemoryFlash (((init cfg s base).sStartPage + k) * _ + i)
      = (readAll cfg _).sMemoryFlash (((init cfg s base).sStartPage + _ + k) * _ + i)
    rw [kR, hD.1]
    have hA : (base + k) * cfg.cPageSizeInBytes + i
        < (base + cfg.tPagesNeeded) * cfg.cPageSizeInBytes := by
      have : (base + k + 1) * cfg.cPageSizeInBytes
          ≤ (base + cfg.tPagesNeeded) * cfg.cPageSizeInBytes :=
        Nat.mul_le_mul_right _ (by omega)
      rw [Nat.add_mul _ 1, Nat.one_mul] at this
      omega
    have hB : (base + cfg.cCopySizeInPages + k) * cfg.cPageSizeInBytes + i
        < (base + cfg.tPagesNeeded) * cfg.cPageSizeInBytes := by
      have : (base + cfg.cCopySizeInPages + k + 1) * cfg.cPageSizeInBytes
          ≤ (base + cfg.tPagesNeeded) * cfg.cPageSizeInBytes :=
        Nat.mul_le_mul_right _ (by omega)
      rw [Nat.add_mul _ 1, Nat.one_mul] at this
      omega
    have hA0 : base * cfg.cPageSizeInBytes ≤ (base + k) * cfg.cPageSizeInBytes + i :=
      Nat.le_trans (Nat.mul_le_mul_right _ (by omega)) (Nat.le_add_right _ _)
    have hB0 : base * cfg.cPageSizeInBytes
        ≤ (base + cfg.cCopySizeInPages + k) * cfg.cPageSizeInBytes + i :=
      Nat.le_trans (Nat.mul_le_mul_right _ (by omega)) (Nat.le_add_right _ _)
    show s.sMemoryFlash _ = s.sMemoryFlash _
    rw [hErased _ hA0 hA, hErased _ hB0 hB]

/-- The calls `addConfig`, `setConfig` and `commit` keep `MirrorInv`. -/
theorem mirrorInv_runCalls (cfg : Params) (hValid : cfg.valid)
    (hC2 : cfg.tCopies = FlashCopies.c2) (base : Nat)
    (hAlign : base % cfg.cSectorSizeInPages = 0)
    (hIn : base + cfg.tPagesNeeded ≤ cfg.cFlashSizeInPages) :
    ∀ (calls : List Call) (s : State), MirrorInv cfg base s →
      (∀ c ∈ calls, Call.isUpdate c) → MirrorInv cfg base (runCalls cfg s calls) := by
  intro calls
  induction calls with
  | nil => intro s h _; exact h
  | cons c cs ih =>
    intro s h hc
    simp only [runCalls]
    apply ih _ _ (fun c' hc' => hc c' (List.mem_cons_of_mem _ hc'))
    have hcu := hc c (List.mem_cons_self _ _)
    cases c with
    | addConfig aData aCount => exact mirrorInv_addConfig cfg base s aData aCount h
    | setConfig aId aData => exact mirrorInv_setConfig cfg base s aId aData h
    | commit => exact (mirrorInv_commit cfg hValid hC2 base s hAlign hIn h).1
    | getConfig aId => exact absurd hcu (by simp [Call.isUpdate])
    | makeAllDirty => exact absurd hcu (by simp [Call.isUpdate])
    | clear => exact absurd hcu (by simp [Call.isUpdate])
    | readAllDebugTodoRemove => exact absurd hcu (by simp [Call.isUpdate])

/-- C15 (amended): the copies are mirrored.  In a valid dual-copy instantiation whose
partition starts on a sector boundary and lies inside the flash, when no device call fails,
in every state reached from `init` on a partition of 0xFF bytes by calls of `addConfig`,
`setConfig` and `commit`, so in particular immediately after each `commit`, page `base + k`
of copy A and page `base + cCopySizeInPages + k` of copy B hold identical bytes for every
page `k` of a copy, which covers every `k` in `[0, sFirstUsablePage]` below
`cCopySizeInPages`; and a `commit` in such a state reports no fatal error. -/
theorem copies_mirrored (cfg : Params) (hValid : cfg.valid)
    (hC2 : cfg.tCopies = FlashCopies.c2) (base : Nat) (s0 : State) (calls : List Call)
    (hAlign : base % cfg.cSectorSizeInPages = 0)
    (hIn : base + cfg.tPagesNeeded ≤ cfg.cFlashSizeInPages)
    (hCopy : 0 < cfg.cCopySizeInPages)
    (hFaults : ∀ n, s0.sFaults n = false)
    (hErased : ∀ a, base * cfg.cPageSizeInBytes ≤ a →
      a < (base + cfg.tPagesNeeded) * cfg.cPageSizeInBytes →
      s0.sMemoryFlash a = cMagicErased)
    (hCalls : ∀ c ∈ calls, Call.isUpdate c) :
    (∀ k i, k < cfg.cCopySizeInPages → i < cfg.cPageSizeInBytes →
      (runCalls cfg (init cfg s0 base) calls).sMemoryFlash
          ((base + k) * cfg.cPageSizeInBytes + i)
        = (runCalls cfg (init cfg s0 base) calls).sMemoryFlash
            ((base + cfg.cCopySizeInPages + k) * cfg.cPageSizeInBytes + i)) ∧
    (commit cfg (runCalls cfg (init cfg s0 base) calls)).sFatals
      = (runCalls cfg (init cfg s0 base) calls).sFatals := by
  have h0 := mirrorInv_init cfg hValid hC2 base s0 hFaults hCopy hIn hErased
  have h := mirrorInv_runCalls cfg hValid hC2 base hAlign hIn calls _ h0 hCalls
  refine ⟨?_, (mirrorInv_commit cfg hValid hC2 base _ hAlign hIn h).2⟩
  intro k i hk hi
  have hm := h.2.2.2.2.2.2.2 k i hk hi
  rw [h.1] at hm
  exact hm

/-! ## The scenarios, evaluated -/

set_option maxRecDepth 100000

/-- The two instantiations used below satisfy the static assertions. -/
theorem scenarios_valid : testParams.valid ∧ smallParams.valid := by
  decide!

/-- The sixteen adds of `testConfig1` in test/flash.cpp report no fatal error and leave the
cursor at page 2, byte index 230. -/
theorem testConfig1_adds :
    testConfig1Items.sFatals = [] ∧ testConfig1Items.sNextId = 16 ∧
    testConfig1Items.sFirstUsablePage = 2 ∧ testConfig1Items.sFirstUsableByteIndex = 230 := by
  decide!

/-- C1 (failing input).  After `init` on an erased flash, one `addConfig` of 247 bytes (the
largest count `addConfig` accepts for pages of 256 bytes) reports no fatal error, and so
does `commit`, all six device calls of which succeed; but `readAll` after `clear` then
reports `cConfigBadCopies` and leaves `sNextId` at 0 instead of 1: `serialize` has written
a page with no item in it. -/
theorem round_trip_loses_page_filling_item :
    fullPageItem.sFatals = [] ∧ fullPageItem.sNextId = 1 ∧
    configView fullPageItem 0 = bytesOf sPattern 247 ∧
    (commit testParams fullPageItem).sFatals = [] ∧
    (commit testParams fullPageItem).sCalls.map Prod.snd = List.replicate 6 SpiResult.cOk ∧
    getValue (ptrAdd (commit testParams fullPageItem).sMemoryFlash cOffsetPageCount) = 0 ∧
    (readAll testParams (clear testParams (commit testParams fullPageItem))).sFatals
      = [FlashException.cConfigBadCopies] ∧
    (readAll testParams (clear testParams (commit testParams fullPageItem))).sNextId = 0 := by
  decide!

/-- C2 (counterexample).  After `init` on an erased flash, `addConfig` of three bytes and
`clear`, a call `addConfig(sPattern, 5)` reports no fatal error and returns the id 0, and
`getConfig(0)` reports none either, but the entry still has the count 3 of the first add:
it gives three bytes, not the five of the call. -/
theorem addConfig_after_clear_keeps_old_count :
    (addConfig testParams afterClear sPattern 5).1 = 0 ∧
    (addConfig testParams afterClear sPattern 5).2.sFatals = [] ∧
    (getConfig (addConfig testParams afterClear sPattern 5).2 0).2.sFatals = [] ∧
    configView (addConfig testParams afterClear sPattern 5).2 0 = [0, 1, 2] ∧
    bytesOf sPattern 5 = [0, 1, 2, 3, 4] ∧
    configView (addConfig testParams afterClear sPattern 5).2 0 ≠ bytesOf sPattern 5 := by
  decide!

/-- C2 (witness).  The first add after `init` on an erased flash. -/
theorem addConfig_then_getConfig_witness :
    ((testBooted.sCache testBooted.sNextId).mStatus = Status.cVoid ∨
      (testBooted.sCache testBooted.sNextId).mCount = 3) ∧
    (addConfig testParams testBooted sPattern 3).2.sFatals = testBooted.sFatals ∧
    configView (addConfig testParams testBooted sPattern 3).2
      (addConfig testParams testBooted sPattern 3).1 = bytesOf sPattern 3 :=
  ⟨by decide!, by decide!,
    (addConfig_then_getConfig testParams testBooted sPattern 3 (by decide!) (by decide!)).2.2⟩

/-- C3 (witness).  A `setConfig` of the one item of `oneItem`. -/
theorem setConfig_frame_witness :
    0 < oneItem.sNextId ∧
    configView (setConfig oneItem 0 (fun _ => 7)) 0
      = bytesOf (fun _ => 7) (oneItem.sCache 0).getCount :=
  ⟨by decide!, (setConfig_frame oneItem 0 (fun _ => 7) (by decide!)).2.2.2.2.2.1⟩

/-- C4 (counterexample).  `clear` after one add takes `sNextId` from 1 back to 0, and the
next add returns the id 0 a second time. -/
theorem clear_decreases_nextId :
    oneItem.sNextId = 1 ∧ (clear testParams oneItem).sNextId = 0 ∧
    (clear testParams oneItem).sNextId < oneItem.sNextId ∧
    (addConfig testParams testBooted sPattern 3).1 = 0 ∧
    (addConfig testParams (clear testParams oneItem) sPattern 3).1 = 0 := by
  decide!

/-- C5 (counterexample).  With pages of 256 bytes, on the fresh page left by `init` on an
erased flash (byte index 5, `sNextId` 0), `addConfig` of 256 - 8 bytes reports
`cConfigItemTooBig` and returns 0xFFFF. -/
theorem addConfig_page_minus_8_too_big :
    testBooted.sFirstUsableByteIndex = 5 ∧ testBooted.sNextId = 0 ∧
    testBooted.sFirstUsablePage = 0 ∧
    (addConfig testParams testBooted sPattern (256 - 8)).1 = 0xffff ∧
    (addConfig testParams testBooted sPattern (256 - 8)).2.sFatals
      = [FlashException.cConfigItemTooBig] := by
  decide!

/-- C5 (witness).  The largest item on the fresh page left by `init` on an erased flash. -/
theorem item_size_limit_witness :
    (256 ≤ testParams.cPageSizeInBytes ∧ testParams.cPageSizeInBytes ≤ 32768 ∧
      testBooted.sFirstUsableByteIndex = cOffsetPageItems ∧
      testBooted.sFirstUsablePage < testParams.cCopySizeInPages ∧
      testBooted.sNextId < cUnusedValue) ∧
    (addConfig testParams testBooted sPattern (testParams.cPageSizeInBytes - 9)).2.sFatals
      = testBooted.sFatals :=
  ⟨by decide!,
    (item_size_limit testParams (by decide!) (by decide!) testBooted sPattern (by decide!)
      (by decide!) (by decide!) (Or.inl (by decide!))).2.1.1⟩

/-- C6 (failing input).  Single copy of 16 pages of 256 bytes.  After fifteen adds of 247
bytes, one of 100 and one of 147, none of which reports a fatal error, the cursor is at page
15, byte index 260, past the end of the page.  The page has no room for one more byte
(`256 < 260 + 1`), and the next page, 16, is not below `cCopySizeInPages`; yet
`addConfig(sPattern, 1)` reports no fatal error and places the item on page 15 at offset
264. -/
theorem addConfig_past_page_end_not_full :
    overshoot.sFatals = [] ∧ overshoot.sNextId = 17 ∧ overshoot.sFirstUsablePage = 15 ∧
    overshoot.sFirstUsableByteIndex = 260 ∧ smallParams.cCopySizeInPages = 16 ∧
    1 ≤ smallParams.cPageSizeInBytes - 9 ∧
    smallParams.cPageSizeInBytes < overshoot.sFirstUsableByteIndex + 1 ∧
    smallParams.cCopySizeInPages ≤ overshoot.sFirstUsablePage + 1 ∧
    (addConfig smallParams overshoot sPattern 1).2.sFatals = [] ∧
    ((addConfig smallParams overshoot sPattern 1).2.sCache 17).mPageIndex = 15 ∧
    ((addConfig smallParams overshoot sPattern 1).2.sCache 17).mDataOffsetInFirstPage = 264 := by
  decide!

/-- C7 (failing input).  Single copy of 16 pages of 256 bytes, all sixteen filled by adds of
247 bytes.  The next `addConfig(sPattern, 1)` reports `cConfigFull`, but it returns the id
16, not 0xFFFF, and it has changed the state: `sNextId` went from 16 to 17 and the cursor
from (15, 256) to (16, 5). -/
theorem addConfig_full_not_atomic :
    sixteenFull.sFatals = [] ∧ sixteenFull.sNextId = 16 ∧ sixteenFull.sFirstUsablePage = 15 ∧
    sixteenFull.sFirstUsableByteIndex = 256 ∧
    (addConfig smallParams sixteenFull sPattern 1).2.sFatals = [FlashException.cConfigFull] ∧
    (addConfig smallParams sixteenFull sPattern 1).1 = 16 ∧
    (addConfig smallParams sixteenFull sPattern 1).2.sNextId = 17 ∧
    (addConfig smallParams sixteenFull sPattern 1).2.sFirstUsablePage = 16 ∧
    (addConfig smallParams sixteenFull sPattern 1).2.sFirstUsableByteIndex = 5 := by
  decide!

/-- C10 (witness).  `readAll` on an erased flash with two copies: both reads give `cOk` and
no fatal error is reported. -/
theorem readAll_outcome_matrix_witness :
    testParams.tCopies = FlashCopies.c2 ∧
    (readAll testParams powerOn).sFatals = powerOn.sFatals :=
  ⟨rfl, ((readAll_outcome_matrix testParams rfl powerOn).2.2.2.2.1 (by decide!) (by decide!)).1⟩

/-- C17: on the page of 256 zero bytes the checksum the code computes is 38252, and the sum
with the table index `k mod 16` throughout, as the specification defines it, is 25180. -/
theorem checksum_differs_from_spec :
    calculateChecksum 256 (fun _ => 0) = 38252 ∧ checksumBySpec 256 (fun _ => 0) = 25180 := by
  decide!

/-- C18 at the zero page of 256 bytes: a change of byte 5 to 1 changes the checksum. -/
theorem checksum_detects_single_byte_witness :
    calculateChecksum 256 (upd (fun _ => 0) 5 1) ≠ calculateChecksum 256 (fun _ => 0) :=
  checksum_detects_single_byte 256 (fun _ => 0) 5 1 (by decide) (by decide) (by decide)
    (by decide) (by decide) (by decide)

/-- C19 in the test instantiation: after `init` on the erased flash and one `addConfig`,
`serialize` of page 0 into a zeroed read-ahead buffer leaves a page with magic 0x00. -/
theorem serialized_page_validates_witness :
    testParams.valid ∧
    bufferPage testParams
      (serialize testParams
        { runCalls testParams (init testParams powerOn 0) [Call.addConfig sPattern 3] with
          sReadAheadBuffer := fun _ => 0 } 0 0) 0 cOffsetPageMagic = cMagicConfig :=
  ⟨scenarios_valid.1,
    (serialized_page_validates testParams scenarios_valid.1 powerOn 0
      [Call.addConfig sPattern 3] (fun _ => 0) 0 0).2.1⟩

/-- C11 in the test instantiation: `readAll` at power on, on the erased flash, reports no
fatal error and leaves `sNextId` at 0. -/
theorem readAll_of_erased_flash_witness :
    (∀ n, powerOn.sFaults n = false) ∧
    (readAll testParams powerOn).sFatals = [] ∧ (readAll testParams powerOn).sNextId = 0 :=
  ⟨fun _ => rfl,
    (readAll_of_erased_flash testParams scenarios_valid.1 powerOn (fun _ => rfl) (by decide)
      (by decide) (fun _ _ _ => rfl)).1,
    (readAll_of_erased_flash testParams scenarios_valid.1 powerOn (fun _ => rfl) (by decide)
      (by decide) (fun _ _ _ => rfl)).2.1⟩

/-- C16: the cursor after a reload.  One item of three bytes is committed without fatal
error with the cursor at page 0, byte index 12; after `clear` and `readAll`, which reports
no fatal error either, the cursor is at page 48, the size of the read-ahead buffer, and
byte index 12. -/
theorem reload_cursor_page_off_by_chunk :
    oneItemCommitted.sFatals = [] ∧
    oneItemCommitted.sFirstUsablePage = 0 ∧ oneItemCommitted.sFirstUsableByteIndex = 12 ∧
    (readAll testParams (clear testParams oneItemCommitted)).sFatals = [] ∧
    (readAll testParams (clear testParams oneItemCommitted)).sFirstUsablePage = 48 ∧
    (readAll testParams (clear testParams oneItemCommitted)).sFirstUsableByteIndex = 12 := by
  decide!

/-- C13: a torn commit.  On the erased flash one item of three bytes is added and
committed; the `writePage` of copy B, the sixth device call, fails, and `commit` reports
`cFlashTransferError`.  The next `readAll` reports nothing: the log of fatal errors is as
`commit` left it, without `cConfigBadCopy2`.  The item is read back from copy A, and the
cursor is left at page 0, byte index 5, where the item lies. -/
theorem torn_commit_not_reported :
    tornCommit.sCalls =
      [(FlashOp.readPages 0 48, SpiResult.cOk), (FlashOp.readPages 2048 48, SpiResult.cOk),
       (FlashOp.readPages 0 1, SpiResult.cOk), (FlashOp.writePage 0, SpiResult.cOk),
       (FlashOp.readPages 2048 1, SpiResult.cOk), (FlashOp.writePage 2048, SpiResult.cError)] ∧
    tornCommit.sFatals = [FlashException.cFlashTransferError] ∧
    (readAll testParams tornCommit).sFatals = [FlashException.cFlashTransferError] ∧
    (readAll testParams tornCommit).sNextId = 1 ∧
    configView (readAll testParams tornCommit) 0 = [0, 1, 2] ∧
    (readAll testParams tornCommit).sFirstUsablePage = 0 ∧
    (readAll testParams tornCommit).sFirstUsableByteIndex = 5 := by
  decide!

/-- C12 (counterexample): one item of three bytes is committed to both copies without fatal
error; the byte at offset 9 of the first page of copy B, the first byte of the item, is
changed from 0 to 1; the next `readAll` reports `cConfigBadCopy2` and nothing else, so no
`cConfigCopiesMismatch`. -/
theorem corrupted_byte_reports_bad_copy :
    oneItemCommitted.sFatals = [] ∧
    oneItemCommitted.sMemoryFlash (2048 * 256 + 9) = 0 ∧
    (readAll testParams oneItemCorrupted).sFatals = [FlashException.cConfigBadCopy2] := by
  decide!

theorem oneItemCommitted_device :
    oneItemCommitted.sStartPage = 0 ∧ ∀ n, oneItemCommitted.sFaults n = false := by
  have e : oneItemCommitted
      = runCalls testParams (init testParams powerOn 0)
          [Call.addConfig sPattern 3, Call.commit] := by
    simp only [oneItemCommitted, oneItem, testBooted, runCalls, runCall]
  have h := runCalls_device testParams [Call.addConfig sPattern 3, Call.commit]
    (init testParams powerOn 0)
  have h0 := init_device testParams powerOn 0
  rw [e]
  constructor
  · exact h.1.trans h0.1
  · intro n
    rw [h.2, h0.2]
    rfl

/-- The first page of copy B after the commit of `oneItemCommitted`: a configuration page
that holds its checksum; and copy A reads as `cOk` after the change of the byte at offset 9
of that page. -/
theorem oneItemCommitted_page :
    oneItemCommitted.sMemoryFlash (copyBAddress testParams oneItemCommitted + 9) = 0 ∧
    (oneItemCommitted.sMemoryFlash
        (copyBAddress testParams oneItemCommitted + cOffsetPageChecksum) < 256 ∧
      oneItemCommitted.sMemoryFlash
        (copyBAddress testParams oneItemCommitted + (cOffsetPageChecksum + 1)) < 256) ∧
    oneItemCommitted.sMemoryFlash (copyBAddress testParams oneItemCommitted + cOffsetPageMagic)
      = cMagicConfig ∧
    calculateChecksum testParams.cPageSizeInBytes
        (ptrAdd oneItemCommitted.sMemoryFlash (copyBAddress testParams oneItemCommitted))
      = getValue (ptrAdd (ptrAdd oneItemCommitted.sMemoryFlash
          (copyBAddress testParams oneItemCommitted)) cOffsetPageChecksum) ∧
    (readAcopy testParams
      (clear testParams
        (withFlashByte oneItemCommitted (copyBAddress testParams oneItemCommitted + 9) 1)) 0
      Task.cCopy).1 = ReadResult.cOk := by
  decide!

/-- C12 (amended) in the test instantiation: after the commit of one item, the change of the
byte at offset 9 of the first page of copy B from 0 to 1 makes `readAll` report
`cConfigBadCopy2`. -/
theorem corrupted_copy_reported_witness :
    (readAll testParams
      (withFlashByte oneItemCommitted (copyBAddress testParams oneItemCommitted + 9) 1)).sFatals
      = oneItemCommitted.sFatals ++ [FlashException.cConfigBadCopy2] ∧
    (readAll testParams
      (withFlashByte oneItemCommitted (copyBAddress testParams oneItemCommitted + 9) 1)).sNextId
      = (readAcopy testParams (clear testParams
          (withFlashByte oneItemCommitted (copyBAddress testParams oneItemCommitted + 9) 1)) 0
          Task.cCopy).2.sNextId :=
  ⟨((corrupted_copy_reported testParams (by decide) rfl oneItemCommitted 9 1
    oneItemCommitted_device.2 (by decide)
    (by rw [oneItemCommitted_device.1]; decide) (by decide) (by decide)
    (by rw [oneItemCommitted_page.1]; decide) oneItemCommitted_page.2.1
    oneItemCommitted_page.2.2.1 oneItemCommitted_page.2.2.2.1
    (by rw [oneItemCommitted_page.1]; decide) oneItemCommitted_page.2.2.2.2).1 (by decide)).1,
   ((corrupted_copy_reported testParams (by decide) rfl oneItemCommitted 9 1
    oneItemCommitted_device.2 (by decide)
    (by rw [oneItemCommitted_device.1]; decide) (by decide) (by decide)
    (by rw [oneItemCommitted_page.1]; decide) oneItemCommitted_page.2.1
    oneItemCommitted_page.2.2.1 oneItemCommitted_page.2.2.2.1
    (by rw [oneItemCommitted_page.1]; decide) oneItemCommitted_page.2.2.2.2).1
      (by decide)).2.2.1⟩

theorem oneItem_startPage : oneItem.sStartPage = 0 := by
  have e : oneItem
      = runCalls testParams (init testParams powerOn 0) [Call.addConfig sPattern 3] := by
    simp only [oneItem, testBooted, runCalls, runCall]
  rw [e, (runCalls_device testParams _ _).1, (init_device testParams powerOn 0).1]

/-- C14 in the test instantiation, for the commit of one item: the device calls of `commit`
are a list for copy A followed by a list for copy B, the second empty if a call of the
first failed. -/
theorem commit_order_and_report_witness :
    testParams.valid ∧ oneItem.sStartPage % testParams.cSectorSizeInPages = 0 ∧
    ∃ lA lB : List (FlashOp × SpiResult),
      (commit testParams oneItem).sCalls = oneItem.sCalls ++ (lA ++ lB) ∧
      ((∃ c ∈ lA, c.2 ≠ SpiResult.cOk) → lB = []) := by
  have hAlign : oneItem.sStartPage % testParams.cSectorSizeInPages = 0 := by
    rw [oneItem_startPage]
    rfl
  obtain ⟨lA, lB, h1, _, _, h4, _⟩ :=
    commit_order_and_report testParams scenarios_valid.1 rfl oneItem hAlign
  exact ⟨scenarios_valid.1, hAlign, lA, lB, h1, h4⟩

/-- C15 (counterexample): the range `[0, firstUsablePage]` reaches past the copy when the
copy is full.  In a valid dual-copy instantiation with copies of one page, a second
`addConfig` is refused with `cConfigFull` and leaves the cursor at page 1, the size of a
copy; `commit` then reports nothing more, every device call returning `cOk`, and writes the
page of copy A and the page of copy B alike, but for `k = firstUsablePage = 1` the page
`base + k` (the page of copy B, a configuration page) and the page `base + copyPages + k`
(outside the partition, erased) differ in their first byte. -/
theorem mirror_range_passes_copy_end :
    tinyParams.valid ∧ tinyParams.cCopySizeInPages = 1 ∧
    tinyFull.sFatals = [FlashException.cConfigFull] ∧ tinyFull.sFirstUsablePage = 1 ∧
    (commit tinyParams tinyFull).sFatals = [FlashException.cConfigFull] ∧
    (commit tinyParams tinyFull).sCalls.map Prod.snd = List.replicate 6 SpiResult.cOk ∧
    (commit tinyParams tinyFull).sFirstUsablePage = 1 ∧
    (commit tinyParams tinyFull).sMemoryFlash (0 * 256) = 0 ∧
    (commit tinyParams tinyFull).sMemoryFlash ((0 + 1) * 256) = 0 ∧
    (commit tinyParams tinyFull).sMemoryFlash ((0 + 1 + 1) * 256) = 255 := by
  decide!

/-- C15 (amended) in the test instantiation, for `addConfig` of three bytes followed by
`commit`: byte 9 of page 0 of copy A equals byte 9 of page 0 of copy B. -/
theorem copies_mirrored_witness :
    testParams.valid ∧
    (runCalls testParams (init testParams powerOn 0)
        [Call.addConfig sPattern 3, Call.commit]).sMemoryFlash
        ((0 + 0) * testParams.cPageSizeInBytes + 9)
      = (runCalls testParams (init testParams powerOn 0)
          [Call.addConfig sPattern 3, Call.commit]).sMemoryFlash
          ((0 + testParams.cCopySizeInPages + 0) * testParams.cPageSizeInBytes + 9) :=
  ⟨scenarios_valid.1,
   (copies_mirrored testParams scenarios_valid.1 rfl 0 powerOn
     [Call.addConfig sPattern 3, Call.commit] (by decide) (by decide) (by decide)
     (fun _ => rfl) (fun _ _ _ => rfl)
     (by
       intro c hc
       simp only [List.mem_cons, List.mem_singleton, List.not_mem_nil, or_false] at hc
       rcases hc with rfl | rfl <;> exact True.intro)).1 0 9 (by decide) (by decide)⟩

/-- C21: an item that crosses the end of its page.  After `init` on the erased flash,
`addConfig` of 100 bytes and of 147 bytes report no fatal error; the second entry has page
index 0, data offset 113 and count 147, so it ends at offset 260 of a page of 256 bytes, and
the cursor is left at byte index 260. -/
theorem layout_invariant_broken_by_header :
    twoItems.sFatals = [] ∧ twoItems.sNextId = 2 ∧
    (twoItems.sCache 1).getPageIndex = 0 ∧
    (twoItems.sCache 1).getDataOffsetInFirstPage = 113 ∧ (twoItems.sCache 1).getCount = 147 ∧
    (twoItems.sCache 1).getDataOffsetInFirstPage + (twoItems.sCache 1).getCount
      > testParams.cPageSizeInBytes ∧
    twoItems.sFirstUsableByteIndex = 260 := by
  decide!

/-- C24: the page index of an entry loaded at boot.  The item committed to page 0 of both
copies is loaded by `init` without fatal error into an entry with page index 48, the size of
the read-ahead buffer, where `addConfig` had given it page index 0; a later `setConfig` of
other bytes marks page 48 dirty and leaves page 0 clean. -/
theorem boot_entry_page_off_by_chunk :
    rebooted.sFatals = [] ∧ rebooted.sNextId = 1 ∧
    (oneItem.sCache 0).getPageIndex = 0 ∧
    (rebooted.sCache 0).getPageIndex = 48 ∧
    (rebooted.sCache 0).getDataOffsetInFirstPage = 9 ∧ (rebooted.sCache 0).getCount = 3 ∧
    (setConfig rebooted 0 (fun _ => 7)).sDirtyPages 0 = false ∧
    (setConfig rebooted 0 (fun _ => 7)).sDirtyPages 48 = true := by
  decide!

/-- C30: the binary search of `serialize` over all cache slots.  After two `addConfig` of
200 bytes the entries 0 and 1 have page index 0 and 1 and the eighteen slots behind them
are `cVoid` with page index 0; the search for page 1 over the 20 slots gives 20, not the
id 1, so it finds no entry in use. -/
theorem lower_bound_misses_page :
    twoBig.sFatals = [] ∧ twoBig.sNextId = 2 ∧
    (twoBig.sCache 0).getPageIndex = 0 ∧ (twoBig.sCache 1).getPageIndex = 1 ∧
    (twoBig.sCache 2).getPageIndex = 0 ∧ (twoBig.sCache 2).mStatus = Status.cVoid ∧
    lowerBound twoBig.sCache 1 testParams.tMaxItemCount 0 testParams.tMaxItemCount = 20 := by
  decide!

/-- C31: the room test of `addConfig` and the fit test of `serialize` differ.  After
`addConfig` of 100 and of 147 bytes, both without fatal error, the entries 0 and 1 both
have page index 0, and `serialize` of page 0 writes the item count 1 in the header. -/
theorem serialize_drops_item_addConfig_placed :
    twoItems.sFatals = [] ∧
    (twoItems.sCache 0).getPageIndex = 0 ∧ (twoItems.sCache 1).getPageIndex = 0 ∧
    getValue (ptrAdd (bufferPage testParams (serialize testParams twoItems 0 0) 0)
      cOffsetPageCount) = 1 := by
  decide!

/-- C34: no check against `tMaxItemCount`.  In a valid instantiation with four cache
entries, five `addConfig` of one byte report no fatal error, `sNextId` becomes 5, and the
fifth call initialises the entry with index 4. -/
theorem addConfig_past_cache_end :
    tinyParams.valid ∧ tinyParams.tMaxItemCount = 4 ∧
    fiveAdds.sFatals = [] ∧ fiveAdds.sNextId = 5 ∧
    (fiveAdds.sCache 4).mStatus = Status.cFew ∧ (fiveAdds.sCache 4).getCount = 1 := by
  decide!

/-- C28: only the last item of a page decides.  The page holds the items 0 and 1 with the
bytes 0, 1, 2 each and a valid checksum; the cache holds 7, 7, 7 for id 0 and 0, 1, 2 for
id 1, with the counts of the page; `processPage` with task `cCheck` and with task
`cCheckFf` returns `cOk`, not `cErrorMismatch`. -/
theorem mismatch_of_first_item_missed :
    twoSmallChanged.sNextId = 2 ∧
    getValue (ptrAdd twoSmallPage cOffsetPageCount) = 2 ∧
    calculateChecksum 256 twoSmallPage = getValue (ptrAdd twoSmallPage cOffsetPageChecksum) ∧
    (List.range 14).map (ptrAdd twoSmallPage cOffsetPageItems)
      = [0, 0, 3, 0, 0, 1, 2, 1, 0, 3, 0, 0, 1, 2] ∧
    configView twoSmallChanged 0 = [7, 7, 7] ∧ configView twoSmallChanged 1 = [0, 1, 2] ∧
    (processPage testParams twoSmallChanged twoSmallPage 0 Task.cCheck).1 = ReadResult.cOk ∧
    (processPage testParams twoSmallChanged twoSmallPage 0 Task.cCheckFf).1
      = ReadResult.cOk := by
  decide!

/-- C29: a repeated id is accepted.  Page 0 and page 1 of copy A both hold the item with
id 0 and count 3 behind a valid header; reading the copy with task `cCopy` returns `cOk`
with `sNextId = 1`, and `readAll` reports no fatal error. -/
theorem repeated_id_accepted_on_load :
    (List.range 12).map repeatedFlash.sMemoryFlash = [0, 1, 0, 211, 241, 0, 0, 3, 0, 0, 1, 2] ∧
    (List.range 12).map (ptrAdd repeatedFlash.sMemoryFlash 256)
      = [0, 1, 0, 211, 241, 0, 0, 3, 0, 0, 1, 2] ∧
    (readAcopy testParams (clear testParams repeatedFlash) 0 Task.cCopy).1 = ReadResult.cOk ∧
    (readAcopy testParams (clear testParams repeatedFlash) 0 Task.cCopy).2.sNextId = 1 ∧
    (readAll testParams repeatedFlash).sFatals = [] := by
  decide!

/-- C22: a page past the cursor is programmed.  In a valid instantiation with copies of one
sector of two pages, with one item on page 0 (cursor at page 0, byte index 12) and the
dirty map set by `makeAllDirty`, the pass of `commit` over copy A, whose sector reads as
erased, issues `writePage` for page 0 and for page 1, which lies past the cursor. -/
theorem commit_programs_past_cursor :
    pairParams.valid ∧
    allDirty.sFatals = [] ∧ allDirty.sFirstUsablePage = 0 ∧
    allDirty.sFirstUsableByteIndex = 12 ∧
    (commit pairParams allDirty).sFatals = [] ∧
    ((commit pairParams allDirty).sCalls.drop allDirty.sCalls.length).take 3
      = [(FlashOp.readPages 0 1, SpiResult.cOk), (FlashOp.writePage 0, SpiResult.cOk),
         (FlashOp.writePage 1, SpiResult.cOk)] := by
  decide!

/-- C27: an erased sector is erased again.  In the same run sector 1, the sector of
copy B, holds 0xFF in every byte before `commit`, and the pass over copy B issues, after its
`readPages`, an `eraseSector` of sector 1 and then a `writePage` of page 2. -/
theorem erased_sector_erased_again :
    (List.range (2 * 256)).all (fun i => allDirty.sMemoryFlash (2 * 256 + i) == 255) = true ∧
    (commit pairParams allDirty).sCalls.drop (allDirty.sCalls.length + 3)
      = [(FlashOp.readPages 2 1, SpiResult.cOk), (FlashOp.eraseSector 1, SpiResult.cOk),
         (FlashOp.writePage 2, SpiResult.cOk)] := by
  decide!

/-- C25: the on-flash format of a committed page.  In the test instantiation, after `init`
on the erased flash, `addConfig` of the bytes 0x01, 0x02, 0x03 returns the id 0, and after
`commit`, which reports no fatal error, page 0 of copy A and page 0 of copy B hold:
byte 0 = 0x00, bytes 1..2 = 01 00, at bytes 3..4 the little-endian checksum of the page
(0xB7F4, which is what `calculateChecksum` gives for the page), bytes 5..6 = 00 00,
bytes 7..8 = 03 00 and bytes 9..11 = 01 02 03. -/
theorem committed_page_format :
    (∀ i, powerOn.sMemoryFlash i = 0xff) ∧
    (addConfig testParams testBooted oneTwoThree 3).1 = 0 ∧
    formatCommitted.sFatals = [] ∧
    (List.range 12).map formatCommitted.sMemoryFlash
      = [0x00, 0x01, 0x00, 0xf4, 0xb7, 0x00, 0x00, 0x03, 0x00, 0x01, 0x02, 0x03] ∧
    (List.range 12).map (ptrAdd formatCommitted.sMemoryFlash (2048 * 256))
      = [0x00, 0x01, 0x00, 0xf4, 0xb7, 0x00, 0x00, 0x03, 0x00, 0x01, 0x02, 0x03] ∧
    calculateChecksum 256 formatCommitted.sMemoryFlash = 0xb7f4 ∧
    calculateChecksum 256 (ptrAdd formatCommitted.sMemoryFlash (2048 * 256)) = 0xb7f4 :=
  ⟨fun _ => rfl, by decide!⟩

/-- C33 in the test instantiation, for reading copy A after one `addConfig`: the device
calls are `readPages` calls only, at most `ceil(2048 / 48) + 1` of them, for at most 2048
pages in all. -/
theorem commit_and_read_terminate_witness :
    testParams.valid ∧
    ∃ l : List (FlashOp × SpiResult),
      (readAcopy testParams oneItem 0 Task.cCheck).2.sCalls = oneItem.sCalls ++ l ∧
      countReads l = l.length ∧
      l.length ≤ (testParams.cCopySizeInPages + testParams.tReadAheadSizeInPages - 1)
        / testParams.tReadAheadSizeInPages + 1 ∧
      pagesRequested l ≤ testParams.cCopySizeInPages :=
  ⟨scenarios_valid.1,
   (commit_and_read_terminate testParams scenarios_valid.1 oneItem 0 Task.cCheck).2.2.2.2.2.2⟩

end nowtech.memory
